import Mathlib

/-!
# nginx-automake: a shallow embedding of the build-job engine

The Go sources embedded here are `internal/parser/nginx.go`,
`internal/modules/registry.go`, `internal/job/history.go` and
`internal/job/queue.go`.

Modelling conventions.

* A Go `string` is the list of its runes (`Str`); only valid UTF-8 text is
  covered.  Offsets returned by `Index` count runes instead of bytes; every
  use in the sources slices the same string the offset came from, so the
  selected substring is the same.
* An `error` is represented by its text; `nil` is `none`.
* Files, directories and subprocesses live in an abstract world `W`; every
  call into the operating system is a field of `Env W`, a state transformer
  returning the outcome of the call.
* The job map of the queue holds pointers; the model keys the live job
  records by job id, which is how `Enqueue` registers them.
-/

namespace NginxAutomake

/-- A Go string, as the list of its runes. -/
abbrev Str := List Char

/-! ## Characters used by the sources -/

/-- The single quote rune. -/
def chSQuote : Char := Char.ofNat 39
/-- The double quote rune. -/
def chDQuote : Char := Char.ofNat 34
/-- The backslash rune. -/
def chBackslash : Char := Char.ofNat 92
/-- The line feed rune. -/
def chNewline : Char := Char.ofNat 10
/-- The horizontal tab rune. -/
def chTab : Char := Char.ofNat 9

/-! ## Package `strings`, `unicode` and `regexp` as used by the sources -/

/-- Go `unicode.IsSpace`: the Latin-1 spaces and the runes with the Unicode
White_Space property. -/
def isSpace (c : Char) : Bool :=
  let n := c.toNat
  n == 9 || n == 10 || n == 11 || n == 12 || n == 13 || n == 32 || n == 0x85 || n == 0xA0 ||
  n == 0x1680 || (0x2000 ≤ n && n ≤ 0x200A) || n == 0x2028 || n == 0x2029 || n == 0x202F ||
  n == 0x205F || n == 0x3000

/-- Go `strings.TrimSpace`. -/
def TrimSpace (s : Str) : Str := (s.dropWhile isSpace).rdropWhile isSpace

/-- Go `strings.HasPrefix`. -/
def HasPrefix (s pre : Str) : Bool := pre.isPrefixOf s

/-- Go `strings.Index`: the offset of the first occurrence of `sub` in `s`,
`none` standing for `-1`. -/
def Index : Str → Str → Option Nat
  | [], sub => if sub.isEmpty then some 0 else none
  | c :: t, sub => if HasPrefix (c :: t) sub then some 0 else (Index t sub).map (· + 1)

/-- Go `strings.Contains`. -/
def Contains (s sub : Str) : Bool := (Index s sub).isSome

/-- Go `strings.Split(s, "\n")`. -/
def Split : Str → List Str
  | [] => [[]]
  | c :: t =>
    if c = chNewline then [] :: Split t
    else
      match Split t with
      | [] => [[c]]
      | l :: ls => (c :: l) :: ls

/-- Go `strings.Join`. -/
def Join : List Str → Str → Str
  | [], _ => []
  | [a], _ => a
  | a :: b :: t, sep => a ++ sep ++ Join (b :: t) sep

/-- The character class `[0-9.]`. -/
def isDigitOrDot (c : Char) : Bool := c.isDigit || c == '.'

/-- A match of `[0-9]+\.[0-9.]+` anchored at the start of `s`: the matched
text, both repetitions being greedy. -/
def matchVersionHere (s : Str) : Option Str :=
  let d := s.takeWhile Char.isDigit
  if d.isEmpty then none
  else
    match s.dropWhile Char.isDigit with
    | c :: r =>
      if c = '.' then
        let e := r.takeWhile isDigitOrDot
        if e.isEmpty then none else some (d ++ '.' :: e)
      else none
    | [] => none

/-! ## `internal/parser/nginx.go` -/

structure ParseResult where
  Version : Str
  ConfigureArguments : Str
  Arguments : List Str
  Modules : List Str
  BuiltBy : Str
  BuiltWith : Str
  Compiler : Str
deriving DecidableEq

/-- The zero value `&ParseResult{}`. -/
def ParseResult.zero : ParseResult := ⟨[], [], [], [], [], [], []⟩

/-- The sub-match of `versionRe.FindStringSubmatch` for
`nginx/([0-9]+\.[0-9.]+)`: the capture group of the leftmost match, `none`
when the expression does not match. -/
def versionReFind : Str → Option Str
  | [] => none
  | c :: t =>
    if HasPrefix (c :: t) "nginx/".toList then
      match matchVersionHere ((c :: t).drop 6) with
      | some v => some v
      | none => versionReFind t
    else versionReFind t

/-- The expression `plainVersionRe.MatchString` for `^[0-9]+\.[0-9.]+$`. -/
def plainVersionReMatch (s : Str) : Bool :=
  match matchVersionHere s with
  | some v => v.length == s.length
  | none => false

/-- The state of the loop of `splitShellArgs`. -/
structure SplitState where
  args : List Str
  current : Str
  inQuotes : Char
  escaped : Bool
deriving DecidableEq

/-- The closure `flush` of `splitShellArgs`. -/
def SplitState.flush (st : SplitState) : SplitState :=
  if st.current.length > 0 then { st with args := st.args ++ [st.current], current := [] }
  else st

/-- One iteration of the loop of `splitShellArgs`. -/
def SplitState.step (st : SplitState) (r : Char) : SplitState :=
  if st.escaped then { st with current := st.current ++ [r], escaped := false }
  else if r = chBackslash then { st with escaped := true }
  else if st.inQuotes ≠ Char.ofNat 0 then
    if r = st.inQuotes then { st with inQuotes := Char.ofNat 0 }
    else { st with current := st.current ++ [r] }
  else if r = chSQuote ∨ r = chDQuote then { st with inQuotes := r }
  else if r = ' ' ∨ r = chNewline ∨ r = chTab then st.flush
  else { st with current := st.current ++ [r] }

def splitShellArgs (input : Str) : List Str :=
  ((input.foldl SplitState.step ⟨[], [], Char.ofNat 0, false⟩).flush).args

/-- The condition of the loop of `extractModules`. -/
def isModuleArg (arg : Str) : Bool :=
  HasPrefix arg "--with-".toList || HasPrefix arg "--add-module=".toList ||
  HasPrefix arg "--add-dynamic-module=".toList || HasPrefix arg "--without-".toList

/-- The function `extractModules`; the state is the pair of `modules` and the
keys of `seen`. -/
def extractModules (args : List Str) : List Str :=
  (args.foldl
    (fun (st : List Str × List Str) arg =>
      if isModuleArg arg then
        if arg ∈ st.2 then st else (st.1 ++ [arg], arg :: st.2)
      else st)
    ([], [])).1

/-- The body of the loop of `ParseNginxV`. -/
def parseLine (result : ParseResult) (line : Str) : ParseResult :=
  let trimmed := TrimSpace line
  if trimmed = [] then result
  else if Contains trimmed "nginx version:".toList then
    match versionReFind trimmed with
    | some v => { result with Version := v }
    | none => result
  else if Contains trimmed "configure arguments:".toList then
    match Index trimmed "configure arguments:".toList with
    | some idx =>
      { result with
        ConfigureArguments := TrimSpace (trimmed.drop (idx + "configure arguments:".toList.length)) }
    | none => result
  else if Contains trimmed "built by".toList then { result with BuiltBy := trimmed }
  else if Contains trimmed "built with".toList then { result with BuiltWith := trimmed }
  else if Contains trimmed "gcc".toList || Contains trimmed "clang".toList then
    if result.Compiler = [] then { result with Compiler := trimmed } else result
  else result

def ParseNginxV (output : Str) : Except Str ParseResult :=
  let result := (Split output).foldl parseLine ParseResult.zero
  if result.Version = [] then
    .error "无法解析 Nginx 版本，请确认输出中包含 nginx version".toList
  else if result.ConfigureArguments = [] then
    .error "无法解析 configure arguments，请确认输出包含 configure arguments".toList
  else
    let args := splitShellArgs result.ConfigureArguments
    .ok { result with Arguments := args, Modules := extractModules args }

def ValidVersion (version : Str) : Bool := plainVersionReMatch (TrimSpace version)

/-! ## `internal/modules/registry.go` -/

structure Module where
  Name : Str
  Repo : Str
  Description : Str
  Flag : Str
  Path : Str
deriving DecidableEq

/-- The character class `[a-zA-Z0-9._-]`. -/
def isModuleNameChar (c : Char) : Bool :=
  c.isLower || c.isUpper || c.isDigit || c == '.' || c == '_' || c == '-'

/-- The expression `validModuleName.MatchString` for `^[a-zA-Z0-9._-]+$`. -/
def validModuleName (s : Str) : Bool := !s.isEmpty && s.all isModuleNameChar

def ValidateCustomModule (name repo flag : Str) : Except Str Module :=
  if TrimSpace name = [] then .error "模块名称不能为空".toList
  else if !validModuleName name then
    .error "模块名称仅支持字母、数字、点、下划线和短横线".toList
  else if TrimSpace repo = [] then .error "模块仓库地址不能为空".toList
  else if !HasPrefix repo "https://".toList then .error "仅支持 https Git 仓库地址".toList
  else
    let flag := if flag = [] then "add-module".toList else flag
    if flag ≠ "add-module".toList ∧ flag ≠ "add-dynamic-module".toList then
      .error "模块类型仅支持 add-module 或 add-dynamic-module".toList
    else .ok ⟨name, repo, [], flag, []⟩

def ModuleFlag (mod : Module) : Str :=
  if mod.Flag = "add-dynamic-module".toList then "--add-dynamic-module".toList
  else "--add-module".toList

/-! ## The operating system -/

structure HistoryEntry where
  ID : Str
  CreatedAt : Nat
  Version : Str
  Modules : List Str
  Status : Str
  Artifact : Str
  Error : Str
deriving DecidableEq

/-- The calls the sources make into the operating system and the standard
library, over an abstract world `W`.  `exec` stands for one subprocess run
under the deadline of the job: it yields the lines the two stream readers
hand to `appendLog`, in the order they arrive, and the error of the run. -/
structure Env (W : Type) where
  Join : List Str → Str
  Dir : Str → Str
  IsAbs : Str → Bool
  NumCPU : Int
  MarshalIndent : List HistoryEntry → Except Str Str
  MkdirAll : Str → W → Option Str × W
  Stat : Str → W → Option Str × W
  WriteFile : Str → Str → W → Option Str × W
  Open : Str → W → Option Str × W
  Create : Str → W → Option Str × W
  Copy : Str → Str → W → Option Str × W
  Sync : Str → W → Option Str × W
  exec : Str → Str → List Str → W → (List Str × Option Str) × W

/-- Go `fmt.Sprintf("%d", n)`. -/
def formatInt (n : Int) : Str :=
  if n < 0 then '-' :: Nat.toDigits 10 n.natAbs else Nat.toDigits 10 n.natAbs

/-- The function `ResolveModulePath` of `internal/modules/registry.go`. -/
def ResolveModulePath {W : Type} (env : Env W) (mod : Module) (modulesDir workDir : Str) (w : W) :
    Except Str Str × W :=
  if mod.Path ≠ [] then
    if env.IsAbs mod.Path then (.ok mod.Path, w)
    else (.ok (env.Join [modulesDir, mod.Path]), w)
  else if mod.Repo = [] then (.error ("模块 ".toList ++ mod.Name ++ " 没有仓库地址".toList), w)
  else
    let cloneDir := env.Join [workDir, "modules".toList, mod.Name]
    match env.MkdirAll (env.Dir cloneDir) w with
    | (some err, w1) => (.error err, w1)
    | (none, w1) => (.ok cloneDir, w1)

/-! ## `internal/job/history.go` -/

structure HistoryStore where
  path : Str
  list : List HistoryEntry
deriving DecidableEq

def HistoryStore.List (h : HistoryStore) : List HistoryEntry := h.list

def HistoryStore.persistLocked {W : Type} (env : Env W) (h : HistoryStore) (w : W) :
    Option Str × W :=
  if h.path = [] then (none, w)
  else
    match env.MkdirAll (env.Dir h.path) w with
    | (some err, w1) => (some err, w1)
    | (none, w1) =>
      match env.MarshalIndent h.list with
      | .error err => (some err, w1)
      | .ok data => env.WriteFile h.path data w1

def HistoryStore.Append {W : Type} (env : Env W) (h : HistoryStore) (entry : HistoryEntry)
    (w : W) : (HistoryStore × Option Str) × W :=
  let h1 : HistoryStore := { h with list := entry :: h.list }
  let h2 : HistoryStore := if h1.list.length > 200 then { h1 with list := h1.list.take 200 } else h1
  match h2.persistLocked env w with
  | (err, w1) => ((h2, err), w1)

/-! ## `internal/job/queue.go` -/

def StatusQueued : Str := "queued".toList
def StatusRunning : Str := "running".toList
def StatusSuccess : Str := "success".toList
def StatusFailed : Str := "failed".toList

def StepPending : Str := "pending".toList
def StepRunning : Str := "running".toList
def StepSuccess : Str := "success".toList
def StepFailed : Str := "failed".toList
def StepSkipped : Str := "skipped".toList

structure Step where
  Name : Str
  Status : Str
  Message : Str
deriving DecidableEq

structure CustomModuleReq where
  Name : Str
  Repo : Str
  Flag : Str
deriving DecidableEq

structure BuildRequest where
  Output : Str
  ModuleNames : List Str
  CustomModules : List CustomModuleReq
  TargetVersion : Str
deriving DecidableEq

structure Job where
  ID : Str
  CreatedAt : Nat
  Status : Str
  Steps : List Step
  Logs : List Str
  Error : Str
  ArtifactPath : Str
  Script : Str
  Result : Option ParseResult
  Request : BuildRequest
deriving DecidableEq

/-- The queue: the job map keyed by id, the configured directories, the lookup
of the registry (`Registry.Get`) and the history store when one is set.  The
channel, the worker count and the timeout are not part of the state: one call
of `Queue.worker` below is one iteration of a worker, and the timeout acts
through the outcomes of `Env.exec`. -/
structure Queue where
  jobs : Str → Option Job
  modulesDir : Str
  workRoot : Str
  registry : Str → Option Module
  history : Option HistoryStore

/-- The names of the five steps, in the order of `Enqueue`. -/
def stepNames : List Str :=
  ["解析配置".toList, "准备源代码".toList, "准备模块".toList, "执行编译".toList, "整理产物".toList]

/-- The job record built by `Enqueue` for a fresh id. -/
def newJob (jobID : Str) (now : Nat) (req : BuildRequest) : Job :=
  { ID := jobID, CreatedAt := now, Status := StatusQueued,
    Steps := stepNames.map (fun n => ⟨n, StepPending, []⟩),
    Logs := [], Error := [], ArtifactPath := [], Script := [], Result := none, Request := req }

/-- The function `Enqueue` after `randomID` has returned `jobID`: the new job is
registered in the map. -/
def Queue.Enqueue (q : Queue) (jobID : Str) (now : Nat) (req : BuildRequest) : Job × Queue :=
  (newJob jobID now req, { q with jobs := Function.update q.jobs jobID (some (newJob jobID now req)) })

def Queue.Get (q : Queue) (id : Str) : Option Job := q.jobs id

/-- A write to the record of job `jobID` in the map; nothing happens when the id
is absent (`if !ok { return }`). -/
def Queue.withJob (q : Queue) (jobID : Str) (f : Job → Job) : Queue :=
  match q.jobs jobID with
  | none => q
  | some job => { q with jobs := Function.update q.jobs jobID (some (f job)) }

/-- The trimming and the append of `appendLog`, on the log itself. -/
def appendLine (logs : List Str) (line : Str) : List Str :=
  (if logs.length > 2000 then logs.drop (logs.length - 1500) else logs) ++ [line]

def Queue.appendLog (q : Queue) (jobID line : Str) : Queue :=
  q.withJob jobID (fun job => { job with Logs := appendLine job.Logs line })

/-- The loop of `setStep`: the first step with the given name is updated. -/
def setStepIn (name status message : Str) : List Step → List Step
  | [] => []
  | s :: rest =>
    if s.Name = name then { s with Status := status, Message := message } :: rest
    else s :: setStepIn name status message rest

def Queue.setStep (q : Queue) (jobID name status message : Str) : Queue :=
  q.withJob jobID (fun job => { job with Steps := setStepIn name status message job.Steps })

def Queue.updateStatus (q : Queue) (jobID status : Str) : Queue :=
  q.withJob jobID (fun job => { job with Status := status })

def Queue.failJob {W : Type} (env : Env W) (q : Queue) (jobID err : Str) (w : W) : Queue × W :=
  match q.jobs jobID with
  | none => (q, w)
  | some job0 =>
    let job : Job := { job0 with Status := StatusFailed, Error := err }
    let q1 : Queue := { q with jobs := Function.update q.jobs jobID (some job) }
    match q1.history, job.Result with
    | some h, some res =>
      let entry : HistoryEntry :=
        { ID := job.ID, CreatedAt := job.CreatedAt, Version := res.Version,
          Modules := job.Request.ModuleNames, Status := job.Status, Artifact := [],
          Error := job.Error }
      match h.Append env entry w with
      | ((h1, _), w1) => ({ q1 with history := some h1 }, w1)
    | _, _ => (q1, w)

def copyFile {W : Type} (env : Env W) (src dst : Str) (w : W) : Option Str × W :=
  match env.Open src w with
  | (some err, w1) => (some err, w1)
  | (none, w1) =>
    match env.Create dst w1 with
    | (some err, w2) => (some err, w2)
    | (none, w2) =>
      match env.Copy src dst w2 with
      | (some err, w3) => (some err, w3)
      | (none, w3) => env.Sync dst w3

/-- The function `max` of `queue.go`. -/
def max64 (a b : Int) : Int := if a > b then a else b

def buildScript (version : Str) (configureArgs : List Str) : Str :=
  "#!/usr/bin/env bash\nset -euo pipefail\n\nVERSION=".toList ++ version ++
  "\nWORKDIR=./build-$VERSION\n\nmkdir -p $WORKDIR\ncd $WORKDIR\n\ncurl -fSL https://nginx.org/download/nginx-$VERSION.tar.gz -o nginx.tar.gz\ntar -xzf nginx.tar.gz\ncd nginx-$VERSION\n\n./configure ".toList ++
  Join configureArgs " ".toList ++
  "\nmake -j$(nproc)\n\ncp objs/nginx ./nginx-$VERSION\n".toList

def Queue.ValidateRequest (req : BuildRequest) : Option Str :=
  if TrimSpace req.Output = [] then some "nginx -V 输出不能为空".toList
  else if TrimSpace req.TargetVersion ≠ [] ∧ !ValidVersion req.TargetVersion then
    some "目标版本号格式不正确，例如 1.24.0".toList
  else none

/-- The loop of `composeConfigureArgs`. -/
def composeFiltered (original : List Str) : List Str :=
  original.foldl
    (fun filtered arg =>
      if HasPrefix arg "--add-module=".toList || HasPrefix arg "--add-dynamic-module=".toList
      then filtered else filtered ++ [arg])
    []

def Queue.composeConfigureArgs (original moduleArgs : List Str) : List Str :=
  composeFiltered original ++ moduleArgs

def Queue.runCommand {W : Type} (env : Env W) (q : Queue) (jobID dir name : Str)
    (args : List Str) (w : W) : (Queue × Option Str) × W :=
  match env.exec dir name args w with
  | ((lines, err), w1) => ((lines.foldl (fun q1 line => q1.appendLog jobID line) q, err), w1)

def Queue.cloneModule {W : Type} (env : Env W) (q : Queue) (jobID repo dir : Str) (w : W) :
    (Queue × Option Str) × W :=
  match env.Stat dir w with
  | (none, w1) => ((q, none), w1)
  | (some _, w1) =>
    q.runCommand env jobID (env.Dir dir) "git".toList
      ["clone".toList, "--depth".toList, "1".toList, repo, dir] w1

/-- Go `fmt.Sprintf("%s=%s", modules.ModuleFlag(mod), modulePath)`. -/
def moduleArg (mod : Module) (modulePath : Str) : Str := ModuleFlag mod ++ '=' :: modulePath

/-- The first loop of `prepareModules`, over the preset module names. -/
def Queue.preparePresets {W : Type} (env : Env W) (jobID workDir : Str) :
    List Str → Queue → List Str → W → (Queue × Except Str (List Str)) × W
  | [], q, moduleArgs, w => ((q, .ok moduleArgs), w)
  | name :: rest, q, moduleArgs, w =>
    match q.registry name with
    | none => ((q, .error ("模块 ".toList ++ name ++ " 未在预设列表中".toList)), w)
    | some mod =>
      match ResolveModulePath env mod q.modulesDir workDir w with
      | (.error err, w1) => ((q, .error err), w1)
      | (.ok modulePath, w1) =>
        if mod.Path = [] then
          match q.cloneModule env jobID mod.Repo modulePath w1 with
          | ((q1, some err), w2) => ((q1, .error err), w2)
          | ((q1, none), w2) =>
            Queue.preparePresets env jobID workDir rest q1 (moduleArgs ++ [moduleArg mod modulePath]) w2
        else
          match env.Stat modulePath w1 with
          | (some _, w2) =>
            if mod.Repo = [] then
              ((q, .error ("预置模块 ".toList ++ name ++ " 未找到，请提前下载到 ".toList ++ modulePath)), w2)
            else
              match q.cloneModule env jobID mod.Repo modulePath w2 with
              | ((q1, some err), w3) => ((q1, .error err), w3)
              | ((q1, none), w3) =>
                Queue.preparePresets env jobID workDir rest q1
                  (moduleArgs ++ [moduleArg mod modulePath]) w3
          | (none, w2) =>
            Queue.preparePresets env jobID workDir rest q (moduleArgs ++ [moduleArg mod modulePath]) w2

/-- The second loop of `prepareModules`, over the custom module requests. -/
def Queue.prepareCustoms {W : Type} (env : Env W) (jobID workDir : Str) :
    List CustomModuleReq → Queue → List Str → W → (Queue × Except Str (List Str)) × W
  | [], q, moduleArgs, w => ((q, .ok moduleArgs), w)
  | custom :: rest, q, moduleArgs, w =>
    match ValidateCustomModule custom.Name custom.Repo custom.Flag with
    | .error err => ((q, .error err), w)
    | .ok mod =>
      match ResolveModulePath env mod q.modulesDir workDir w with
      | (.error err, w1) => ((q, .error err), w1)
      | (.ok modulePath, w1) =>
        match q.cloneModule env jobID mod.Repo modulePath w1 with
        | ((q1, some err), w2) => ((q1, .error err), w2)
        | ((q1, none), w2) =>
          Queue.prepareCustoms env jobID workDir rest q1 (moduleArgs ++ [moduleArg mod modulePath]) w2

def Queue.prepareModules {W : Type} (env : Env W) (q : Queue) (job : Job) (workDir : Str) (w : W) :
    (Queue × Except Str (List Str)) × W :=
  match Queue.preparePresets env job.ID workDir job.Request.ModuleNames q [] w with
  | ((q1, .error err), w1) => ((q1, .error err), w1)
  | ((q1, .ok moduleArgs), w1) =>
    Queue.prepareCustoms env job.ID workDir job.Request.CustomModules q1 moduleArgs w1

def Queue.runJob {W : Type} (env : Env W) (q : Queue) (job : Job) (w : W) :
    (Queue × Option Str) × W :=
  match ParseNginxV job.Request.Output with
  | .error err => ((q.setStep job.ID "解析配置".toList StepFailed err, some err), w)
  | .ok parsed0 =>
    let parsed : ParseResult :=
      if TrimSpace job.Request.TargetVersion ≠ [] then
        { parsed0 with Version := TrimSpace job.Request.TargetVersion }
      else parsed0
    let q1 := (q.setStep job.ID "解析配置".toList StepSuccess "解析完成".toList).withJob job.ID
      (fun j => { j with Result := some parsed })
    let workDir := env.Join [q.workRoot, job.ID]
    match env.MkdirAll workDir w with
    | (some err, w1) => ((q1.setStep job.ID "准备源代码".toList StepFailed err, some err), w1)
    | (none, w1) =>
      let nginxTar := env.Join [workDir, "nginx-".toList ++ parsed.Version ++ ".tar.gz".toList]
      let srcDir := env.Join [workDir, "nginx-".toList ++ parsed.Version]
      let q2 := q1.setStep job.ID "准备源代码".toList StepRunning "下载 Nginx 源码".toList
      match q2.runCommand env job.ID workDir "curl".toList
          ["-fSL".toList,
           "https://nginx.org/download/nginx-".toList ++ parsed.Version ++ ".tar.gz".toList,
           "-o".toList, nginxTar] w1 with
      | ((q3, some err), w2) =>
        ((q3.setStep job.ID "准备源代码".toList StepFailed err, some err), w2)
      | ((q3, none), w2) =>
        match q3.runCommand env job.ID workDir "tar".toList ["-xzf".toList, nginxTar] w2 with
        | ((q4, some err), w3) =>
          ((q4.setStep job.ID "准备源代码".toList StepFailed err, some err), w3)
        | ((q4, none), w3) =>
          let q5 := (q4.setStep job.ID "准备源代码".toList StepSuccess "源码就绪".toList).setStep
            job.ID "准备模块".toList StepRunning "同步模块".toList
          match q5.prepareModules env job workDir w3 with
          | ((q6, .error err), w4) =>
            ((q6.setStep job.ID "准备模块".toList StepFailed err, some err), w4)
          | ((q6, .ok moduleArgs), w4) =>
            let q7 := (q6.setStep job.ID "准备模块".toList StepSuccess "模块就绪".toList).setStep
              job.ID "执行编译".toList StepRunning "执行 configure".toList
            let configureArgs := Queue.composeConfigureArgs parsed.Arguments moduleArgs
            let q8 := q7.withJob job.ID
              (fun j => { j with Script := buildScript parsed.Version configureArgs })
            match q8.runCommand env job.ID srcDir "./configure".toList configureArgs w4 with
            | ((q9, some err), w5) =>
              ((q9.setStep job.ID "执行编译".toList StepFailed err, some err), w5)
            | ((q9, none), w5) =>
              let q10 := q9.appendLog job.ID "configure 完成，开始编译".toList
              match q10.runCommand env job.ID srcDir "make".toList
                  ["-j".toList, formatInt (max64 1 env.NumCPU)] w5 with
              | ((q11, some err), w6) =>
                ((q11.setStep job.ID "执行编译".toList StepFailed err, some err), w6)
              | ((q11, none), w6) =>
                let q12 := (q11.setStep job.ID "执行编译".toList StepSuccess "编译完成".toList).setStep
                  job.ID "整理产物".toList StepRunning "整理 nginx 二进制".toList
                let artifactDir := env.Join [workDir, "artifact".toList]
                match env.MkdirAll artifactDir w6 with
                | (some err, w7) =>
                  ((q12.setStep job.ID "整理产物".toList StepFailed err, some err), w7)
                | (none, w7) =>
                  let srcBinary := env.Join [srcDir, "objs".toList, "nginx".toList]
                  let artifact := env.Join [artifactDir, "nginx-".toList ++ parsed.Version]
                  match copyFile env srcBinary artifact w7 with
                  | (some err, w8) =>
                    ((q12.setStep job.ID "整理产物".toList StepFailed err, some err), w8)
                  | (none, w8) =>
                    let q13 := (q12.withJob job.ID (fun j => { j with ArtifactPath := artifact })).setStep
                      job.ID "整理产物".toList StepSuccess "产物已生成".toList
                    match q13.history with
                    | some h =>
                      let entry : HistoryEntry :=
                        { ID := job.ID, CreatedAt := job.CreatedAt, Version := parsed.Version,
                          Modules := job.Request.ModuleNames, Status := StatusSuccess,
                          Artifact := artifact, Error := [] }
                      match h.Append env entry w8 with
                      | ((h1, _), w9) => (({ q13 with history := some h1 }, none), w9)
                    | none => ((q13, none), w8)

/-- One iteration of the loop of `worker`, for the job received from the
channel. -/
def Queue.worker {W : Type} (env : Env W) (q : Queue) (job : Job) (w : W) : Queue × W :=
  let q1 := q.updateStatus job.ID StatusRunning
  match q1.runJob env job w with
  | ((q2, some err), w1) => q2.failJob env job.ID err w1
  | ((q2, none), w1) => (q2.updateStatus job.ID StatusSuccess, w1)

/-! ## Sequences of calls and concrete inputs used by the theorems -/

/-- A sequence of `appendLog` calls for one job. -/
def Queue.appendLogs (q : Queue) (jobID : Str) (lines : List Str) : Queue :=
  lines.foldl (fun q1 line => q1.appendLog jobID line) q

/-- A sequence of `Append` calls on a history store, oldest call first. -/
def historyAppendAll {W : Type} (env : Env W) :
    List HistoryEntry → HistoryStore → W → HistoryStore × W
  | [], h, w => (h, w)
  | e :: es, h, w =>
    match h.Append env e w with
    | ((h1, _), w1) => historyAppendAll env es h1 w1

/-- An argument carries an add-module or add-dynamic-module flag. -/
def isAddModuleArg (arg : Str) : Bool :=
  HasPrefix arg "--add-module=".toList || HasPrefix arg "--add-dynamic-module=".toList

/-- The wording of the specification for a version override: a three-part
dotted number, digits `.` digits `.` digits. -/
def isThreePartVersion (s : Str) : Bool :=
  match s.splitOn '.' with
  | [a, b, c] =>
    (!a.isEmpty && a.all Char.isDigit) && (!b.isEmpty && b.all Char.isDigit) &&
      (!c.isEmpty && c.all Char.isDigit)
  | _ => false

/-- The form accepted by `plainVersionRe`: digits, a dot, then one or more
digits or dots. -/
def LooseVersion (s : Str) : Prop :=
  ∃ d e : Str, d ≠ [] ∧ (∀ c ∈ d, c.isDigit = true) ∧ e ≠ [] ∧
    (∀ c ∈ e, c.isDigit = true ∨ c = '.') ∧ s = d ++ '.' :: e

/-- The runes allowed in a module name: ASCII letters, digits, dot, underscore
and hyphen. -/
def ModuleNameRune (c : Char) : Prop :=
  (97 ≤ c.toNat ∧ c.toNat ≤ 122) ∨ (65 ≤ c.toNat ∧ c.toNat ≤ 90) ∨
    (48 ≤ c.toNat ∧ c.toNat ≤ 57) ∨ c = '.' ∨ c = '_' ∨ c = '-'

/-- An argument `p` followed by the value `v` wrapped in a pair of quotes `q`. -/
def quotedArg (q : Char) (pv : Str × Str) : Str := pv.1 ++ q :: (pv.2 ++ [q])

/-- A rune that `splitShellArgs` copies outside quotes: no separator (space,
line feed, tab), no quote and no backslash. -/
def PlainRune (c : Char) : Prop :=
  c ≠ ' ' ∧ c ≠ chNewline ∧ c ≠ chTab ∧ c ≠ chSQuote ∧ c ≠ chDQuote ∧ c ≠ chBackslash

/-- The input of the example of tokenizing: the first value is wrapped in single
quotes and holds a space. -/
def quotedExample : Str :=
  "--with-cc-opt=".toList ++ chSQuote :: ("-O2 -g".toList ++ chSQuote :: " --prefix=/etc/nginx".toList)

/-- Two arguments with values to be quoted; the first value holds a space. -/
def samplePairs : List (Str × Str) :=
  [("--with-cc-opt=".toList, "-O2 -g".toList), ("--prefix=".toList, "/etc/nginx".toList)]

/-- The record of job `id` in the map with its log erased: the fields other than
the streamed output. -/
def Queue.view (q : Queue) (id : Str) : Option Job :=
  (q.jobs id).map (fun j => { j with Logs := [] })

/-- The messages `runJob` leaves on the five steps when they succeed. -/
def successMessages : List Str :=
  ["解析完成".toList, "源码就绪".toList, "模块就绪".toList, "编译完成".toList, "产物已生成".toList]

/-- The steps of a job whose stage number `k` failed with the error `e`: the
stages before `k` succeeded, the stages after `k` are still pending. -/
def stepsFailedAt (k : Nat) (e : Str) : List Step :=
  (List.zip stepNames successMessages).enum.map
    (fun x =>
      if x.1 < k then ⟨x.2.1, StepSuccess, x.2.2⟩
      else if x.1 = k then ⟨x.2.1, StepFailed, e⟩
      else ⟨x.2.1, StepPending, []⟩)

/-- The parse result after the version override of the request is applied. -/
def resolveVersion (req : BuildRequest) (parsed : ParseResult) : ParseResult :=
  if TrimSpace req.TargetVersion ≠ [] then { parsed with Version := TrimSpace req.TargetVersion }
  else parsed

/-- The artifact path `runJob` records for a version: the nested
`filepath.Join` of the work root, the job id, `artifact` and `nginx-<version>`. -/
def artifactPath {W : Type} (env : Env W) (workRoot id version : Str) : Str :=
  env.Join [env.Join [env.Join [workRoot, id], "artifact".toList], "nginx-".toList ++ version]

/-- The history entry `runJob` appends after a successful run. -/
def successEntry {W : Type} (env : Env W) (workRoot : Str) (job : Job) (version : Str) :
    HistoryEntry :=
  { ID := job.ID, CreatedAt := job.CreatedAt, Version := version,
    Modules := job.Request.ModuleNames, Status := StatusSuccess,
    Artifact := artifactPath env workRoot job.ID version, Error := [] }

/-- The history entry `failJob` appends for a failed job. -/
def failedEntry (job : Job) (version err : Str) : HistoryEntry :=
  { ID := job.ID, CreatedAt := job.CreatedAt, Version := version,
    Modules := job.Request.ModuleNames, Status := StatusFailed, Artifact := [], Error := err }

/-- A queue holding one registered job, `j1`, as `Enqueue` creates it for the
request, with the given history store. -/
def queueFor (req : BuildRequest) (history : Option HistoryStore) : Queue :=
  { jobs := fun id => if id = "j1".toList then some (newJob "j1".toList 0 req) else none,
    modulesDir := "./modules".toList, workRoot := "/tmp/nginx-build".toList,
    registry := fun _ => none, history := history }

/-- A build request whose diagnostic text parses and whose first preset module is
not in the registry, with a version override. -/
def unknownModuleRequest : BuildRequest :=
  { Output := "nginx version: nginx/1.24.0\nconfigure arguments: --prefix=/etc/nginx".toList,
    ModuleNames := ["brotli".toList], CustomModules := [], TargetVersion := " 1.26.1 ".toList }

/-- The text after the first occurrence of `sub` in `s`, as `ParseNginxV`
slices it: `s[Index(s, sub)+len(sub):]`. -/
def restAfter (s sub : Str) : Option Str :=
  (Index s sub).map (fun idx => s.drop (idx + sub.length))

/-- The marker of the version line. -/
def markerVersion : Str := "nginx version:".toList

/-- The marker of the line of configure arguments. -/
def markerArguments : Str := "configure arguments:".toList

/-- A match of `versionRe` starts at the beginning of `s`: the text `nginx/`
followed by digits, a dot, then one or more digits or dots. -/
def VersionAt (s : Str) : Prop :=
  ∃ v t : Str, LooseVersion v ∧ s = "nginx/".toList ++ v ++ t

/-- The hypothesis of the parsing claim on a diagnostic text, for a version `v`
and a remainder `r`.  Exactly one line contains `nginx version:`, and it reads
`a`, `nginx/`, `v`, `b` with `v` digits, a dot, then one or more digits or dots,
and `b` not starting with a digit or dot; exactly one other line contains
`configure arguments:`, and it reads `c`, the marker, `r`, with `r` not blank.
With `first = true` the two occurrences are moreover the first ones: no match of
the version expression starts inside `a`, and the marker does not occur at an
offset inside `c`. -/
def Marked (first : Bool) (text v r : Str) : Prop :=
  ∃ (i j : Nat) (a b c : Str),
    i ≠ j ∧
    (Split text).get? i = some (a ++ "nginx/".toList ++ v ++ b) ∧
    Contains (a ++ "nginx/".toList ++ v ++ b) markerVersion = true ∧
    (∀ k l, (Split text).get? k = some l → Contains l markerVersion = true → k = i) ∧
    LooseVersion v ∧ (∀ x, b.head? = some x → isDigitOrDot x = false) ∧
    (Split text).get? j = some (c ++ markerArguments ++ r) ∧
    (∀ k l, (Split text).get? k = some l → Contains l markerArguments = true → k = i ∨ k = j) ∧
    TrimSpace r ≠ [] ∧
    (first = true →
      (∀ n, n < a.length → ¬ VersionAt ((a ++ "nginx/".toList ++ v ++ b).drop n)) ∧
      (∀ n, n < c.length →
        HasPrefix ((c ++ markerArguments ++ r).drop n) markerArguments = false))

/-- The lines `ls1` are the lines `ls` with lines padded by leading or trailing
spaces or tabs and with blank lines (spaces and tabs only) inserted. -/
inductive Padded : List Str → List Str → Prop
  | nil : Padded [] []
  | pad (a l b : Str) (ls ls1 : List Str) :
      (∀ x ∈ a, x = ' ' ∨ x = chTab) → (∀ x ∈ b, x = ' ' ∨ x = chTab) →
      Padded ls ls1 → Padded (l :: ls) ((a ++ l ++ b) :: ls1)
  | blank (w : Str) (ls ls1 : List Str) :
      (∀ x ∈ w, x = ' ' ∨ x = chTab) → Padded ls ls1 → Padded ls (w :: ls1)

/-- A diagnostic text whose version line carries two versions. -/
def twoVersionsText : Str :=
  "nginx version: nginx/1.2 nginx/3.4\nconfigure arguments: --a".toList

/-- An operating system in which every call succeeds and no subprocess prints
anything; paths are joined with a slash. -/
def quietEnv : Env Unit where
  Join := fun elems => Join elems "/".toList
  Dir := fun p => p
  IsAbs := fun p => HasPrefix p "/".toList
  NumCPU := 4
  MarshalIndent := fun _ => .ok []
  MkdirAll := fun _ w => (none, w)
  Stat := fun _ w => (none, w)
  WriteFile := fun _ _ w => (none, w)
  Open := fun _ w => (none, w)
  Create := fun _ w => (none, w)
  Copy := fun _ _ w => (none, w)
  Sync := fun _ w => (none, w)
  exec := fun _ _ _ w => (([], none), w)

/-- A build request with the diagnostic text of Scenario A. -/
def sampleRequest : BuildRequest :=
  { Output := "nginx version: nginx/1.24.0\nconfigure arguments: --prefix=/etc/nginx --with-http_ssl_module".toList,
    ModuleNames := [], CustomModules := [], TargetVersion := [] }

/-- A queue holding one job, `j1`, whose log has `n` empty lines. -/
def queueWithLog (n : Nat) : Queue :=
  { jobs := fun id =>
      if id = "j1".toList then
        some { newJob "j1".toList 0 sampleRequest with Logs := List.replicate n [] }
      else none,
    modulesDir := "./modules".toList, workRoot := "/tmp/nginx-build".toList,
    registry := fun _ => none, history := none }

/-- The job `j1` of `queueWithLog n`. -/
def jobWithLog (n : Nat) : Job :=
  { newJob "j1".toList 0 sampleRequest with Logs := List.replicate n [] }

/-- The history entry numbered `n`. -/
def sampleEntry (n : Nat) : HistoryEntry :=
  { ID := Nat.toDigits 10 n, CreatedAt := n, Version := "1.24.0".toList, Modules := [],
    Status := StatusSuccess, Artifact := [], Error := [] }

/-- A diagnostic text whose configure arguments hold a value in single quotes
with a space inside: `--with-cc-opt='-O2 -g' --prefix=/etc/nginx`. -/
def quotedText : Str :=
  "nginx version: nginx/1.24.0\nconfigure arguments: ".toList ++ quotedExample

/-- The final argument list of a job for `quotedText` that requests no module. -/
def quotedArgs : List Str := ["--with-cc-opt=-O2 -g".toList, "--prefix=/etc/nginx".toList]

/-- A line carrying one of the two markers, `nginx version:` or
`configure arguments:`. -/
def isMarkerLine (l : Str) : Bool := Contains l markerVersion || Contains l markerArguments

/-- A line of the kind that sets `BuiltBy`: it has no marker and contains
`built by`. -/
def isBuiltByLine (l : Str) : Bool := !isMarkerLine l && Contains l "built by".toList

/-- A line of the kind that sets `BuiltWith`: it has no marker and no `built by`,
and contains `built with`. -/
def isBuiltWithLine (l : Str) : Bool :=
  !isMarkerLine l && !Contains l "built by".toList && Contains l "built with".toList

/-- A line of the kind that sets `Compiler`: it has no marker, no `built by` and
no `built with`, and contains `gcc` or `clang`. -/
def isCompilerLine (l : Str) : Bool :=
  !isMarkerLine l && !Contains l "built by".toList && !Contains l "built with".toList &&
    (Contains l "gcc".toList || Contains l "clang".toList)

/-- The last line of kind `p` among `ls`, trimmed; empty when there is none. -/
def lastTrimmed (p : Str → Bool) (ls : List Str) : Str :=
  ((ls.filter p).getLast?.map TrimSpace).getD []

/-- The first line of kind `p` among `ls`, trimmed; empty when there is none. -/
def firstTrimmed (p : Str → Bool) (ls : List Str) : Str :=
  ((ls.filter p).head?.map TrimSpace).getD []

/-- The lines `ls1` are the lines `ls` with the lines that carry no marker
permuted among themselves, every marker line staying where it is. -/
def PermutedOthers (ls ls1 : List Str) : Prop :=
  List.Forall₂ (fun l l1 => (isMarkerLine l = true ∨ isMarkerLine l1 = true) → l1 = l) ls ls1 ∧
  (ls.filter (fun l => !isMarkerLine l)).Perm (ls1.filter (fun l => !isMarkerLine l))

/-- A diagnostic text with two compiler lines. -/
def twoCompilersText : Str :=
  "nginx version: nginx/1.24.0\nconfigure arguments: --a\ngcc 9.4\nclang 11".toList

/-- The text `twoCompilersText` with its two compiler lines exchanged. -/
def twoCompilersSwapped : Str :=
  "nginx version: nginx/1.24.0\nconfigure arguments: --a\nclang 11\ngcc 9.4".toList

/-- The parse result of `twoCompilersText`. -/
def twoCompilersResult : ParseResult :=
  { Version := "1.24.0".toList, ConfigureArguments := "--a".toList, Arguments := ["--a".toList],
    Modules := [], BuiltBy := [], BuiltWith := [], Compiler := "gcc 9.4".toList }

/-- A diagnostic text with a `built by` line followed by a `built with` line. -/
def builtLinesText : Str :=
  "nginx version: nginx/1.24.0\nbuilt by gcc 9.4\nbuilt with OpenSSL 3.0\nconfigure arguments: --a".toList

/-- The text `builtLinesText` with its `built by` and `built with` lines
exchanged. -/
def builtLinesSwapped : Str :=
  "nginx version: nginx/1.24.0\nbuilt with OpenSSL 3.0\nbuilt by gcc 9.4\nconfigure arguments: --a".toList

/-- The parse result of `builtLinesText`. -/
def builtLinesResult : ParseResult :=
  { Version := "1.24.0".toList, ConfigureArguments := "--a".toList, Arguments := ["--a".toList],
    Modules := [], BuiltBy := "built by gcc 9.4".toList,
    BuiltWith := "built with OpenSSL 3.0".toList, Compiler := [] }

/-! ## The calls of a run and their outcomes -/

/-- The outcome of one subprocess run: the error `Env.exec` reports, if any, and
the world after the run. -/
def execOutcome {W : Type} (env : Env W) (dir name : Str) (args : List Str) (w : W) :
    Option Str × W :=
  ((env.exec dir name args w).1.2, (env.exec dir name args w).2)

/-- The calls of `cloneModule` and their outcome: `Stat` on the directory, then
the subprocess `git clone` when `Stat` reports an error. -/
def cloneOutcome {W : Type} (env : Env W) (repo dir : Str) (w : W) : Option Str × W :=
  match env.Stat dir w with
  | (none, w1) => (none, w1)
  | (some _, w1) =>
    execOutcome env (env.Dir dir) "git".toList
      ["clone".toList, "--depth".toList, "1".toList, repo, dir] w1

/-- The calls of the first loop of `prepareModules` and their outcome, for a
registry lookup and a modules directory: the first error, of a call or of the
loop itself (a name missing from the registry, a module without repository, a
preset directory that is missing), or the module arguments. -/
def presetsOutcome {W : Type} (env : Env W) (registry : Str → Option Module)
    (modulesDir workDir : Str) : List Str → List Str → W → Except Str (List Str) × W
  | [], moduleArgs, w => (.ok moduleArgs, w)
  | name :: rest, moduleArgs, w =>
    match registry name with
    | none => (.error ("模块 ".toList ++ name ++ " 未在预设列表中".toList), w)
    | some mod =>
      match ResolveModulePath env mod modulesDir workDir w with
      | (.error err, w1) => (.error err, w1)
      | (.ok modulePath, w1) =>
        if mod.Path = [] then
          match cloneOutcome env mod.Repo modulePath w1 with
          | (some err, w2) => (.error err, w2)
          | (none, w2) =>
            presetsOutcome env registry modulesDir workDir rest
              (moduleArgs ++ [moduleArg mod modulePath]) w2
        else
          match env.Stat modulePath w1 with
          | (some _, w2) =>
            if mod.Repo = [] then
              (.error ("预置模块 ".toList ++ name ++ " 未找到，请提前下载到 ".toList ++ modulePath), w2)
            else
              match cloneOutcome env mod.Repo modulePath w2 with
              | (some err, w3) => (.error err, w3)
              | (none, w3) =>
                presetsOutcome env registry modulesDir workDir rest
                  (moduleArgs ++ [moduleArg mod modulePath]) w3
          | (none, w2) =>
            presetsOutcome env registry modulesDir workDir rest
              (moduleArgs ++ [moduleArg mod modulePath]) w2

/-- The calls of the second loop of `prepareModules` and their outcome: the
first error, of a call or of the loop itself (a custom module that fails
`ValidateCustomModule`), or the module arguments. -/
def customsOutcome {W : Type} (env : Env W) (modulesDir workDir : Str) :
    List CustomModuleReq → List Str → W → Except Str (List Str) × W
  | [], moduleArgs, w => (.ok moduleArgs, w)
  | custom :: rest, moduleArgs, w =>
    match ValidateCustomModule custom.Name custom.Repo custom.Flag with
    | .error err => (.error err, w)
    | .ok mod =>
      match ResolveModulePath env mod modulesDir workDir w with
      | (.error err, w1) => (.error err, w1)
      | (.ok modulePath, w1) =>
        match cloneOutcome env mod.Repo modulePath w1 with
        | (some err, w2) => (.error err, w2)
        | (none, w2) =>
          customsOutcome env modulesDir workDir rest (moduleArgs ++ [moduleArg mod modulePath]) w2

/-- The calls of `prepareModules` and their outcome: the preset modules, then
the custom modules. -/
def modulesOutcome {W : Type} (env : Env W) (registry : Str → Option Module)
    (modulesDir : Str) (job : Job) (workDir : Str) (w : W) : Except Str (List Str) × W :=
  match presetsOutcome env registry modulesDir workDir job.Request.ModuleNames [] w with
  | (.error err, w1) => (.error err, w1)
  | (.ok moduleArgs, w1) =>
    customsOutcome env modulesDir workDir job.Request.CustomModules moduleArgs w1

/-- The first failing stage of a run and its error, read off the calls alone,
with no reference to the job record.  The five stages are taken in order, each
with its calls in order: stage 0 is the parser; stage 1 is `MkdirAll` of the
work directory, then the subprocesses `curl` and `tar`; stage 2 is module
preparation; stage 3 is the subprocesses `./configure` and `make`; stage 4 is
`MkdirAll` of the artifact directory, then `copyFile`.  The result is the number
of the first stage that fails, with the error it fails with: the error of its
first failing call, or, for stage 2, the error module preparation raises itself;
it is `none` when no stage fails. -/
def firstFailure {W : Type} (env : Env W) (workRoot : Str) (registry : Str → Option Module)
    (modulesDir : Str) (job : Job) (w : W) : Option (Nat × Str) :=
  match ParseNginxV job.Request.Output with
  | .error err => some (0, err)
  | .ok parsed0 =>
    let parsed := resolveVersion job.Request parsed0
    let workDir := env.Join [workRoot, job.ID]
    let nginxTar := env.Join [workDir, "nginx-".toList ++ parsed.Version ++ ".tar.gz".toList]
    let srcDir := env.Join [workDir, "nginx-".toList ++ parsed.Version]
    match env.MkdirAll workDir w with
    | (some err, _) => some (1, err)
    | (none, w1) =>
      match execOutcome env workDir "curl".toList
          ["-fSL".toList,
           "https://nginx.org/download/nginx-".toList ++ parsed.Version ++ ".tar.gz".toList,
           "-o".toList, nginxTar] w1 with
      | (some err, _) => some (1, err)
      | (none, w2) =>
        match execOutcome env workDir "tar".toList ["-xzf".toList, nginxTar] w2 with
        | (some err, _) => some (1, err)
        | (none, w3) =>
          match modulesOutcome env registry modulesDir job workDir w3 with
          | (.error err, _) => some (2, err)
          | (.ok moduleArgs, w4) =>
            let configureArgs := Queue.composeConfigureArgs parsed.Arguments moduleArgs
            match execOutcome env srcDir "./configure".toList configureArgs w4 with
            | (some err, _) => some (3, err)
            | (none, w5) =>
              match execOutcome env srcDir "make".toList
                  ["-j".toList, formatInt (max64 1 env.NumCPU)] w5 with
              | (some err, _) => some (3, err)
              | (none, w6) =>
                let artifactDir := env.Join [workDir, "artifact".toList]
                match env.MkdirAll artifactDir w6 with
                | (some err, _) => some (4, err)
                | (none, w7) =>
                  match copyFile env (env.Join [srcDir, "objs".toList, "nginx".toList])
                      (env.Join [artifactDir, "nginx-".toList ++ parsed.Version]) w7 with
                  | (some err, _) => some (4, err)
                  | (none, _) => none

/-- Every filesystem and subprocess call of the operating system succeeds,
whatever its arguments and the state of the world. -/
def Env.AllSucceed {W : Type} (env : Env W) : Prop :=
  (∀ p w, (env.MkdirAll p w).1 = none) ∧ (∀ p w, (env.Stat p w).1 = none) ∧
  (∀ p d w, (env.WriteFile p d w).1 = none) ∧ (∀ p w, (env.Open p w).1 = none) ∧
  (∀ p w, (env.Create p w).1 = none) ∧ (∀ s d w, (env.Copy s d w).1 = none) ∧
  (∀ p w, (env.Sync p w).1 = none) ∧ (∀ d n a w, (env.exec d n a w).1.2 = none)

/-- Module preparation has no error of its own for the request: every preset
name is in the registry, with a local path or a repository, and every custom
module passes `ValidateCustomModule`. -/
def ModulesResolvable (registry : Str → Option Module) (req : BuildRequest) : Prop :=
  (∀ name ∈ req.ModuleNames,
    ∃ mod, registry name = some mod ∧ (mod.Path ≠ [] ∨ mod.Repo ≠ [])) ∧
  (∀ c ∈ req.CustomModules, ∃ mod, ValidateCustomModule c.Name c.Repo c.Flag = .ok mod)

/-- An operating system in which every call succeeds except the subprocess
`tar`, which prints one line and fails. -/
def tarFailsEnv : Env Unit :=
  { quietEnv with
    exec := fun _ name _ w =>
      if name = "tar".toList then
        ((["tar: Unexpected EOF in archive".toList], some "exit status 2".toList), w)
      else (([], none), w) }

/-- A preset module with a repository and no local path. -/
def brotliModule : Module :=
  { Name := "brotli".toList, Repo := "https://github.com/google/ngx_brotli".toList,
    Description := [], Flag := [], Path := [] }

/-- A build request with the diagnostic text of Scenario A, the preset module
`brotli` and one custom module. -/
def modulesRequest : BuildRequest :=
  { sampleRequest with
    ModuleNames := ["brotli".toList],
    CustomModules :=
      [{ Name := "echo".toList, Repo := "https://github.com/openresty/echo-nginx-module".toList,
         Flag := [] }] }

/-- A queue holding one registered job, `j1`, for `modulesRequest`, with an
empty history store and a registry that knows the module `brotli`. -/
def modulesQueue : Queue :=
  { queueFor modulesRequest (some ⟨[], []⟩) with
    registry := fun name => if name = "brotli".toList then some brotliModule else none }

/-! # Theorems -/

/-! ## Runes and trimming -/

theorem isLower_iff (c : Char) : c.isLower = true ↔ 97 ≤ c.toNat ∧ c.toNat ≤ 122 := by
  simp [Char.isLower, Char.toNat, UInt32.le_def, UInt32.toNat, BitVec.le_def]

theorem isUpper_iff (c : Char) : c.isUpper = true ↔ 65 ≤ c.toNat ∧ c.toNat ≤ 90 := by
  simp [Char.isUpper, Char.toNat, UInt32.le_def, UInt32.toNat, BitVec.le_def]

theorem isDigit_iff (c : Char) : c.isDigit = true ↔ 48 ≤ c.toNat ∧ c.toNat ≤ 57 := by
  simp [Char.isDigit, Char.toNat, UInt32.le_def, UInt32.toNat, BitVec.le_def]

theorem char_eq_iff (c d : Char) : c = d ↔ c.toNat = d.toNat := by
  constructor
  · intro h; rw [h]
  · intro h
    rw [← Char.ofNat_toNat c, ← Char.ofNat_toNat d, h]

theorem isSpace_iff (c : Char) :
    isSpace c = true ↔
      (c.toNat = 9 ∨ c.toNat = 10 ∨ c.toNat = 11 ∨ c.toNat = 12 ∨ c.toNat = 13 ∨ c.toNat = 32 ∨
        c.toNat = 0x85 ∨ c.toNat = 0xA0 ∨ c.toNat = 0x1680 ∨ (0x2000 ≤ c.toNat ∧ c.toNat ≤ 0x200A) ∨
        c.toNat = 0x2028 ∨ c.toNat = 0x2029 ∨ c.toNat = 0x202F ∨ c.toNat = 0x205F ∨
        c.toNat = 0x3000) := by
  simp [isSpace, or_assoc]

theorem isDigit_dot : Char.isDigit '.' = false := by decide

theorem isDigitOrDot_iff (c : Char) : isDigitOrDot c = true ↔ (c.isDigit = true ∨ c = '.') := by
  simp [isDigitOrDot]

theorem isDigit_not_space (c : Char) (h : c.isDigit = true) : isSpace c = false := by
  rw [isDigit_iff] at h
  rw [← Bool.not_eq_true, isSpace_iff]
  omega

theorem isModuleNameChar_iff (c : Char) : isModuleNameChar c = true ↔ ModuleNameRune c := by
  unfold isModuleNameChar ModuleNameRune
  simp only [Bool.or_eq_true, isLower_iff, isUpper_iff, isDigit_iff, beq_iff_eq, or_assoc]

theorem moduleNameRune_not_space (c : Char) (h : ModuleNameRune c) : isSpace c = false := by
  unfold ModuleNameRune at h
  rw [char_eq_iff c '.', char_eq_iff c '_', char_eq_iff c '-'] at h
  have h1 : ('.' : Char).toNat = 46 := rfl
  have h2 : ('_' : Char).toNat = 95 := rfl
  have h3 : ('-' : Char).toNat = 45 := rfl
  rw [h1, h2, h3] at h
  rw [← Bool.not_eq_true, isSpace_iff]
  omega

theorem TrimSpace_eq_nil_iff (s : Str) : TrimSpace s = [] ↔ ∀ c ∈ s, isSpace c = true := by
  unfold TrimSpace
  rw [List.rdropWhile_eq_nil_iff]
  constructor
  · intro h
    have hd : s.dropWhile isSpace = [] := by
      by_contra hne
      have h1 := List.head_dropWhile_not isSpace s hne
      have h2 := h _ (List.head_mem hne)
      rw [h1] at h2
      exact Bool.false_ne_true h2
    exact List.dropWhile_eq_nil_iff.mp hd
  · intro h
    rw [List.dropWhile_eq_nil_iff.mpr h]
    intro x hx
    cases hx

theorem TrimSpace_ne_nil_of_mem (s : Str) (c : Char) (hc : c ∈ s) (hs : isSpace c = false) :
    TrimSpace s ≠ [] := by
  intro h
  have := (TrimSpace_eq_nil_iff s).mp h c hc
  rw [hs] at this
  exact Bool.false_ne_true this

/-! ## The job map -/

theorem withJob_jobs_same (q : Queue) (id : Str) (f : Job → Job) :
    (q.withJob id f).jobs id = (q.jobs id).map f := by
  unfold Queue.withJob
  cases h : q.jobs id <;> simp [h]

/-! ## The log cap (`appendLog`) -/

theorem appendLine_length (logs : List Str) (line : Str) :
    (appendLine logs line).length = if logs.length > 2000 then 1501 else logs.length + 1 := by
  unfold appendLine
  split
  · simp; omega
  · simp

theorem appendLog_jobs_same (q : Queue) (id line : Str) :
    (q.appendLog id line).jobs id =
      (q.jobs id).map (fun job => { job with Logs := appendLine job.Logs line }) := by
  unfold Queue.appendLog
  exact withJob_jobs_same q id _

theorem appendLogs_length_le (lines : List Str) :
    ∀ (q : Queue) (id : Str) (job : Job), q.jobs id = some job → job.Logs.length ≤ 2001 →
      ∃ job1, (q.appendLogs id lines).jobs id = some job1 ∧ job1.Logs.length ≤ 2001 := by
  induction lines with
  | nil => intro q id job h hl; exact ⟨job, h, hl⟩
  | cons line rest ih =>
    intro q id job h hl
    have h1 := appendLog_jobs_same q id line
    rw [h] at h1
    have hl1 : ({ job with Logs := appendLine job.Logs line } : Job).Logs.length ≤ 2001 := by
      show (appendLine job.Logs line).length ≤ 2001
      rw [appendLine_length]; split <;> omega
    exact ih (q.appendLog id line) id _ h1 hl1

theorem queueWithLog_jobs (n : Nat) :
    (queueWithLog n).jobs "j1".toList =
      some { newJob "j1".toList 0 sampleRequest with Logs := List.replicate n [] } := by
  simp [queueWithLog]

theorem queueWithLog_lengths (n : Nat) (line : Str) :
    ((queueWithLog n).jobs "j1".toList).map (fun j => j.Logs.length) = some n ∧
    (((queueWithLog n).appendLog "j1".toList line).jobs "j1".toList).map
      (fun j => j.Logs.length) = some (if n > 2000 then 1501 else n + 1) := by
  rw [appendLog_jobs_same, queueWithLog_jobs]
  simp only [Option.map_some', appendLine_length, List.length_replicate]
  exact ⟨trivial, trivial⟩

/-- C4 (counterexample): a log holding exactly 2000 lines is within the
2000-line cap, and after one `appendLog` it holds 2001 lines. -/
theorem appendLog_exceeds_2000 :
    ((queueWithLog 2000).jobs "j1".toList).map (fun j => j.Logs.length) = some 2000 ∧
    (((queueWithLog 2000).appendLog "j1".toList "line".toList).jobs "j1".toList).map
      (fun j => j.Logs.length) = some 2001 := by
  have h := queueWithLog_lengths 2000 "line".toList
  simpa using h

/-- C4 (amended): the job log never exceeds 2001 lines.  For every job whose log
has at most 2001 lines and every line, the log after `appendLog` has at most 2001
lines; hence, starting from an empty log, after any sequence of `appendLog`
calls the log holds at most 2001 lines. -/
theorem appendLog_cap (q : Queue) (id : Str) (job : Job) (hjob : q.jobs id = some job) :
    (∀ line, job.Logs.length ≤ 2001 →
      ∃ job1, (q.appendLog id line).jobs id = some job1 ∧ job1.Logs.length ≤ 2001) ∧
    (∀ lines, job.Logs = [] →
      ∃ job1, (q.appendLogs id lines).jobs id = some job1 ∧ job1.Logs.length ≤ 2001) := by
  constructor
  · intro line hl
    exact appendLogs_length_le [line] q id job hjob hl
  · intro lines he
    exact appendLogs_length_le lines q id job hjob (by simp [he])

theorem appendLog_cap_witness :
    (∀ line, (List.replicate 2001 ([] : Str)).length ≤ 2001 →
      ∃ job1, ((queueWithLog 2001).appendLog "j1".toList line).jobs "j1".toList = some job1 ∧
        job1.Logs.length ≤ 2001) ∧
    (∀ lines, List.replicate 2001 ([] : Str) = [] →
      ∃ job1, ((queueWithLog 2001).appendLogs "j1".toList lines).jobs "j1".toList = some job1 ∧
        job1.Logs.length ≤ 2001) :=
  appendLog_cap (queueWithLog 2001) "j1".toList
    { newJob "j1".toList 0 sampleRequest with Logs := List.replicate 2001 [] }
    (queueWithLog_jobs 2001)

/-! ## The history store -/

theorem Append_list {W : Type} (env : Env W) (h : HistoryStore) (e : HistoryEntry) (w : W) :
    (h.Append env e w).1.1.list = (e :: h.list).take 200 := by
  unfold HistoryStore.Append
  simp only []
  split
  · rfl
  · rename_i hlen
    have : (e :: h.list).length ≤ 200 := by simpa using hlen
    exact (List.take_of_length_le this).symm

theorem take_append_take {α : Type} (n : Nat) (A B : List α) :
    (A ++ B.take n).take n = (A ++ B).take n := by
  rw [List.take_append_eq_append_take, List.take_append_eq_append_take, List.take_take]
  congr 2
  omega

theorem appendAll_list {W : Type} (env : Env W) (es : List HistoryEntry) :
    ∀ (h : HistoryStore) (w : W), h.list.length ≤ 200 →
      (historyAppendAll env es h w).1.list = (es.reverse ++ h.list).take 200 := by
  induction es with
  | nil =>
    intro h w hl
    simp only [historyAppendAll, List.reverse_nil, List.nil_append]
    exact (List.take_of_length_le hl).symm
  | cons e rest ih =>
    intro h w hl
    have hA := Append_list env h e w
    have hstep : historyAppendAll env (e :: rest) h w =
        historyAppendAll env rest (h.Append env e w).1.1 (h.Append env e w).2 := rfl
    rw [hstep, ih _ _ (by rw [hA]; simp [List.length_take]), hA, take_append_take]
    simp

/-- C5: `Append` leaves the in-memory list equal to the first 200 elements of
the new entry followed by the old list, and `List` then returns that list.
Consequently 201 appends to an empty store leave exactly 200 entries, in
reverse order of insertion, the first entry appended being the one missing. -/
theorem history_append_newest_200 {W : Type} (env : Env W) (h : HistoryStore) (e : HistoryEntry)
    (w : W) :
    (h.Append env e w).1.1.list = (e :: h.list).take 200 ∧
    (h.Append env e w).1.1.List = (e :: h.list).take 200 ∧
    (∀ (es : List HistoryEntry) (path : Str), es.length = 201 →
      (historyAppendAll env es ⟨path, []⟩ w).1.List = es.tail.reverse ∧
      (historyAppendAll env es ⟨path, []⟩ w).1.List.length = 200) := by
  refine ⟨Append_list env h e w, Append_list env h e w, ?_⟩
  intro es path hlen
  have hl : (historyAppendAll env es ⟨path, []⟩ w).1.List = es.tail.reverse := by
    show (historyAppendAll env es ⟨path, []⟩ w).1.list = es.tail.reverse
    rw [appendAll_list env es ⟨path, []⟩ w (by simp)]
    cases es with
    | nil => simp at hlen
    | cons a rest =>
      simp only [List.length_cons] at hlen
      simp only [List.reverse_cons, List.append_nil, List.tail_cons]
      rw [List.take_append_eq_append_take]
      have hr : rest.length = 200 := by omega
      rw [List.take_of_length_le (by simp [hr])]
      simp [hr]
  refine ⟨hl, ?_⟩
  rw [hl]
  cases es with
  | nil => simp at hlen
  | cons a rest => simpa using hlen

theorem history_append_newest_200_witness :
    ((List.range 201).map sampleEntry).length = 201 ∧
    (historyAppendAll quietEnv ((List.range 201).map sampleEntry) ⟨[], []⟩ ()).1.List =
      ((List.range 201).map sampleEntry).tail.reverse ∧
    (historyAppendAll quietEnv ((List.range 201).map sampleEntry) ⟨[], []⟩ ()).1.List.length = 200 :=
  ⟨by simp, (history_append_newest_200 quietEnv ⟨[], []⟩ (sampleEntry 0) ()).2.2
    ((List.range 201).map sampleEntry) [] (by simp)⟩

/-! ## The configure arguments (`composeConfigureArgs`) -/

theorem composeFiltered_foldl (original : List Str) :
    ∀ acc : List Str,
      original.foldl
        (fun filtered arg =>
          if HasPrefix arg "--add-module=".toList || HasPrefix arg "--add-dynamic-module=".toList
          then filtered else filtered ++ [arg]) acc
        = acc ++ original.filter (fun a => !isAddModuleArg a) := by
  induction original with
  | nil => intro acc; simp
  | cons a rest ih =>
    intro acc
    rw [List.foldl_cons, ih]
    by_cases h : (HasPrefix a "--add-module=".toList ||
        HasPrefix a "--add-dynamic-module=".toList) = true
    · have h2 : ¬ ((fun a => !isAddModuleArg a) a = true) := by
        show ¬ ((!(HasPrefix a "--add-module=".toList ||
          HasPrefix a "--add-dynamic-module=".toList)) = true)
        rw [h]; exact Bool.false_ne_true
      rw [if_pos h, @List.filter_cons_of_neg _ (fun a => !isAddModuleArg a) a rest h2]
    · have h2 : (fun a => !isAddModuleArg a) a = true := by
        show (!(HasPrefix a "--add-module=".toList ||
          HasPrefix a "--add-dynamic-module=".toList)) = true
        rw [Bool.not_eq_true] at h
        rw [h]; rfl
      rw [if_neg h, @List.filter_cons_of_pos _ (fun a => !isAddModuleArg a) a rest h2, List.append_assoc]
      rfl

/-- C8: `composeConfigureArgs(original, moduleArgs)` is the list of the elements
of `original` starting with neither `--add-module=` nor `--add-dynamic-module=`,
in their original order, followed by `moduleArgs` unchanged.  So no argument
kept from the parsed list carries such a flag, and every other parsed argument
is kept as many times as it occurs in `original`. -/
theorem composeConfigureArgs_eq (original moduleArgs : List Str) :
    Queue.composeConfigureArgs original moduleArgs =
      original.filter
        (fun a => !(HasPrefix a "--add-module=".toList || HasPrefix a "--add-dynamic-module=".toList))
        ++ moduleArgs ∧
    (∀ a ∈ composeFiltered original,
      HasPrefix a "--add-module=".toList = false ∧ HasPrefix a "--add-dynamic-module=".toList = false) ∧
    (∀ a : Str, HasPrefix a "--add-module=".toList = false →
      HasPrefix a "--add-dynamic-module=".toList = false →
      (composeFiltered original).count a = original.count a) := by
  have hf : composeFiltered original = original.filter (fun a => !isAddModuleArg a) := by
    unfold composeFiltered
    rw [composeFiltered_foldl]; simp
  refine ⟨?_, ?_, ?_⟩
  · unfold Queue.composeConfigureArgs
    rw [hf]; rfl
  · intro a ha
    rw [hf, List.mem_filter] at ha
    have h2 : (!(HasPrefix a "--add-module=".toList ||
        HasPrefix a "--add-dynamic-module=".toList)) = true := ha.2
    rw [Bool.not_eq_true', Bool.or_eq_false_iff] at h2
    exact h2
  · intro a h1 h2
    rw [hf, List.count_filter]
    show (!(HasPrefix a "--add-module=".toList ||
        HasPrefix a "--add-dynamic-module=".toList)) = true
    rw [h1, h2]; rfl

/-! ## The version expressions -/

theorem takeWhile_dropWhile_nil {α : Type} (p : α → Bool) (l : List α) :
    (l.dropWhile p).takeWhile p = [] := by
  induction l with
  | nil => rfl
  | cons a l ih =>
    by_cases h : p a = true
    · rw [List.dropWhile_cons_of_pos h]; exact ih
    · rw [List.dropWhile_cons_of_neg h, List.takeWhile_cons_of_neg h]

theorem matchVersionHere_append (d e t : Str) (hd : d ≠ []) (hdd : ∀ c ∈ d, c.isDigit = true)
    (he : e ≠ []) (hee : ∀ c ∈ e, c.isDigit = true ∨ c = '.') :
    matchVersionHere (d ++ '.' :: (e ++ t)) = some (d ++ '.' :: (e ++ t.takeWhile isDigitOrDot)) := by
  have hee1 : ∀ c ∈ e, isDigitOrDot c = true := fun c hc => (isDigitOrDot_iff c).mpr (hee c hc)
  have h1 : (d ++ '.' :: (e ++ t)).takeWhile Char.isDigit = d := by
    rw [List.takeWhile_append_of_pos hdd, List.takeWhile_cons_of_neg (by rw [isDigit_dot]; simp)]
    simp
  have h2 : (d ++ '.' :: (e ++ t)).dropWhile Char.isDigit = '.' :: (e ++ t) := by
    rw [List.dropWhile_append_of_pos hdd, List.dropWhile_cons_of_neg (by rw [isDigit_dot]; simp)]
  have h3 : (e ++ t).takeWhile isDigitOrDot = e ++ t.takeWhile isDigitOrDot :=
    List.takeWhile_append_of_pos hee1
  unfold matchVersionHere
  simp only [h1, h2, h3]
  cases d with
  | nil => exact absurd rfl hd
  | cons a d1 =>
    cases e with
    | nil => exact absurd rfl he
    | cons b e1 => simp

theorem matchVersionHere_some (s v : Str) (h : matchVersionHere s = some v) :
    ∃ d e t : Str, d ≠ [] ∧ (∀ c ∈ d, c.isDigit = true) ∧ e ≠ [] ∧
      (∀ c ∈ e, c.isDigit = true ∨ c = '.') ∧ v = d ++ '.' :: e ∧ s = v ++ t ∧
      t.takeWhile isDigitOrDot = [] := by
  unfold matchVersionHere at h
  have hs : s.takeWhile Char.isDigit ++ s.dropWhile Char.isDigit = s :=
    List.takeWhile_append_dropWhile _ _
  generalize hdd : s.takeWhile Char.isDigit = d at h hs
  generalize hrr : s.dropWhile Char.isDigit = r at h hs
  simp only [] at h
  split at h
  · cases h
  · rename_i hne
    cases r with
    | nil => cases h
    | cons c r1 =>
      simp only [] at h
      split at h
      · rename_i hc
        split at h
        · cases h
        · rename_i hene
          refine ⟨d, r1.takeWhile isDigitOrDot, r1.dropWhile isDigitOrDot, ?_, ?_, ?_, ?_, ?_, ?_, ?_⟩
          · intro h0; rw [h0] at hne; exact hne rfl
          · intro c1 hc1; rw [← hdd] at hc1; exact List.mem_takeWhile_imp hc1
          · intro h0; rw [h0] at hene; exact hene rfl
          · intro c1 hc1; exact (isDigitOrDot_iff c1).mp (List.mem_takeWhile_imp hc1)
          · cases h; rfl
          · cases h
            rw [← hs, hc]
            simp
          · exact takeWhile_dropWhile_nil isDigitOrDot r1
      · cases h

theorem plainVersionReMatch_iff (s : Str) : plainVersionReMatch s = true ↔ LooseVersion s := by
  constructor
  · intro h
    unfold plainVersionReMatch at h
    cases hm : matchVersionHere s with
    | none => rw [hm] at h; cases h
    | some v =>
      rw [hm] at h
      obtain ⟨d, e, t, hd, hdd, he, hee, hv, hst, _⟩ := matchVersionHere_some s v hm
      have hlen : v.length = s.length := by simpa using h
      have ht : t = [] := by
        have h1 : s.length = v.length + t.length := by rw [hst]; simp
        exact List.eq_nil_of_length_eq_zero (by omega)
      exact ⟨d, e, hd, hdd, he, hee, by rw [hst, ht, hv]; simp⟩
  · rintro ⟨d, e, hd, hdd, he, hee, hs⟩
    have h := matchVersionHere_append d e [] hd hdd he hee
    simp only [List.append_nil, List.takeWhile_nil] at h
    unfold plainVersionReMatch
    rw [hs, h]
    simp

/-! ## Request validation (`ValidateRequest`) -/

/-- C6 (counterexample): the override `1.24` is non-empty after trimming and is
not a three-part dotted number, and a request carrying it with a non-empty raw
text passes `ValidateRequest`. -/
theorem validateRequest_accepts_two_part_version :
    TrimSpace "1.24".toList ≠ [] ∧ isThreePartVersion (TrimSpace "1.24".toList) = false ∧
    Queue.ValidateRequest ⟨"nginx version: nginx/1.24.0".toList, [], [], "1.24".toList⟩ = none := by
  decide

/-- C6 (amended): for every build request whose version override is non-empty
after trimming and, once trimmed, is not of the form digits, a dot, then one or
more digits or dots, `ValidateRequest` returns an error; and a request with a
non-blank raw text whose trimmed override has that form is accepted. -/
theorem validateRequest_version (req : BuildRequest) (hne : TrimSpace req.TargetVersion ≠ []) :
    (¬ LooseVersion (TrimSpace req.TargetVersion) → ∃ err, Queue.ValidateRequest req = some err) ∧
    (TrimSpace req.Output ≠ [] → LooseVersion (TrimSpace req.TargetVersion) →
      Queue.ValidateRequest req = none) := by
  unfold Queue.ValidateRequest ValidVersion
  constructor
  · intro hbad
    have hm : plainVersionReMatch (TrimSpace req.TargetVersion) = false := by
      rw [← Bool.not_eq_true, plainVersionReMatch_iff]; exact hbad
    by_cases ho : TrimSpace req.Output = []
    · exact ⟨_, if_pos ho⟩
    · rw [if_neg ho, if_pos ⟨hne, by rw [hm]; rfl⟩]
      exact ⟨_, rfl⟩
  · intro ho hgood
    have hm : plainVersionReMatch (TrimSpace req.TargetVersion) = true :=
      (plainVersionReMatch_iff _).mpr hgood
    rw [if_neg ho, if_neg]
    rw [hm]
    simp

theorem validateRequest_version_witness :
    (¬ LooseVersion (TrimSpace "v1".toList) →
      ∃ err, Queue.ValidateRequest ⟨"nginx".toList, [], [], "v1".toList⟩ = some err) ∧
    (TrimSpace "nginx".toList ≠ [] → LooseVersion (TrimSpace "v1".toList) →
      Queue.ValidateRequest ⟨"nginx".toList, [], [], "v1".toList⟩ = none) :=
  validateRequest_version ⟨"nginx".toList, [], [], "v1".toList⟩ (by decide)

/-! ## Custom modules (`ValidateCustomModule`) -/

theorem validModuleName_iff (name : Str) :
    validModuleName name = true ↔ name ≠ [] ∧ ∀ c ∈ name, ModuleNameRune c := by
  unfold validModuleName
  rw [Bool.and_eq_true, List.all_eq_true]
  constructor
  · rintro ⟨h1, h2⟩
    refine ⟨?_, fun c hc => (isModuleNameChar_iff c).mp (h2 c hc)⟩
    intro h0; rw [h0] at h1; cases h1
  · rintro ⟨h1, h2⟩
    refine ⟨?_, fun c hc => (isModuleNameChar_iff c).mpr (h2 c hc)⟩
    cases name with
    | nil => exact absurd rfl h1
    | cons a t => rfl

theorem validModuleName_trim (name : Str) (h : validModuleName name = true) :
    TrimSpace name ≠ [] := by
  obtain ⟨h1, h2⟩ := (validModuleName_iff name).mp h
  cases name with
  | nil => exact absurd rfl h1
  | cons a t =>
    exact TrimSpace_ne_nil_of_mem _ a (List.mem_cons_self a t)
      (moduleNameRune_not_space a (h2 a (List.mem_cons_self a t)))

theorem hasPrefix_https_trim (repo : Str) (h : HasPrefix repo "https://".toList = true) :
    TrimSpace repo ≠ [] := by
  cases repo with
  | nil => cases h
  | cons a t =>
    have ha : a = 'h' := by
      have h1 : ("https://".toList.isPrefixOf (a :: t)) = true := h
      simp only [String.toList, List.isPrefixOf, Bool.and_eq_true, beq_iff_eq] at h1
      exact h1.1.symm
    exact TrimSpace_ne_nil_of_mem _ a (List.mem_cons_self a t) (by rw [ha]; decide)

theorem hasPrefix_http_not_https (repo : Str) (h : HasPrefix repo "http://".toList = true) :
    HasPrefix repo "https://".toList = false := by
  have h1 : ("http://".toList.isPrefixOf repo) = true := h
  show ("https://".toList.isPrefixOf repo) = false
  rw [← Bool.not_eq_true]
  intro h2
  rw [List.isPrefixOf_iff_prefix] at h1 h2
  obtain ⟨t1, ht1⟩ := h1
  obtain ⟨t2, ht2⟩ := h2
  rw [← ht2] at ht1
  have h4 := congrArg (fun l => l.get? 4) ht1
  simp at h4

/-- C7: `ValidateCustomModule(name, repo, flag)` succeeds if and only if `name`
is non-empty and made only of ASCII letters, digits, `.`, `_` and `-`, `repo`
begins with `https://`, and `flag` is empty, `add-module` or
`add-dynamic-module`.  On success the module has that name and repository, an
empty path, and the flag `add-module` when the given flag is empty and the given
flag otherwise.  Every repository beginning with `http://` is rejected. -/
theorem validateCustomModule_iff (name repo flag : Str) :
    ((∃ m, ValidateCustomModule name repo flag = .ok m) ↔
      (name ≠ [] ∧ (∀ c ∈ name, ModuleNameRune c) ∧ HasPrefix repo "https://".toList = true ∧
        (flag = [] ∨ flag = "add-module".toList ∨ flag = "add-dynamic-module".toList))) ∧
    (∀ m, ValidateCustomModule name repo flag = .ok m →
      m.Name = name ∧ m.Repo = repo ∧ m.Path = [] ∧
        m.Flag = if flag = [] then "add-module".toList else flag) ∧
    ((HasPrefix repo "http://".toList = true ∨ repo = "http://example.com/mod.git".toList) →
      ∃ err, ValidateCustomModule name repo flag = .error err) := by
  have key : ∀ m, ValidateCustomModule name repo flag = .ok m →
      (validModuleName name = true ∧ HasPrefix repo "https://".toList = true ∧
        (flag = [] ∨ flag = "add-module".toList ∨ flag = "add-dynamic-module".toList)) ∧
      m = ⟨name, repo, [], if flag = [] then "add-module".toList else flag, []⟩ := by
    intro m hm
    unfold ValidateCustomModule at hm
    split at hm
    · cases hm
    · split at hm
      · cases hm
      · rename_i hv
        split at hm
        · cases hm
        · split at hm
          · cases hm
          · rename_i hp
            simp only [] at hm
            generalize hfl : (if flag = [] then "add-module".toList else flag) = fl at hm
            split at hm
            · cases hm
            · rename_i hf
              refine ⟨⟨by simpa using hv, by simpa using hp, ?_⟩, ?_⟩
              · by_cases h0 : flag = []
                · exact Or.inl h0
                · rw [if_neg h0] at hfl
                  rw [← hfl] at hf
                  right
                  by_contra hcon
                  exact hf ⟨fun h => hcon (Or.inl h), fun h => hcon (Or.inr h)⟩
              · cases hm; rfl
  have conv : validModuleName name = true → HasPrefix repo "https://".toList = true →
      (flag = [] ∨ flag = "add-module".toList ∨ flag = "add-dynamic-module".toList) →
      ∃ m, ValidateCustomModule name repo flag = .ok m := by
    intro hv hp hf
    unfold ValidateCustomModule
    rw [if_neg (validModuleName_trim name hv), if_neg (by rw [hv]; simp),
      if_neg (hasPrefix_https_trim repo hp), if_neg (by rw [hp]; simp)]
    simp only []
    rw [if_neg]
    · exact ⟨_, rfl⟩
    · rintro ⟨h1, h2⟩
      rcases hf with h | h | h
      · rw [if_pos h] at h1; exact h1 rfl
      · rw [h] at h1; exact h1 (by decide)
      · rw [h] at h2; exact h2 (by decide)
  have rej : HasPrefix repo "https://".toList = false →
      ∃ err, ValidateCustomModule name repo flag = .error err := by
    intro hp
    cases hr : ValidateCustomModule name repo flag with
    | error err => exact ⟨err, rfl⟩
    | ok m =>
      have := (key m hr).1.2.1
      rw [hp] at this; cases this
  refine ⟨⟨?_, ?_⟩, ?_, ?_⟩
  · rintro ⟨m, hm⟩
    obtain ⟨⟨hv, hp, hf⟩, _⟩ := key m hm
    obtain ⟨h1, h2⟩ := (validModuleName_iff name).mp hv
    exact ⟨h1, h2, hp, hf⟩
  · rintro ⟨h1, h2, hp, hf⟩
    exact conv ((validModuleName_iff name).mpr ⟨h1, h2⟩) hp hf
  · intro m hm
    have := (key m hm).2
    rw [this]
    exact ⟨rfl, rfl, rfl, rfl⟩
  · rintro (h | h)
    · exact rej (hasPrefix_http_not_https repo h)
    · exact rej (by rw [h]; decide)

/-! ## Tokenizing (`splitShellArgs`) -/

theorem foldl_step_plain (p : Str) (hp : ∀ c ∈ p, PlainRune c) :
    ∀ (a : List Str) (cur : Str),
      p.foldl SplitState.step ⟨a, cur, Char.ofNat 0, false⟩ = ⟨a, cur ++ p, Char.ofNat 0, false⟩ := by
  induction p with
  | nil => intro a cur; simp
  | cons c t ih =>
    intro a cur
    obtain ⟨h1, h2, h3, h4, h5, h6⟩ := hp c (List.mem_cons_self c t)
    have hstep : SplitState.step ⟨a, cur, Char.ofNat 0, false⟩ c =
        ⟨a, cur ++ [c], Char.ofNat 0, false⟩ := by
      simp [SplitState.step, h1, h2, h3, h4, h5, h6]
    rw [List.foldl_cons, hstep, ih (fun x hx => hp x (List.mem_cons_of_mem c hx))]
    simp

theorem foldl_step_quoted (q : Char) (hq : q ≠ Char.ofNat 0) (v : Str)
    (hv : ∀ c ∈ v, c ≠ chBackslash ∧ c ≠ q) :
    ∀ (a : List Str) (cur : Str),
      v.foldl SplitState.step ⟨a, cur, q, false⟩ = ⟨a, cur ++ v, q, false⟩ := by
  induction v with
  | nil => intro a cur; simp
  | cons c t ih =>
    intro a cur
    obtain ⟨h1, h2⟩ := hv c (List.mem_cons_self c t)
    have hstep : SplitState.step ⟨a, cur, q, false⟩ c = ⟨a, cur ++ [c], q, false⟩ := by
      simp [SplitState.step, h1, h2, hq]
    rw [List.foldl_cons, hstep, ih (fun x hx => hv x (List.mem_cons_of_mem c hx))]
    simp

theorem foldl_step_quotedArg (q : Char) (hq : q = chSQuote ∨ q = chDQuote) (pv : Str × Str)
    (hp : ∀ c ∈ pv.1, PlainRune c) (hv : ∀ c ∈ pv.2, c ≠ chBackslash ∧ c ≠ q) (a : List Str) :
    (quotedArg q pv).foldl SplitState.step ⟨a, [], Char.ofNat 0, false⟩ =
      ⟨a, pv.1 ++ pv.2, Char.ofNat 0, false⟩ := by
  have hq0 : q ≠ Char.ofNat 0 := by rcases hq with h | h <;> rw [h] <;> decide
  have hqb : q ≠ chBackslash := by rcases hq with h | h <;> rw [h] <;> decide
  have hopen : ∀ cur, SplitState.step ⟨a, cur, Char.ofNat 0, false⟩ q = ⟨a, cur, q, false⟩ := by
    intro cur
    simp [SplitState.step, hqb, hq]
  have hclose : ∀ cur, SplitState.step ⟨a, cur, q, false⟩ q = ⟨a, cur, Char.ofNat 0, false⟩ := by
    intro cur
    simp [SplitState.step, hqb, hq0]
  unfold quotedArg
  rw [List.foldl_append, foldl_step_plain _ hp, List.foldl_cons, hopen, List.foldl_append,
    foldl_step_quoted q hq0 _ hv, List.foldl_cons, hclose]
  simp

theorem foldl_step_joined (q : Char) (hq : q = chSQuote ∨ q = chDQuote) (args : List (Str × Str)) :
    args ≠ [] →
    (∀ pv ∈ args, (∀ c ∈ pv.1, PlainRune c) ∧ (∀ c ∈ pv.2, c ≠ chBackslash ∧ c ≠ q) ∧
      ¬ (pv.1 = [] ∧ pv.2 = [])) →
    ∀ a : List Str,
      (((Join (args.map (quotedArg q)) " ".toList).foldl SplitState.step
        ⟨a, [], Char.ofNat 0, false⟩).flush).args = a ++ args.map (fun pv => pv.1 ++ pv.2) := by
  induction args with
  | nil => intro h; exact absurd rfl h
  | cons x rest ih =>
    intro _ hall a
    obtain ⟨hp, hv, hne⟩ := hall x (List.mem_cons_self x rest)
    have hlen : (x.1 ++ x.2).length > 0 := by
      rcases x with ⟨p, v⟩
      cases p with
      | nil =>
        cases v with
        | nil => exact absurd ⟨rfl, rfl⟩ hne
        | cons b t => simp
      | cons b t => simp
    have hfl : SplitState.flush ⟨a, x.1 ++ x.2, Char.ofNat 0, false⟩ =
        ⟨a ++ [x.1 ++ x.2], [], Char.ofNat 0, false⟩ := by
      unfold SplitState.flush
      exact if_pos hlen
    cases rest with
    | nil =>
      simp only [List.map_cons, List.map_nil, Join]
      rw [foldl_step_quotedArg q hq x hp hv a, hfl]
    | cons y rest1 =>
      have hrest := ih (by simp) (fun pv hpv => hall pv (List.mem_cons_of_mem x hpv))
        (a ++ [x.1 ++ x.2])
      have hsp : SplitState.step ⟨a, x.1 ++ x.2, Char.ofNat 0, false⟩ ' ' =
          ⟨a ++ [x.1 ++ x.2], [], Char.ofNat 0, false⟩ := by
        have h1 : (' ' : Char) ≠ chBackslash := by decide
        have h2 : (' ' : Char) ≠ chSQuote := by decide
        have h3 : (' ' : Char) ≠ chDQuote := by decide
        simp only [SplitState.step, h1, h2, h3, if_false, ne_eq, not_true_eq_false, false_or,
          true_or, if_true, Bool.false_eq_true]
        exact hfl
      have hj : Join ((x :: y :: rest1).map (quotedArg q)) " ".toList =
          quotedArg q x ++ ' ' :: Join ((y :: rest1).map (quotedArg q)) " ".toList := by
        simp [Join]
      rw [hj, List.foldl_append, foldl_step_quotedArg q hq x hp hv a, List.foldl_cons, hsp, hrest]
      simp

/-- C10: for every non-empty list of arguments, each an argument `p` followed by
a value `v` wrapped in a pair of single quotes (or each in a pair of double
quotes), where `p` holds no space, tab, line feed, quote or backslash, `v` holds
no backslash and no wrapping quote, and `p` and `v` are not both empty,
`splitShellArgs` of the arguments joined by single spaces is the list of the
strings `p` followed by `v`, in order.  The input
`--with-cc-opt='-O2 -g' --prefix=/etc/nginx` gives the tokens
`--with-cc-opt=-O2 -g` and `--prefix=/etc/nginx`. -/
theorem splitShellArgs_quoted (q : Char) (args : List (Str × Str))
    (hq : q = chSQuote ∨ q = chDQuote) (hne : args ≠ [])
    (hargs : ∀ pv ∈ args, (∀ c ∈ pv.1, PlainRune c) ∧ (∀ c ∈ pv.2, c ≠ chBackslash ∧ c ≠ q) ∧
      ¬ (pv.1 = [] ∧ pv.2 = [])) :
    splitShellArgs (Join (args.map (quotedArg q)) " ".toList) = args.map (fun pv => pv.1 ++ pv.2) ∧
    splitShellArgs quotedExample = ["--with-cc-opt=-O2 -g".toList, "--prefix=/etc/nginx".toList] := by
  constructor
  · unfold splitShellArgs
    rw [foldl_step_joined q hq args hne hargs []]
    simp
  · decide

theorem splitShellArgs_quoted_witness :
    splitShellArgs (Join (samplePairs.map (quotedArg chSQuote)) " ".toList) =
      samplePairs.map (fun pv => pv.1 ++ pv.2) ∧
    splitShellArgs quotedExample = ["--with-cc-opt=-O2 -g".toList, "--prefix=/etc/nginx".toList] :=
  splitShellArgs_quoted chSQuote samplePairs (Or.inl rfl) (by decide)
    (by unfold samplePairs PlainRune; decide)

/-! ## The pipeline (`runJob`, `worker`, `failJob`) -/

theorem view_withJob (q : Queue) (id : Str) (f : Job → Job)
    (hf : ∀ j : Job, ({ f j with Logs := [] } : Job) = f { j with Logs := [] }) :
    (q.withJob id f).view id = (q.view id).map f ∧ (q.withJob id f).history = q.history := by
  unfold Queue.view
  rw [withJob_jobs_same]
  constructor
  · cases h : q.jobs id with
    | none => rfl
    | some j => simp [hf]
  · unfold Queue.withJob
    cases h : q.jobs id <;> rfl

theorem view_setStep (q : Queue) (id name status message : Str) :
    (q.setStep id name status message).view id =
      (q.view id).map (fun j => { j with Steps := setStepIn name status message j.Steps }) ∧
    (q.setStep id name status message).history = q.history :=
  view_withJob q id _ (fun _ => rfl)

theorem view_appendLog (q : Queue) (id line : Str) :
    (q.appendLog id line).view id = q.view id ∧ (q.appendLog id line).history = q.history := by
  unfold Queue.view
  rw [appendLog_jobs_same]
  constructor
  · cases h : q.jobs id <;> rfl
  · unfold Queue.appendLog Queue.withJob
    cases h : q.jobs id <;> rfl

theorem view_appendLogs (id : Str) (lines : List Str) :
    ∀ q : Queue, (lines.foldl (fun q1 line => q1.appendLog id line) q).view id = q.view id ∧
      (lines.foldl (fun q1 line => q1.appendLog id line) q).history = q.history := by
  induction lines with
  | nil => intro q; exact ⟨rfl, rfl⟩
  | cons l rest ih =>
    intro q
    rw [List.foldl_cons]
    have h1 := ih (q.appendLog id l)
    have h2 := view_appendLog q id l
    exact ⟨h1.1.trans h2.1, h1.2.trans h2.2⟩

theorem view_runCommand {W : Type} (env : Env W) (q : Queue) (id dir name : Str)
    (args : List Str) (w : W) :
    (q.runCommand env id dir name args w).1.1.view id = q.view id ∧
    (q.runCommand env id dir name args w).1.1.history = q.history := by
  unfold Queue.runCommand
  exact view_appendLogs id _ q

theorem view_cloneModule {W : Type} (env : Env W) (q : Queue) (id repo dir : Str) (w : W) :
    (q.cloneModule env id repo dir w).1.1.view id = q.view id ∧
    (q.cloneModule env id repo dir w).1.1.history = q.history := by
  unfold Queue.cloneModule
  split
  · exact ⟨rfl, rfl⟩
  · exact view_runCommand env q id _ _ _ _

theorem view_preparePresets {W : Type} (env : Env W) (id workDir : Str) (names : List Str) :
    ∀ (q : Queue) (moduleArgs : List Str) (w : W),
      (Queue.preparePresets env id workDir names q moduleArgs w).1.1.view id = q.view id ∧
      (Queue.preparePresets env id workDir names q moduleArgs w).1.1.history = q.history := by
  induction names with
  | nil => intro q moduleArgs w; exact ⟨rfl, rfl⟩
  | cons name rest ih =>
    intro q moduleArgs w
    unfold Queue.preparePresets
    split
    · exact ⟨rfl, rfl⟩
    · split
      · exact ⟨rfl, rfl⟩
      · rename_i _ mod _ _ modulePath w1 _
        split
        · split
          · rename_i q1 err w2 heq
            have h := view_cloneModule env q id mod.Repo modulePath w1
            rw [heq] at h
            exact h
          · rename_i q1 w2 heq
            have h := view_cloneModule env q id mod.Repo modulePath w1
            rw [heq] at h
            have h1 := ih q1 (moduleArgs ++ [moduleArg mod modulePath]) w2
            exact ⟨h1.1.trans h.1, h1.2.trans h.2⟩
        · split
          · rename_i w2 _
            split
            · exact ⟨rfl, rfl⟩
            · split
              · rename_i q1 err w3 heq
                have h := view_cloneModule env q id mod.Repo modulePath w2
                rw [heq] at h
                exact h
              · rename_i q1 w3 heq
                have h := view_cloneModule env q id mod.Repo modulePath w2
                rw [heq] at h
                have h1 := ih q1 (moduleArgs ++ [moduleArg mod modulePath]) w3
                exact ⟨h1.1.trans h.1, h1.2.trans h.2⟩
          · exact ih q _ _

theorem view_prepareCustoms {W : Type} (env : Env W) (id workDir : Str)
    (customs : List CustomModuleReq) :
    ∀ (q : Queue) (moduleArgs : List Str) (w : W),
      (Queue.prepareCustoms env id workDir customs q moduleArgs w).1.1.view id = q.view id ∧
      (Queue.prepareCustoms env id workDir customs q moduleArgs w).1.1.history = q.history := by
  induction customs with
  | nil => intro q moduleArgs w; exact ⟨rfl, rfl⟩
  | cons custom rest ih =>
    intro q moduleArgs w
    unfold Queue.prepareCustoms
    split
    · exact ⟨rfl, rfl⟩
    · rename_i _ mod _
      split
      · exact ⟨rfl, rfl⟩
      · rename_i _ modulePath w1 _
        split
        · rename_i q1 err w2 heq
          have h := view_cloneModule env q id mod.Repo modulePath w1
          rw [heq] at h
          exact h
        · rename_i q1 w2 heq
          have h := view_cloneModule env q id mod.Repo modulePath w1
          rw [heq] at h
          have h1 := ih q1 (moduleArgs ++ [moduleArg mod modulePath]) w2
          exact ⟨h1.1.trans h.1, h1.2.trans h.2⟩

theorem view_prepareModules {W : Type} (env : Env W) (q : Queue) (job : Job) (workDir : Str)
    (w : W) :
    (q.prepareModules env job workDir w).1.1.view job.ID = q.view job.ID ∧
    (q.prepareModules env job workDir w).1.1.history = q.history := by
  unfold Queue.prepareModules
  split
  · rename_i q1 err w1 heq
    have h := view_preparePresets env job.ID workDir job.Request.ModuleNames q [] w
    rw [heq] at h
    exact h
  · rename_i q1 moduleArgs w1 heq
    have h := view_preparePresets env job.ID workDir job.Request.ModuleNames q [] w
    rw [heq] at h
    have h1 := view_prepareCustoms env job.ID workDir job.Request.CustomModules q1 moduleArgs w1
    exact ⟨h1.1.trans h.1, h1.2.trans h.2⟩

theorem view_setStep_eq (q : Queue) (id name status message : Str) :
    (q.setStep id name status message).view id =
      (q.view id).map (fun j => { j with Steps := setStepIn name status message j.Steps }) :=
  (view_setStep q id name status message).1

theorem history_setStep (q : Queue) (id name status message : Str) :
    (q.setStep id name status message).history = q.history :=
  (view_setStep q id name status message).2

theorem history_withJob (q : Queue) (id : Str) (f : Job → Job) :
    (q.withJob id f).history = q.history := by
  unfold Queue.withJob
  cases h : q.jobs id <;> rfl

theorem view_setResult (q : Queue) (id : Str) (r : Option ParseResult) :
    (q.withJob id (fun j => { j with Result := r })).view id =
      (q.view id).map (fun j => { j with Result := r }) :=
  (view_withJob q id _ (fun _ => rfl)).1

theorem view_setScript (q : Queue) (id : Str) (r : Str) :
    (q.withJob id (fun j => { j with Script := r })).view id =
      (q.view id).map (fun j => { j with Script := r }) :=
  (view_withJob q id _ (fun _ => rfl)).1

theorem view_setArtifactPath (q : Queue) (id : Str) (r : Str) :
    (q.withJob id (fun j => { j with ArtifactPath := r })).view id =
      (q.view id).map (fun j => { j with ArtifactPath := r }) :=
  (view_withJob q id _ (fun _ => rfl)).1

theorem view_updateStatus (q : Queue) (id status : Str) :
    (q.updateStatus id status).view id = (q.view id).map (fun j => { j with Status := status }) ∧
    (q.updateStatus id status).history = q.history :=
  view_withJob q id _ (fun _ => rfl)

theorem view_runCommand_of_eq {W : Type} {env : Env W} {q q1 : Queue} {id dir name : Str}
    {args : List Str} {w w1 : W} {r : Option Str}
    (h : q.runCommand env id dir name args w = ((q1, r), w1)) :
    q1.view id = q.view id ∧ q1.history = q.history := by
  have hf := view_runCommand env q id dir name args w
  rw [h] at hf
  exact hf

theorem view_prepareModules_of_eq {W : Type} {env : Env W} {q q1 : Queue} {job : Job}
    {workDir : Str} {w w1 : W} {r : Except Str (List Str)}
    (h : q.prepareModules env job workDir w = ((q1, r), w1)) :
    q1.view job.ID = q.view job.ID ∧ q1.history = q.history := by
  have hf := view_prepareModules env q job workDir w
  rw [h] at hf
  exact hf

theorem view_setHistory (q : Queue) (h : Option HistoryStore) (id : Str) :
    ({ q with history := h } : Queue).view id = q.view id := rfl

theorem view_appendLog_eq (q : Queue) (id line : Str) :
    (q.appendLog id line).view id = q.view id :=
  (view_appendLog q id line).1

theorem history_appendLog (q : Queue) (id line : Str) :
    (q.appendLog id line).history = q.history :=
  (view_appendLog q id line).2

theorem registry_withJob (q : Queue) (id : Str) (f : Job → Job) :
    (q.withJob id f).registry = q.registry := by
  unfold Queue.withJob
  cases h : q.jobs id <;> rfl

theorem modulesDir_withJob (q : Queue) (id : Str) (f : Job → Job) :
    (q.withJob id f).modulesDir = q.modulesDir := by
  unfold Queue.withJob
  cases h : q.jobs id <;> rfl

theorem workRoot_withJob (q : Queue) (id : Str) (f : Job → Job) :
    (q.withJob id f).workRoot = q.workRoot := by
  unfold Queue.withJob
  cases h : q.jobs id <;> rfl

theorem registry_setStep (q : Queue) (id name status message : Str) :
    (q.setStep id name status message).registry = q.registry :=
  registry_withJob q id _

theorem modulesDir_setStep (q : Queue) (id name status message : Str) :
    (q.setStep id name status message).modulesDir = q.modulesDir :=
  modulesDir_withJob q id _

theorem static_appendLogs (id : Str) (lines : List Str) :
    ∀ q : Queue, (lines.foldl (fun q1 line => q1.appendLog id line) q).registry = q.registry ∧
      (lines.foldl (fun q1 line => q1.appendLog id line) q).modulesDir = q.modulesDir := by
  induction lines with
  | nil => intro q; exact ⟨rfl, rfl⟩
  | cons l rest ih =>
    intro q
    rw [List.foldl_cons]
    have h1 := ih (q.appendLog id l)
    exact ⟨h1.1.trans (registry_withJob q id _), h1.2.trans (modulesDir_withJob q id _)⟩

theorem static_runCommand_of_eq {W : Type} {env : Env W} {q q1 : Queue} {id dir name : Str}
    {args : List Str} {w w1 : W} {r : Option Str}
    (h : q.runCommand env id dir name args w = ((q1, r), w1)) :
    q1.registry = q.registry ∧ q1.modulesDir = q.modulesDir := by
  unfold Queue.runCommand at h
  have hs := static_appendLogs id (env.exec dir name args w).1.1 q
  have hq : q1 = (env.exec dir name args w).1.1.foldl (fun q1 line => q1.appendLog id line) q :=
    (congrArg (fun x => x.1.1) h).symm
  rw [hq]
  exact hs

theorem execOutcome_of_runCommand {W : Type} {env : Env W} {q q1 : Queue} {id dir name : Str}
    {args : List Str} {w w1 : W} {r : Option Str}
    (h : q.runCommand env id dir name args w = ((q1, r), w1)) :
    execOutcome env dir name args w = (r, w1) := by
  unfold Queue.runCommand at h
  unfold execOutcome
  have h1 : (env.exec dir name args w).1.2 = r := congrArg (fun x => x.1.2) h
  have h2 : (env.exec dir name args w).2 = w1 := congrArg (fun x => x.2) h
  rw [h1, h2]

theorem cloneOutcome_of_cloneModule {W : Type} {env : Env W} {q q1 : Queue} {id repo dir : Str}
    {w w1 : W} {r : Option Str} (h : q.cloneModule env id repo dir w = ((q1, r), w1)) :
    cloneOutcome env repo dir w = (r, w1) ∧ q1.registry = q.registry ∧
      q1.modulesDir = q.modulesDir := by
  unfold Queue.cloneModule at h
  unfold cloneOutcome
  split at h
  · rename_i w2 hst
    cases h
    exact ⟨rfl, rfl, rfl⟩
  · rename_i x w2 hst
    exact ⟨execOutcome_of_runCommand h, static_runCommand_of_eq h⟩

theorem presetsOutcome_of_preparePresets {W : Type} (env : Env W) (id workDir : Str)
    (names : List Str) :
    ∀ (q q1 : Queue) (moduleArgs : List Str) (w w1 : W) (r : Except Str (List Str)),
      Queue.preparePresets env id workDir names q moduleArgs w = ((q1, r), w1) →
      presetsOutcome env q.registry q.modulesDir workDir names moduleArgs w = (r, w1) ∧
        q1.registry = q.registry ∧ q1.modulesDir = q.modulesDir := by
  induction names with
  | nil =>
    intro q q1 moduleArgs w w1 r h
    unfold Queue.preparePresets at h
    cases h
    exact ⟨rfl, rfl, rfl⟩
  | cons name rest ih =>
    intro q q1 moduleArgs w w1 r h
    unfold Queue.preparePresets at h
    unfold presetsOutcome
    split at h
    · rename_i hreg
      cases h
      exact ⟨rfl, rfl, rfl⟩
    · rename_i mod hreg
      split at h
      · rename_i err w2 hres
        cases h
        exact ⟨rfl, rfl, rfl⟩
      · rename_i modulePath w2 hres
        split at h
        · rename_i hpath
          rw [if_pos hpath]
          split at h
          · rename_i q2 err w3 hcl
            obtain ⟨hc, _, _⟩ := cloneOutcome_of_cloneModule hcl
            obtain ⟨hs1, hs2⟩ := (cloneOutcome_of_cloneModule hcl).2
            rw [hc]
            cases h
            exact ⟨rfl, hs1, hs2⟩
          · rename_i q2 w3 hcl
            obtain ⟨hc, hs1, hs2⟩ := cloneOutcome_of_cloneModule hcl
            rw [hc]
            obtain ⟨i1, i2, i3⟩ := ih _ _ _ _ _ _ h
            rw [hs1, hs2] at i1
            exact ⟨i1, i2.trans hs1, i3.trans hs2⟩
        · rename_i hpath
          rw [if_neg hpath]
          split at h
          · rename_i x w3 hst
            split at h
            · rename_i hrepo
              rw [if_pos hrepo]
              cases h
              exact ⟨rfl, rfl, rfl⟩
            · rename_i hrepo
              rw [if_neg hrepo]
              split at h
              · rename_i q2 err w4 hcl
                obtain ⟨hc, hs1, hs2⟩ := cloneOutcome_of_cloneModule hcl
                rw [hc]
                cases h
                exact ⟨rfl, hs1, hs2⟩
              · rename_i q2 w4 hcl
                obtain ⟨hc, hs1, hs2⟩ := cloneOutcome_of_cloneModule hcl
                rw [hc]
                obtain ⟨i1, i2, i3⟩ := ih _ _ _ _ _ _ h
                rw [hs1, hs2] at i1
                exact ⟨i1, i2.trans hs1, i3.trans hs2⟩
          · rename_i w3 hst
            exact ih _ _ _ _ _ _ h

theorem customsOutcome_of_prepareCustoms {W : Type} (env : Env W) (id workDir : Str)
    (customs : List CustomModuleReq) :
    ∀ (q q1 : Queue) (moduleArgs : List Str) (w w1 : W) (r : Except Str (List Str)),
      Queue.prepareCustoms env id workDir customs q moduleArgs w = ((q1, r), w1) →
      customsOutcome env q.modulesDir workDir customs moduleArgs w = (r, w1) ∧
        q1.modulesDir = q.modulesDir := by
  induction customs with
  | nil =>
    intro q q1 moduleArgs w w1 r h
    unfold Queue.prepareCustoms at h
    cases h
    exact ⟨rfl, rfl⟩
  | cons custom rest ih =>
    intro q q1 moduleArgs w w1 r h
    unfold Queue.prepareCustoms at h
    unfold customsOutcome
    split at h
    · rename_i err hval
      cases h
      exact ⟨rfl, rfl⟩
    · rename_i mod hval
      split at h
      · rename_i err w2 hres
        cases h
        exact ⟨rfl, rfl⟩
      · rename_i modulePath w2 hres
        split at h
        · rename_i q2 err w3 hcl
          obtain ⟨hc, _, hs2⟩ := cloneOutcome_of_cloneModule hcl
          rw [hc]
          cases h
          exact ⟨rfl, hs2⟩
        · rename_i q2 w3 hcl
          obtain ⟨hc, _, hs2⟩ := cloneOutcome_of_cloneModule hcl
          rw [hc]
          obtain ⟨i1, i2⟩ := ih _ _ _ _ _ _ h
          rw [hs2] at i1
          exact ⟨i1, i2.trans hs2⟩

theorem modulesOutcome_of_prepareModules {W : Type} {env : Env W} {q q1 : Queue} {job : Job}
    {workDir : Str} {w w1 : W} {r : Except Str (List Str)}
    (h : q.prepareModules env job workDir w = ((q1, r), w1)) :
    modulesOutcome env q.registry q.modulesDir job workDir w = (r, w1) := by
  unfold Queue.prepareModules at h
  unfold modulesOutcome
  split at h
  · rename_i q2 err w2 hpre
    obtain ⟨hp, _, _⟩ := presetsOutcome_of_preparePresets env _ _ _ _ _ _ _ _ _ hpre
    rw [hp]
    cases h
    rfl
  · rename_i q2 moduleArgs w2 hpre
    obtain ⟨hp, _, hs2⟩ := presetsOutcome_of_preparePresets env _ _ _ _ _ _ _ _ _ hpre
    rw [hp]
    obtain ⟨hc, _⟩ := customsOutcome_of_prepareCustoms env _ _ _ _ _ _ _ _ _ h
    rw [hs2] at hc
    exact hc

theorem runJob_view {W : Type} (env : Env W) (q : Queue) (job : Job) (w : W) (J0 : Job)
    (hq : q.view job.ID = some J0) (hsteps : J0.Steps = (newJob [] 0 job.Request).Steps)
    (r : (Queue × Option Str) × W) (hr : q.runJob env job w = r) :
    (∀ e, r.1.2 = some e →
      ∃ (k : Nat) (R : Option ParseResult) (S : Str), k < 5 ∧
        r.1.1.view job.ID =
          some { J0 with Steps := stepsFailedAt k e, Result := R, Script := S } ∧
        r.1.1.history = q.history ∧
        ((k = 0 ∧ ParseNginxV job.Request.Output = .error e ∧ R = J0.Result) ∨
          (∃ p, ParseNginxV job.Request.Output = .ok p ∧
            R = some (resolveVersion job.Request p))) ∧
        firstFailure env q.workRoot q.registry q.modulesDir job w = some (k, e)) ∧
    (r.1.2 = none →
      ∃ (p : ParseResult) (S : Str), ParseNginxV job.Request.Output = .ok p ∧
        r.1.1.view job.ID =
          some { J0 with
            Steps := stepsFailedAt 5 [], Result := some (resolveVersion job.Request p), Script := S,
            ArtifactPath := artifactPath env q.workRoot job.ID (resolveVersion job.Request p).Version } ∧
        (∀ h, q.history = some h →
          ∃ w1, r.1.1.history = some (h.Append env
            (successEntry env q.workRoot job (resolveVersion job.Request p).Version) w1).1.1) ∧
        (q.history = none → r.1.1.history = none) ∧
        firstFailure env q.workRoot q.registry q.modulesDir job w = none) := by
  unfold Queue.runJob at hr
  split at hr
  · rename_i err hparse
    subst hr
    refine ⟨?_, fun h0 => by cases h0⟩
    intro e he
    cases he
    refine ⟨0, J0.Result, J0.Script, by decide, ?_, history_setStep _ _ _ _ _,
      Or.inl ⟨rfl, hparse, rfl⟩, ?_⟩
    · rw [view_setStep_eq, hq, Option.map_some', hsteps]
      rfl
    · simp only [firstFailure, hparse]
  · rename_i parsed0 hparse
    try simp only [] at hr
    split at hr
    · rename_i err w1 hmk
      subst hr
      refine ⟨?_, fun h0 => by cases h0⟩
      intro e he
      cases he
      refine ⟨1, some (resolveVersion job.Request parsed0),
        J0.Script,
        by decide, ?_, ?_, Or.inr ⟨parsed0, hparse, rfl⟩, ?_⟩
      · simp only [view_setStep_eq, view_setResult, view_setScript, view_setArtifactPath,
          view_appendLog_eq, Option.map_some', history_setStep, history_withJob,
          history_appendLog, hq, hsteps]
        rfl
      · simp only [view_setStep_eq, view_setResult, view_setScript, view_setArtifactPath,
          view_appendLog_eq, Option.map_some', history_setStep, history_withJob,
          history_appendLog]
      · simp only [firstFailure, resolveVersion, hparse, hmk]
    · rename_i w1 hmk
      try simp only [] at hr
      split at hr
      · rename_i q3 err w2 hcurl
        obtain ⟨hv3, hh3⟩ := view_runCommand_of_eq hcurl
        have hx3 := execOutcome_of_runCommand hcurl
        simp only [view_setStep_eq, view_setResult, view_setScript, view_setArtifactPath,
            view_appendLog_eq, Option.map_some', history_setStep, history_withJob,
            history_appendLog, hq, hsteps] at hv3
        simp only [view_setStep_eq, view_setResult, view_setScript, view_setArtifactPath,
            view_appendLog_eq, Option.map_some', history_setStep, history_withJob,
            history_appendLog] at hh3
        obtain ⟨hr3, hd3⟩ := static_runCommand_of_eq hcurl
        simp only [registry_setStep, modulesDir_setStep, registry_withJob, modulesDir_withJob] at hr3 hd3
        subst hr
        refine ⟨?_, fun h0 => by cases h0⟩
        intro e he
        cases he
        refine ⟨1, some (resolveVersion job.Request parsed0),
          J0.Script,
          by decide, ?_, ?_, Or.inr ⟨parsed0, hparse, rfl⟩, ?_⟩
        · simp only [view_setStep_eq, view_setResult, view_setScript, view_setArtifactPath,
            view_appendLog_eq, Option.map_some', history_setStep, history_withJob,
            history_appendLog, hv3]
          rfl
        · simp only [view_setStep_eq, view_setResult, view_setScript, view_setArtifactPath,
            view_appendLog_eq, Option.map_some', history_setStep, history_withJob,
            history_appendLog, hh3]
        · simp only [firstFailure, resolveVersion, hparse, hmk, hx3]
      · rename_i q3 w2 hcurl
        obtain ⟨hv3, hh3⟩ := view_runCommand_of_eq hcurl
        have hx3 := execOutcome_of_runCommand hcurl
        simp only [view_setStep_eq, view_setResult, view_setScript, view_setArtifactPath,
            view_appendLog_eq, Option.map_some', history_setStep, history_withJob,
            history_appendLog, hq, hsteps] at hv3
        simp only [view_setStep_eq, view_setResult, view_setScript, view_setArtifactPath,
            view_appendLog_eq, Option.map_some', history_setStep, history_withJob,
            history_appendLog] at hh3
        obtain ⟨hr3, hd3⟩ := static_runCommand_of_eq hcurl
        simp only [registry_setStep, modulesDir_setStep, registry_withJob, modulesDir_withJob] at hr3 hd3
        try simp only [] at hr
        split at hr
        · rename_i q4 err w3 htar
          obtain ⟨hv4, hh4⟩ := view_runCommand_of_eq htar
          have hx4 := execOutcome_of_runCommand htar
          simp only [view_setStep_eq, view_setResult, view_setScript, view_setArtifactPath,
              view_appendLog_eq, Option.map_some', history_setStep, history_withJob,
              history_appendLog, hv3] at hv4
          simp only [view_setStep_eq, view_setResult, view_setScript, view_setArtifactPath,
              view_appendLog_eq, Option.map_some', history_setStep, history_withJob,
              history_appendLog, hh3] at hh4
          obtain ⟨hr4, hd4⟩ := static_runCommand_of_eq htar
          simp only [hr3, hd3, registry_setStep, modulesDir_setStep] at hr4 hd4
          subst hr
          refine ⟨?_, fun h0 => by cases h0⟩
          intro e he
          cases he
          refine ⟨1, some (resolveVersion job.Request parsed0),
            J0.Script,
            by decide, ?_, ?_, Or.inr ⟨parsed0, hparse, rfl⟩, ?_⟩
          · simp only [view_setStep_eq, view_setResult, view_setScript, view_setArtifactPath,
              view_appendLog_eq, Option.map_some', history_setStep, history_withJob,
              history_appendLog, hv4]
            rfl
          · simp only [view_setStep_eq, view_setResult, view_setScript, view_setArtifactPath,
              view_appendLog_eq, Option.map_some', history_setStep, history_withJob,
              history_appendLog, hh4]
          · simp only [firstFailure, resolveVersion, hparse, hmk, hx3, hx4]
        · rename_i q4 w3 htar
          obtain ⟨hv4, hh4⟩ := view_runCommand_of_eq htar
          have hx4 := execOutcome_of_runCommand htar
          simp only [view_setStep_eq, view_setResult, view_setScript, view_setArtifactPath,
              view_appendLog_eq, Option.map_some', history_setStep, history_withJob,
              history_appendLog, hv3] at hv4
          simp only [view_setStep_eq, view_setResult, view_setScript, view_setArtifactPath,
              view_appendLog_eq, Option.map_some', history_setStep, history_withJob,
              history_appendLog, hh3] at hh4
          obtain ⟨hr4, hd4⟩ := static_runCommand_of_eq htar
          simp only [hr3, hd3, registry_setStep, modulesDir_setStep] at hr4 hd4
          try simp only [] at hr
          split at hr
          · rename_i q6 err w4 hprep
            obtain ⟨hv6, hh6⟩ := view_prepareModules_of_eq hprep
            have hm6 := modulesOutcome_of_prepareModules hprep
            simp only [registry_setStep, modulesDir_setStep, hr4, hd4] at hm6
            simp only [view_setStep_eq, view_setResult, view_setScript, view_setArtifactPath,
                view_appendLog_eq, Option.map_some', history_setStep, history_withJob,
                history_appendLog, hv4] at hv6
            simp only [view_setStep_eq, view_setResult, view_setScript, view_setArtifactPath,
                view_appendLog_eq, Option.map_some', history_setStep, history_withJob,
                history_appendLog, hh4] at hh6
            subst hr
            refine ⟨?_, fun h0 => by cases h0⟩
            intro e he
            cases he
            refine ⟨2, some (resolveVersion job.Request parsed0),
              J0.Script,
              by decide, ?_, ?_, Or.inr ⟨parsed0, hparse, rfl⟩, ?_⟩
            · simp only [view_setStep_eq, view_setResult, view_setScript, view_setArtifactPath,
                view_appendLog_eq, Option.map_some', history_setStep, history_withJob,
                history_appendLog, hv6]
              rfl
            · simp only [view_setStep_eq, view_setResult, view_setScript, view_setArtifactPath,
                view_appendLog_eq, Option.map_some', history_setStep, history_withJob,
                history_appendLog, hh6]
            · simp only [firstFailure, resolveVersion, hparse, hmk, hx3, hx4, hm6]
          · rename_i q6 moduleArgs w4 hprep
            obtain ⟨hv6, hh6⟩ := view_prepareModules_of_eq hprep
            have hm6 := modulesOutcome_of_prepareModules hprep
            simp only [registry_setStep, modulesDir_setStep, hr4, hd4] at hm6
            simp only [view_setStep_eq, view_setResult, view_setScript, view_setArtifactPath,
                view_appendLog_eq, Option.map_some', history_setStep, history_withJob,
                history_appendLog, hv4] at hv6
            simp only [view_setStep_eq, view_setResult, view_setScript, view_setArtifactPath,
                view_appendLog_eq, Option.map_some', history_setStep, history_withJob,
                history_appendLog, hh4] at hh6
            try simp only [] at hr
            split at hr
            · rename_i q9 err w5 hconf
              obtain ⟨hv9, hh9⟩ := view_runCommand_of_eq hconf
              have hx9 := execOutcome_of_runCommand hconf
              simp only [view_setStep_eq, view_setResult, view_setScript, view_setArtifactPath,
                  view_appendLog_eq, Option.map_some', history_setStep, history_withJob,
                  history_appendLog, hv6] at hv9
              simp only [view_setStep_eq, view_setResult, view_setScript, view_setArtifactPath,
                  view_appendLog_eq, Option.map_some', history_setStep, history_withJob,
                  history_appendLog, hh6] at hh9
              subst hr
              refine ⟨?_, fun h0 => by cases h0⟩
              intro e he
              cases he
              refine ⟨3, some (resolveVersion job.Request parsed0),
                (buildScript (resolveVersion job.Request parsed0).Version
                    (Queue.composeConfigureArgs (resolveVersion job.Request parsed0).Arguments
                      moduleArgs)),
                by decide, ?_, ?_, Or.inr ⟨parsed0, hparse, rfl⟩, ?_⟩
              · simp only [view_setStep_eq, view_setResult, view_setScript, view_setArtifactPath,
                  view_appendLog_eq, Option.map_some', history_setStep, history_withJob,
                  history_appendLog, hv9]
                rfl
              · simp only [view_setStep_eq, view_setResult, view_setScript, view_setArtifactPath,
                  view_appendLog_eq, Option.map_some', history_setStep, history_withJob,
                  history_appendLog, hh9]
              · simp only [firstFailure, resolveVersion, hparse, hmk, hx3, hx4, hm6, hx9]
            · rename_i q9 w5 hconf
              obtain ⟨hv9, hh9⟩ := view_runCommand_of_eq hconf
              have hx9 := execOutcome_of_runCommand hconf
              simp only [view_setStep_eq, view_setResult, view_setScript, view_setArtifactPath,
                  view_appendLog_eq, Option.map_some', history_setStep, history_withJob,
                  history_appendLog, hv6] at hv9
              simp only [view_setStep_eq, view_setResult, view_setScript, view_setArtifactPath,
                  view_appendLog_eq, Option.map_some', history_setStep, history_withJob,
                  history_appendLog, hh6] at hh9
              try simp only [] at hr
              split at hr
              · rename_i q11 err w6 hmake
                obtain ⟨hv11, hh11⟩ := view_runCommand_of_eq hmake
                have hx11 := execOutcome_of_runCommand hmake
                simp only [view_setStep_eq, view_setResult, view_setScript, view_setArtifactPath,
                    view_appendLog_eq, Option.map_some', history_setStep, history_withJob,
                    history_appendLog, hv9] at hv11
                simp only [view_setStep_eq, view_setResult, view_setScript, view_setArtifactPath,
                    view_appendLog_eq, Option.map_some', history_setStep, history_withJob,
                    history_appendLog, hh9] at hh11
                subst hr
                refine ⟨?_, fun h0 => by cases h0⟩
                intro e he
                cases he
                refine ⟨3, some (resolveVersion job.Request parsed0),
                  (buildScript (resolveVersion job.Request parsed0).Version
                      (Queue.composeConfigureArgs (resolveVersion job.Request parsed0).Arguments
                        moduleArgs)),
                  by decide, ?_, ?_, Or.inr ⟨parsed0, hparse, rfl⟩, ?_⟩
                · simp only [view_setStep_eq, view_setResult, view_setScript, view_setArtifactPath,
                    view_appendLog_eq, Option.map_some', history_setStep, history_withJob,
                    history_appendLog, hv11]
                  rfl
                · simp only [view_setStep_eq, view_setResult, view_setScript, view_setArtifactPath,
                    view_appendLog_eq, Option.map_some', history_setStep, history_withJob,
                    history_appendLog, hh11]
                · simp only [firstFailure, resolveVersion, hparse, hmk, hx3, hx4, hm6, hx9, hx11]
              · rename_i q11 w6 hmake
                obtain ⟨hv11, hh11⟩ := view_runCommand_of_eq hmake
                have hx11 := execOutcome_of_runCommand hmake
                simp only [view_setStep_eq, view_setResult, view_setScript, view_setArtifactPath,
                    view_appendLog_eq, Option.map_some', history_setStep, history_withJob,
                    history_appendLog, hv9] at hv11
                simp only [view_setStep_eq, view_setResult, view_setScript, view_setArtifactPath,
                    view_appendLog_eq, Option.map_some', history_setStep, history_withJob,
                    history_appendLog, hh9] at hh11
                try simp only [] at hr
                split at hr
                · rename_i err w7 hmk2
                  subst hr
                  refine ⟨?_, fun h0 => by cases h0⟩
                  intro e he
                  cases he
                  refine ⟨4, some (resolveVersion job.Request parsed0),
                    (buildScript (resolveVersion job.Request parsed0).Version
                        (Queue.composeConfigureArgs (resolveVersion job.Request parsed0).Arguments
                          moduleArgs)),
                    by decide, ?_, ?_, Or.inr ⟨parsed0, hparse, rfl⟩, ?_⟩
                  · simp only [view_setStep_eq, view_setResult, view_setScript, view_setArtifactPath,
                      view_appendLog_eq, Option.map_some', history_setStep, history_withJob,
                      history_appendLog, hv11]
                    rfl
                  · simp only [view_setStep_eq, view_setResult, view_setScript, view_setArtifactPath,
                      view_appendLog_eq, Option.map_some', history_setStep, history_withJob,
                      history_appendLog, hh11]
                  · simp only [firstFailure, resolveVersion, hparse, hmk, hx3, hx4, hm6, hx9, hx11, hmk2]
                · rename_i w7 hmk2
                  try simp only [] at hr
                  split at hr
                  · rename_i err w8 hcopy
                    subst hr
                    refine ⟨?_, fun h0 => by cases h0⟩
                    intro e he
                    cases he
                    refine ⟨4, some (resolveVersion job.Request parsed0),
                      (buildScript (resolveVersion job.Request parsed0).Version
                          (Queue.composeConfigureArgs (resolveVersion job.Request parsed0).Arguments
                            moduleArgs)),
                      by decide, ?_, ?_, Or.inr ⟨parsed0, hparse, rfl⟩, ?_⟩
                    · simp only [view_setStep_eq, view_setResult, view_setScript, view_setArtifactPath,
                        view_appendLog_eq, Option.map_some', history_setStep, history_withJob,
                        history_appendLog, hv11]
                      rfl
                    · simp only [view_setStep_eq, view_setResult, view_setScript, view_setArtifactPath,
                        view_appendLog_eq, Option.map_some', history_setStep, history_withJob,
                        history_appendLog, hh11]
                    · simp only [firstFailure, resolveVersion, hparse, hmk, hx3, hx4, hm6, hx9, hx11, hmk2, hcopy]
                  · rename_i w8 hcopy
                    try simp only [] at hr
                    split at hr
                    · rename_i h hhist
                      simp only [view_setStep_eq, view_setResult, view_setScript, view_setArtifactPath,
                          view_appendLog_eq, Option.map_some', history_setStep, history_withJob,
                          history_appendLog, hh11] at hhist
                      subst hr
                      refine ⟨fun e he => (by cases he), fun _ => ⟨parsed0,
                        (buildScript (resolveVersion job.Request parsed0).Version
                            (Queue.composeConfigureArgs (resolveVersion job.Request parsed0).Arguments
                              moduleArgs)),
                        hparse, ?_, ?_, ?_, ?_⟩⟩
                      · simp only [view_setHistory, view_setStep_eq, view_setResult, view_setScript, view_setArtifactPath,
                            view_appendLog_eq, Option.map_some', history_setStep, history_withJob,
                            history_appendLog, hv11]
                        rfl
                      · intro h1 hq1
                        rw [hhist] at hq1
                        cases hq1
                        exact ⟨w8, rfl⟩
                      · intro hn
                        rw [hhist] at hn
                        cases hn
                      · simp only [firstFailure, resolveVersion, hparse, hmk, hx3, hx4, hm6, hx9, hx11, hmk2, hcopy]
                    · rename_i hhist
                      simp only [view_setStep_eq, view_setResult, view_setScript, view_setArtifactPath,
                          view_appendLog_eq, Option.map_some', history_setStep, history_withJob,
                          history_appendLog, hh11] at hhist
                      subst hr
                      refine ⟨fun e he => (by cases he), fun _ => ⟨parsed0,
                        (buildScript (resolveVersion job.Request parsed0).Version
                            (Queue.composeConfigureArgs (resolveVersion job.Request parsed0).Arguments
                              moduleArgs)),
                        hparse, ?_, ?_, ?_, ?_⟩⟩
                      · simp only [view_setStep_eq, view_setResult, view_setScript, view_setArtifactPath,
                            view_appendLog_eq, Option.map_some', history_setStep, history_withJob,
                            history_appendLog, hv11]
                        rfl
                      · intro h1 hq1
                        rw [hhist] at hq1
                        cases hq1
                      · intro _
                        simp only [view_setStep_eq, view_setResult, view_setScript, view_setArtifactPath,
                            view_appendLog_eq, Option.map_some', history_setStep, history_withJob,
                            history_appendLog, hh11]
                        exact hhist
                      · simp only [firstFailure, resolveVersion, hparse, hmk, hx3, hx4, hm6, hx9, hx11, hmk2, hcopy]

theorem view_some_iff (q : Queue) (id : Str) (J : Job) (h : q.view id = some J) :
    ∃ j, q.jobs id = some j ∧ ({ j with Logs := [] } : Job) = J := by
  unfold Queue.view at h
  cases hj : q.jobs id with
  | none => rw [hj] at h; cases h
  | some j =>
    rw [hj] at h
    exact ⟨j, rfl, by simpa using h⟩

theorem failJob_spec {W : Type} (env : Env W) (q : Queue) (id err : Str) (w : W) (j : Job)
    (hj : q.jobs id = some j) :
    (q.failJob env id err w).1.jobs id = some { j with Status := StatusFailed, Error := err } ∧
    (∀ h res, q.history = some h → j.Result = some res →
      (q.failJob env id err w).1.history =
        some (h.Append env (failedEntry j res.Version err) w).1.1) ∧
    (j.Result = none → (q.failJob env id err w).1.history = q.history) := by
  unfold Queue.failJob
  rw [hj]
  simp only []
  cases hh : q.history with
  | none =>
    refine ⟨by simp, ?_, ?_⟩
    · intro h res h0; cases h0
    · intro _; rfl
  | some h =>
    cases hr : j.Result with
    | none =>
      refine ⟨by simp, ?_, ?_⟩
      · intro h1 res _ h0; cases h0
      · intro _; rfl
    | some res =>
      refine ⟨by simp, ?_, ?_⟩
      · intro h1 res1 h0 h2
        cases h0; cases h2
        rfl
      · intro h0; cases h0

theorem stepsFailedAt_spec (k : Nat) (e : Str) (hk : k ≤ 5) :
    (stepsFailedAt k e).map Step.Name = stepNames ∧
    (∀ (i : Nat) (s : Step), (stepsFailedAt k e).get? i = some s →
      (i < k → s.Status = StepSuccess) ∧ (i = k → s.Status = StepFailed ∧ s.Message = e) ∧
      (k < i → s.Status = StepPending)) := by
  interval_cases k
  all_goals
    refine ⟨rfl, ?_⟩
    intro i s hs
    rcases i with _ | _ | _ | _ | _ | i
    all_goals
      first
      | (cases hs; refine ⟨?_, ?_, ?_⟩ <;> intro h <;> first | rfl | exact ⟨rfl, rfl⟩ | omega)
      | (simp [stepsFailedAt, stepNames, successMessages] at hs)

theorem view_of_newJob (q : Queue) (id : Str) (now : Nat) (req : BuildRequest)
    (hjob : q.jobs id = some (newJob id now req)) :
    (q.updateStatus id StatusRunning).view (newJob id now req).ID =
      some { newJob id now req with Status := StatusRunning } ∧
    (q.updateStatus id StatusRunning).history = q.history := by
  show (q.updateStatus id StatusRunning).view id = _ ∧ _
  rw [(view_updateStatus q id StatusRunning).1]
  refine ⟨?_, (view_updateStatus q id StatusRunning).2⟩
  unfold Queue.view
  rw [hjob]
  rfl

theorem worker_of_fail {W : Type} (env : Env W) (q : Queue) (job : Job) (w : W) (e : Str)
    (h : ((q.updateStatus job.ID StatusRunning).runJob env job w).1.2 = some e) :
    q.worker env job w =
      ((q.updateStatus job.ID StatusRunning).runJob env job w).1.1.failJob env job.ID e
        ((q.updateStatus job.ID StatusRunning).runJob env job w).2 := by
  unfold Queue.worker
  dsimp only
  generalize (q.updateStatus job.ID StatusRunning).runJob env job w = r at h
  rcases r with ⟨⟨q2, o⟩, w1⟩
  have ho : o = some e := h
  subst ho
  rfl

theorem worker_of_ok {W : Type} (env : Env W) (q : Queue) (job : Job) (w : W)
    (h : ((q.updateStatus job.ID StatusRunning).runJob env job w).1.2 = none) :
    q.worker env job w =
      (((q.updateStatus job.ID StatusRunning).runJob env job w).1.1.updateStatus job.ID
        StatusSuccess, ((q.updateStatus job.ID StatusRunning).runJob env job w).2) := by
  unfold Queue.worker
  dsimp only
  generalize (q.updateStatus job.ID StatusRunning).runJob env job w = r at h
  rcases r with ⟨⟨q2, o⟩, w1⟩
  have ho : o = none := h
  subst ho
  rfl

theorem static_updateStatus (q : Queue) (id status : Str) :
    (q.updateStatus id status).workRoot = q.workRoot ∧
    (q.updateStatus id status).registry = q.registry ∧
    (q.updateStatus id status).modulesDir = q.modulesDir :=
  ⟨workRoot_withJob q id _, registry_withJob q id _, modulesDir_withJob q id _⟩

theorem runJob_firstFailure {W : Type} (env : Env W) (q : Queue) (id : Str) (now : Nat)
    (req : BuildRequest) (w : W) (hjob : q.jobs id = some (newJob id now req)) :
    (∀ k e, firstFailure env q.workRoot q.registry q.modulesDir (newJob id now req) w =
        some (k, e) →
      ((q.updateStatus id StatusRunning).runJob env (newJob id now req) w).1.2 = some e) ∧
    (firstFailure env q.workRoot q.registry q.modulesDir (newJob id now req) w = none →
      ((q.updateStatus id StatusRunning).runJob env (newJob id now req) w).1.2 = none) := by
  obtain ⟨hv1, _⟩ := view_of_newJob q id now req hjob
  have hspec := runJob_view env (q.updateStatus id StatusRunning) (newJob id now req) w _ hv1 rfl
    _ rfl
  obtain ⟨s1, s2, s3⟩ := static_updateStatus q id StatusRunning
  rw [s1, s2, s3] at hspec
  constructor
  · intro k e hf
    cases hres : ((q.updateStatus id StatusRunning).runJob env (newJob id now req) w).1.2 with
    | none =>
      obtain ⟨_, _, _, _, _, _, hn⟩ := hspec.2 hres
      rw [hf] at hn
      cases hn
    | some e1 =>
      obtain ⟨k1, _, _, _, _, _, _, hff⟩ := hspec.1 e1 hres
      rw [hf] at hff
      cases hff
      rfl
  · intro hf
    cases hres : ((q.updateStatus id StatusRunning).runJob env (newJob id now req) w).1.2 with
    | none => rfl
    | some e1 =>
      obtain ⟨k1, _, _, _, _, _, _, hff⟩ := hspec.1 e1 hres
      rw [hf] at hff
      cases hff

theorem worker_failed {W : Type} (env : Env W) (q : Queue) (id : Str) (now : Nat)
    (req : BuildRequest) (w : W) (e : Str) (hjob : q.jobs id = some (newJob id now req))
    (hfail : ((q.updateStatus id StatusRunning).runJob env (newJob id now req) w).1.2 = some e) :
    ∃ (k : Nat) (j : Job), k < 5 ∧
      (q.worker env (newJob id now req) w).1.jobs id = some j ∧
      j.Status = StatusFailed ∧ j.Error = e ∧ j.Steps = stepsFailedAt k e ∧ j.ArtifactPath = [] ∧
      j.ID = id ∧
      firstFailure env q.workRoot q.registry q.modulesDir (newJob id now req) w = some (k, e) ∧
      ((k = 0 ∧ ParseNginxV req.Output = .error e ∧
          (q.worker env (newJob id now req) w).1.history = q.history) ∨
        (∃ p w1, ParseNginxV req.Output = .ok p ∧
          ∀ h, q.history = some h →
            (q.worker env (newJob id now req) w).1.history =
              some (h.Append env
                (failedEntry (newJob id now req) (resolveVersion req p).Version e) w1).1.1)) := by
  obtain ⟨hv1, hh1⟩ := view_of_newJob q id now req hjob
  have hspec := (runJob_view env (q.updateStatus id StatusRunning) (newJob id now req) w _ hv1 rfl
    _ rfl).1 e hfail
  obtain ⟨k, R, S, hk, hview, hhist, hparse, hff⟩ := hspec
  obtain ⟨s1, s2, s3⟩ := static_updateStatus q id StatusRunning
  rw [s1, s2, s3] at hff
  obtain ⟨j2, hj2, herase⟩ := view_some_iff _ _ _ hview
  have hw : q.worker env (newJob id now req) w =
      ((q.updateStatus id StatusRunning).runJob env (newJob id now req) w).1.1.failJob env id e
        ((q.updateStatus id StatusRunning).runJob env (newJob id now req) w).2 :=
    worker_of_fail env q (newJob id now req) w e hfail
  have hfj := failJob_spec env _ id e
    ((q.updateStatus id StatusRunning).runJob env (newJob id now req) w).2 j2 hj2
  rw [← hw] at hfj
  obtain ⟨hjobs, hsome, hnone⟩ := hfj
  have hSteps : j2.Steps = stepsFailedAt k e := congrArg Job.Steps herase
  have hArt : j2.ArtifactPath = [] := congrArg Job.ArtifactPath herase
  have hRes : j2.Result = R := congrArg Job.Result herase
  have hID : j2.ID = id := congrArg Job.ID herase
  have hCr : j2.CreatedAt = now := congrArg Job.CreatedAt herase
  have hReq : j2.Request = req := congrArg Job.Request herase
  refine ⟨k, _, hk, hjobs, rfl, rfl, hSteps, hArt, hID, hff, ?_⟩
  rcases hparse with ⟨hk0, hp, hR⟩ | ⟨p, hp, hR⟩
  · left
    refine ⟨hk0, hp, ?_⟩
    rw [hnone (by rw [hRes, hR]; rfl), hhist, hh1]
  · right
    refine ⟨p, ((q.updateStatus id StatusRunning).runJob env (newJob id now req) w).2, hp, ?_⟩
    intro h hq
    have := hsome h (resolveVersion req p) (by rw [hhist, hh1, hq]) (by rw [hRes, hR]; rfl)
    rw [this]
    unfold failedEntry
    rw [hID, hCr, hReq]
    rfl

theorem queueFor_jobs (req : BuildRequest) (history : Option HistoryStore) :
    (queueFor req history).jobs "j1".toList = some (newJob "j1".toList 0 req) := by
  simp [queueFor]

theorem tarFails_firstFailure :
    firstFailure tarFailsEnv (queueFor sampleRequest none).workRoot
      (queueFor sampleRequest none).registry (queueFor sampleRequest none).modulesDir
      (newJob "j1".toList 0 sampleRequest) () = some (1, "exit status 2".toList) := by
  rfl

/-- C1: for every run of the worker on a job registered by `Enqueue` in which
some stage fails, with `k` the first failing stage among the five in order and
`e` the error it fails with (`firstFailure`, read off the outcomes of the
parser, filesystem and subprocess calls alone): `k` is one of the five
stages, `runJob` returns `e`, and the final job has status `failed` and error
`e`, step `k` is `failed` with message `e`, every step before `k` is `success`,
every step after `k` is still `pending`, the steps still carry the five names in
order, and the artifact path is empty. -/
theorem worker_failure {W : Type} (env : Env W) (q : Queue) (id : Str) (now : Nat)
    (req : BuildRequest) (w : W) (k : Nat) (e : Str)
    (hjob : q.jobs id = some (newJob id now req))
    (hfirst : firstFailure env q.workRoot q.registry q.modulesDir (newJob id now req) w =
      some (k, e)) :
    k < 5 ∧
    ((q.updateStatus id StatusRunning).runJob env (newJob id now req) w).1.2 = some e ∧
    ∃ j : Job,
      (q.worker env (newJob id now req) w).1.jobs id = some j ∧
      j.Status = StatusFailed ∧ j.Error = e ∧
      j.Steps.map Step.Name = stepNames ∧
      (∀ (i : Nat) (s : Step), j.Steps.get? i = some s →
        (i < k → s.Status = StepSuccess) ∧ (i = k → s.Status = StepFailed ∧ s.Message = e) ∧
        (k < i → s.Status = StepPending)) ∧
      (∃ s, j.Steps.get? k = some s) ∧
      j.ArtifactPath = [] := by
  have hfail := (runJob_firstFailure env q id now req w hjob).1 k e hfirst
  obtain ⟨k1, j, hk, hj, hst, herr, hsteps, hart, _, hff, _⟩ :=
    worker_failed env q id now req w e hjob hfail
  rw [hfirst] at hff
  cases hff
  have hspec := stepsFailedAt_spec k e (by omega)
  refine ⟨hk, hfail, j, hj, hst, herr, ?_, ?_, ?_, hart⟩
  · rw [hsteps]; exact hspec.1
  · rw [hsteps]; exact hspec.2
  · rw [hsteps]
    have hlen : (stepsFailedAt k e).length = 5 := by
      have := congrArg List.length hspec.1
      simpa [stepNames] using this
    exact ⟨(stepsFailedAt k e).get ⟨k, by omega⟩, List.get?_eq_get _⟩

theorem worker_failure_witness :
    1 < 5 ∧
    (((queueFor sampleRequest none).updateStatus "j1".toList StatusRunning).runJob tarFailsEnv
      (newJob "j1".toList 0 sampleRequest) ()).1.2 = some "exit status 2".toList ∧
    ∃ j : Job,
      ((queueFor sampleRequest none).worker tarFailsEnv
        (newJob "j1".toList 0 sampleRequest) ()).1.jobs "j1".toList = some j ∧
      j.Status = StatusFailed ∧ j.Error = "exit status 2".toList ∧
      j.Steps.map Step.Name = stepNames ∧
      (∀ (i : Nat) (s : Step), j.Steps.get? i = some s →
        (i < 1 → s.Status = StepSuccess) ∧
        (i = 1 → s.Status = StepFailed ∧ s.Message = "exit status 2".toList) ∧
        (1 < i → s.Status = StepPending)) ∧
      (∃ s, j.Steps.get? 1 = some s) ∧
      j.ArtifactPath = [] :=
  worker_failure tarFailsEnv (queueFor sampleRequest none) "j1".toList 0 sampleRequest () 1
    "exit status 2".toList (queueFor_jobs sampleRequest none) tarFails_firstFailure

theorem unknownModule_fails (history : Option HistoryStore) :
    (((queueFor unknownModuleRequest history).updateStatus "j1".toList StatusRunning).runJob
      quietEnv (newJob "j1".toList 0 unknownModuleRequest) ()).1.2 =
      some ("模块 ".toList ++ "brotli".toList ++ " 未在预设列表中".toList) := by
  rfl

/-- C3: for every failing run of the worker with a history store configured, the
history is left unchanged when the parse stage failed, and exactly one entry is
appended (`Append`: prepended, newest 200 kept) when the parse stage succeeded.
The appended entry has the id of the job, status `failed`, the error text of the
job, an empty artifact, and the resolved version: the trimmed override when it
is non-empty after trimming and the parsed version otherwise. -/
theorem failed_run_history {W : Type} (env : Env W) (q : Queue) (id : Str) (now : Nat)
    (req : BuildRequest) (w : W) (e : Str) (h : HistoryStore)
    (hjob : q.jobs id = some (newJob id now req)) (hhist : q.history = some h)
    (hfail : ((q.updateStatus id StatusRunning).runJob env (newJob id now req) w).1.2 = some e) :
    (∀ perr, ParseNginxV req.Output = .error perr →
      (q.worker env (newJob id now req) w).1.history = some h) ∧
    (∀ p, ParseNginxV req.Output = .ok p →
      ∃ (j : Job) (entry : HistoryEntry) (h1 : HistoryStore),
        (q.worker env (newJob id now req) w).1.jobs id = some j ∧
        (q.worker env (newJob id now req) w).1.history = some h1 ∧
        h1.list = (entry :: h.list).take 200 ∧
        entry.ID = j.ID ∧ j.ID = id ∧ entry.Status = "failed".toList ∧
        entry.Error = j.Error ∧ j.Error = e ∧ entry.Artifact = [] ∧
        entry.Version =
          (if TrimSpace req.TargetVersion ≠ [] then TrimSpace req.TargetVersion else p.Version)) := by
  obtain ⟨k, j, _, hj, _, herr, _, _, hid, _, hcase⟩ :=
    worker_failed env q id now req w e hjob hfail
  constructor
  · intro perr hperr
    rcases hcase with ⟨_, _, hh⟩ | ⟨p, _, hp, _⟩
    · rw [hh, hhist]
    · rw [hperr] at hp; cases hp
  · intro p hp
    rcases hcase with ⟨_, hperr, _⟩ | ⟨p1, w1, hp1, hh⟩
    · rw [hp] at hperr; cases hperr
    · rw [hp] at hp1
      cases hp1
      refine ⟨j, failedEntry (newJob id now req) (resolveVersion req p).Version e, _, hj,
        hh h hhist, Append_list env h _ w1, hid.symm, hid, rfl, herr.symm, herr, rfl, ?_⟩
      show (resolveVersion req p).Version = _
      unfold resolveVersion
      split <;> rfl

theorem failed_run_history_witness :
    (∀ perr, ParseNginxV unknownModuleRequest.Output = .error perr →
      ((queueFor unknownModuleRequest (some ⟨[], []⟩)).worker quietEnv
        (newJob "j1".toList 0 unknownModuleRequest) ()).1.history = some ⟨[], []⟩) ∧
    (∀ p, ParseNginxV unknownModuleRequest.Output = .ok p →
      ∃ (j : Job) (entry : HistoryEntry) (h1 : HistoryStore),
        ((queueFor unknownModuleRequest (some ⟨[], []⟩)).worker quietEnv
          (newJob "j1".toList 0 unknownModuleRequest) ()).1.jobs "j1".toList = some j ∧
        ((queueFor unknownModuleRequest (some ⟨[], []⟩)).worker quietEnv
          (newJob "j1".toList 0 unknownModuleRequest) ()).1.history = some h1 ∧
        h1.list = (entry :: ([] : List HistoryEntry)).take 200 ∧
        entry.ID = j.ID ∧ j.ID = "j1".toList ∧ entry.Status = "failed".toList ∧
        entry.Error = j.Error ∧
        j.Error = "模块 ".toList ++ "brotli".toList ++ " 未在预设列表中".toList ∧
        entry.Artifact = [] ∧
        entry.Version =
          (if TrimSpace unknownModuleRequest.TargetVersion ≠ [] then
            TrimSpace unknownModuleRequest.TargetVersion else p.Version)) :=
  failed_run_history quietEnv (queueFor unknownModuleRequest (some ⟨[], []⟩)) "j1".toList 0
    unknownModuleRequest () ("模块 ".toList ++ "brotli".toList ++ " 未在预设列表中".toList) ⟨[], []⟩
    (queueFor_jobs unknownModuleRequest _) rfl (unknownModule_fails _)

theorem quietEnv_join (a b : Str) (hb : b ≠ []) : quietEnv.Join [a, b] ≠ [] := by
  show Join [a, b] "/".toList ≠ []
  cases b with
  | nil => exact absurd rfl hb
  | cons c t => simp [Join]

theorem quietEnv_allSucceed : quietEnv.AllSucceed :=
  ⟨fun _ _ => rfl, fun _ _ => rfl, fun _ _ _ => rfl, fun _ _ => rfl, fun _ _ => rfl,
    fun _ _ _ => rfl, fun _ _ => rfl, fun _ _ _ _ => rfl⟩

theorem fst_ne_some {α β : Type} {x : Option α × β} {a : α} {b : β} (h : x = (some a, b))
    (h0 : x.1 = none) : False := by
  rw [h] at h0
  cases h0

theorem fst_ne_error {α β : Type} {x : Except Str α × β} {e : Str} {b : β}
    (h : x = (.error e, b)) (h0 : ∃ a, x.1 = .ok a) : False := by
  obtain ⟨a, ha⟩ := h0
  rw [h] at ha
  cases ha

theorem execOutcome_ok {W : Type} (env : Env W) (hall : env.AllSucceed) (dir name : Str)
    (args : List Str) (w : W) : (execOutcome env dir name args w).1 = none :=
  hall.2.2.2.2.2.2.2 dir name args w

theorem cloneOutcome_ok {W : Type} (env : Env W) (hall : env.AllSucceed) (repo dir : Str)
    (w : W) : (cloneOutcome env repo dir w).1 = none := by
  unfold cloneOutcome
  split
  · rfl
  · rename_i x w1 hst
    exact (fst_ne_some hst (hall.2.1 dir w)).elim

theorem resolveModulePath_ok {W : Type} (env : Env W) (hall : env.AllSucceed) (mod : Module)
    (modulesDir workDir : Str) (w : W) (hmod : mod.Path ≠ [] ∨ mod.Repo ≠ []) :
    ∃ path, (ResolveModulePath env mod modulesDir workDir w).1 = .ok path := by
  unfold ResolveModulePath
  by_cases hp : mod.Path = []
  · rw [if_neg (not_not.mpr hp)]
    have hr : mod.Repo ≠ [] := hmod.resolve_left (not_not.mpr hp)
    rw [if_neg hr]
    dsimp only
    split
    · rename_i err w1 hmk
      exact (fst_ne_some hmk (hall.1 _ w)).elim
    · exact ⟨_, rfl⟩
  · rw [if_pos hp]
    split <;> exact ⟨_, rfl⟩

theorem validateCustomModule_ok (name repo flag : Str) (mod : Module)
    (h : ValidateCustomModule name repo flag = .ok mod) : mod.Path = [] ∧ mod.Repo ≠ [] := by
  unfold ValidateCustomModule at h
  by_cases h1 : TrimSpace name = []
  · rw [if_pos h1] at h
    cases h
  rw [if_neg h1] at h
  by_cases h2 : (!validModuleName name) = true
  · rw [if_pos h2] at h
    cases h
  rw [if_neg h2] at h
  by_cases h3 : TrimSpace repo = []
  · rw [if_pos h3] at h
    cases h
  rw [if_neg h3] at h
  by_cases h4 : (!HasPrefix repo "https://".toList) = true
  · rw [if_pos h4] at h
    cases h
  rw [if_neg h4] at h
  dsimp only at h
  generalize (if flag = [] then "add-module".toList else flag) = fl at h
  by_cases h5 : fl ≠ "add-module".toList ∧ fl ≠ "add-dynamic-module".toList
  · rw [if_pos h5] at h
    cases h
  rw [if_neg h5] at h
  cases h
  exact ⟨rfl, fun hr => h3 (by
    have hr1 : repo = [] := hr
    rw [hr1]
    rfl)⟩

theorem presetsOutcome_ok {W : Type} (env : Env W) (hall : env.AllSucceed)
    (registry : Str → Option Module) (modulesDir workDir : Str) (names : List Str) :
    ∀ (moduleArgs : List Str) (w : W),
      (∀ name ∈ names, ∃ mod, registry name = some mod ∧ (mod.Path ≠ [] ∨ mod.Repo ≠ [])) →
      ∃ args, (presetsOutcome env registry modulesDir workDir names moduleArgs w).1 = .ok args := by
  induction names with
  | nil => intro moduleArgs w _; exact ⟨moduleArgs, rfl⟩
  | cons name rest ih =>
    intro moduleArgs w h
    obtain ⟨mod, hreg, hmod⟩ := h name (List.mem_cons_self _ _)
    have hrest : ∀ n ∈ rest, ∃ mod, registry n = some mod ∧ (mod.Path ≠ [] ∨ mod.Repo ≠ []) :=
      fun n hn => h n (List.mem_cons_of_mem _ hn)
    obtain ⟨path, hpath⟩ := resolveModulePath_ok env hall mod modulesDir workDir w hmod
    unfold presetsOutcome
    rw [hreg]
    dsimp only
    split
    · rename_i err w1 hres
      exact (fst_ne_error hres ⟨path, hpath⟩).elim
    · rename_i modulePath w1 hres
      split
      · split
        · rename_i err w2 hc
          exact (fst_ne_some hc (cloneOutcome_ok env hall mod.Repo modulePath w1)).elim
        · exact ih _ _ hrest
      · split
        · rename_i x w2 hst
          exact (fst_ne_some hst (hall.2.1 modulePath w1)).elim
        · exact ih _ _ hrest

theorem customsOutcome_ok {W : Type} (env : Env W) (hall : env.AllSucceed)
    (modulesDir workDir : Str) (customs : List CustomModuleReq) :
    ∀ (moduleArgs : List Str) (w : W),
      (∀ c ∈ customs, ∃ mod, ValidateCustomModule c.Name c.Repo c.Flag = .ok mod) →
      ∃ args, (customsOutcome env modulesDir workDir customs moduleArgs w).1 = .ok args := by
  induction customs with
  | nil => intro moduleArgs w _; exact ⟨moduleArgs, rfl⟩
  | cons custom rest ih =>
    intro moduleArgs w h
    obtain ⟨mod, hval⟩ := h custom (List.mem_cons_self _ _)
    have hrest : ∀ c ∈ rest, ∃ mod, ValidateCustomModule c.Name c.Repo c.Flag = .ok mod :=
      fun c hc => h c (List.mem_cons_of_mem _ hc)
    obtain ⟨path, hpath⟩ := resolveModulePath_ok env hall mod modulesDir workDir w
      (Or.inr (validateCustomModule_ok _ _ _ mod hval).2)
    unfold customsOutcome
    rw [hval]
    dsimp only
    split
    · rename_i err w1 hres
      exact (fst_ne_error hres ⟨path, hpath⟩).elim
    · rename_i modulePath w1 hres
      split
      · rename_i err w2 hc
        exact (fst_ne_some hc (cloneOutcome_ok env hall mod.Repo modulePath w1)).elim
      · exact ih _ _ hrest

theorem modulesOutcome_ok {W : Type} (env : Env W) (hall : env.AllSucceed)
    (registry : Str → Option Module) (modulesDir : Str) (job : Job) (workDir : Str) (w : W)
    (hmods : ModulesResolvable registry job.Request) :
    ∃ args, (modulesOutcome env registry modulesDir job workDir w).1 = .ok args := by
  unfold modulesOutcome
  split
  · rename_i err w1 hpre
    exact (fst_ne_error hpre (presetsOutcome_ok env hall registry modulesDir workDir
      job.Request.ModuleNames [] w hmods.1)).elim
  · exact customsOutcome_ok env hall modulesDir workDir job.Request.CustomModules _ _ hmods.2

theorem copyFile_ok {W : Type} (env : Env W) (hall : env.AllSucceed) (src dst : Str) (w : W) :
    (copyFile env src dst w).1 = none := by
  unfold copyFile
  split
  · rename_i err w1 h1
    exact (fst_ne_some h1 (hall.2.2.2.1 src w)).elim
  · split
    · rename_i err w2 h2
      exact (fst_ne_some h2 (hall.2.2.2.2.1 dst _)).elim
    · split
      · rename_i err w3 h3
        exact (fst_ne_some h3 (hall.2.2.2.2.2.1 src dst _)).elim
      · exact hall.2.2.2.2.2.2.1 dst _

theorem firstFailure_none {W : Type} (env : Env W) (workRoot : Str)
    (registry : Str → Option Module) (modulesDir : Str) (job : Job) (w : W)
    (hall : env.AllSucceed) (hparse : ∃ p, ParseNginxV job.Request.Output = .ok p)
    (hmods : ModulesResolvable registry job.Request) :
    firstFailure env workRoot registry modulesDir job w = none := by
  obtain ⟨p, hp⟩ := hparse
  unfold firstFailure
  rw [hp]
  dsimp only
  split
  · rename_i err w1 h1
    exact (fst_ne_some h1 (hall.1 _ w)).elim
  · split
    · rename_i err w2 h2
      exact (fst_ne_some h2 (execOutcome_ok env hall _ _ _ _)).elim
    · split
      · rename_i err w3 h3
        exact (fst_ne_some h3 (execOutcome_ok env hall _ _ _ _)).elim
      · split
        · rename_i err w4 h4
          exact (fst_ne_error h4 (modulesOutcome_ok env hall registry modulesDir job _ _ hmods)).elim
        · split
          · rename_i err w5 h5
            exact (fst_ne_some h5 (execOutcome_ok env hall _ _ _ _)).elim
          · split
            · rename_i err w6 h6
              exact (fst_ne_some h6 (execOutcome_ok env hall _ _ _ _)).elim
            · split
              · rename_i err w7 h7
                exact (fst_ne_some h7 (hall.1 _ _)).elim
              · split
                · rename_i err w8 h8
                  exact (fst_ne_some h8 (copyFile_ok env hall _ _ _)).elim
                · rfl

theorem resolveModulePath_cond {W : Type} {env : Env W} {mod : Module}
    {modulesDir workDir path : Str} {w w1 : W}
    (h : ResolveModulePath env mod modulesDir workDir w = (.ok path, w1)) :
    mod.Path ≠ [] ∨ mod.Repo ≠ [] := by
  by_cases hp : mod.Path = []
  · by_cases hr : mod.Repo = []
    · unfold ResolveModulePath at h
      rw [if_neg (not_not.mpr hp), if_pos hr] at h
      cases h
    · exact Or.inr hr
  · exact Or.inl hp

theorem presetsOutcome_cond {W : Type} (env : Env W) (registry : Str → Option Module)
    (modulesDir workDir : Str) (names : List Str) :
    ∀ (moduleArgs args : List Str) (w w1 : W),
      presetsOutcome env registry modulesDir workDir names moduleArgs w = (.ok args, w1) →
      ∀ name ∈ names, ∃ mod, registry name = some mod ∧ (mod.Path ≠ [] ∨ mod.Repo ≠ []) := by
  induction names with
  | nil => intro _ _ _ _ _ name hname; cases hname
  | cons name rest ih =>
    intro moduleArgs args w w1 h
    unfold presetsOutcome at h
    split at h
    · cases h
    · rename_i mod hreg
      split at h
      · cases h
      · rename_i modulePath w2 hres
        have hmod := resolveModulePath_cond hres
        have key : ∃ margs2 w3,
            presetsOutcome env registry modulesDir workDir rest margs2 w3 = (.ok args, w1) := by
          split at h
          · split at h
            · cases h
            · exact ⟨_, _, h⟩
          · split at h
            · split at h
              · cases h
              · split at h
                · cases h
                · exact ⟨_, _, h⟩
            · exact ⟨_, _, h⟩
        obtain ⟨margs2, w3, hrest⟩ := key
        intro n hn
        rcases List.mem_cons.mp hn with hn1 | hn1
        · rw [hn1]
          exact ⟨mod, hreg, hmod⟩
        · exact ih _ _ _ _ hrest n hn1

theorem customsOutcome_cond {W : Type} (env : Env W) (modulesDir workDir : Str)
    (customs : List CustomModuleReq) :
    ∀ (moduleArgs args : List Str) (w w1 : W),
      customsOutcome env modulesDir workDir customs moduleArgs w = (.ok args, w1) →
      ∀ c ∈ customs, ∃ mod, ValidateCustomModule c.Name c.Repo c.Flag = .ok mod := by
  induction customs with
  | nil => intro _ _ _ _ _ c hc; cases hc
  | cons custom rest ih =>
    intro moduleArgs args w w1 h
    unfold customsOutcome at h
    split at h
    · cases h
    · rename_i mod hval
      have key : ∃ margs2 w3,
          customsOutcome env modulesDir workDir rest margs2 w3 = (.ok args, w1) := by
        split at h
        · cases h
        · split at h
          · cases h
          · exact ⟨_, _, h⟩
      obtain ⟨margs2, w3, hrest⟩ := key
      intro c hc
      rcases List.mem_cons.mp hc with hc1 | hc1
      · rw [hc1]
        exact ⟨mod, hval⟩
      · exact ih _ _ _ _ hrest c hc1

theorem modulesOutcome_cond {W : Type} {env : Env W} {registry : Str → Option Module}
    {modulesDir : Str} {job : Job} {workDir : Str} {w w1 : W} {args : List Str}
    (h : modulesOutcome env registry modulesDir job workDir w = (.ok args, w1)) :
    ModulesResolvable registry job.Request := by
  unfold modulesOutcome at h
  split at h
  · cases h
  · rename_i moduleArgs w2 hpre
    exact ⟨presetsOutcome_cond env registry modulesDir workDir _ _ _ _ _ hpre,
      customsOutcome_cond env modulesDir workDir _ _ _ _ _ h⟩

theorem firstFailure_none_cond {W : Type} (env : Env W) (workRoot : Str)
    (registry : Str → Option Module) (modulesDir : Str) (job : Job) (w : W)
    (h : firstFailure env workRoot registry modulesDir job w = none) :
    (∃ p, ParseNginxV job.Request.Output = .ok p) ∧ ModulesResolvable registry job.Request := by
  unfold firstFailure at h
  split at h
  · cases h
  · rename_i p hp
    refine ⟨⟨p, hp⟩, ?_⟩
    dsimp only at h
    split at h
    · cases h
    · split at h
      · cases h
      · split at h
        · cases h
        · split at h
          · cases h
          · rename_i moduleArgs w4 hm
            exact modulesOutcome_cond hm

theorem modulesQueue_jobs :
    modulesQueue.jobs "j1".toList = some (newJob "j1".toList 0 modulesRequest) := by
  simp [modulesQueue, queueFor]

theorem modulesRequest_resolvable : ModulesResolvable modulesQueue.registry modulesRequest := by
  constructor
  · intro name hname
    have hn : name = "brotli".toList := by simpa [modulesRequest] using hname
    subst hn
    exact ⟨brotliModule, rfl, Or.inr (by decide)⟩
  · intro c hc
    have hn := List.mem_singleton.mp hc
    subst hn
    exact ⟨_, rfl⟩

/-- C2 (counterexample): in `quietEnv` every filesystem and subprocess call
succeeds, whatever its arguments, and the diagnostic text of the request parses;
but the request names the preset module `brotli`, which the registry does not
hold, so the worker leaves the job with status `failed` and the error of module
preparation, step `准备模块` failed, and no artifact path. -/
theorem calls_succeed_unknown_preset_fails :
    quietEnv.AllSucceed ∧
    (∃ p, ParseNginxV unknownModuleRequest.Output = .ok p) ∧
    ∃ j : Job,
      ((queueFor unknownModuleRequest (some ⟨[], []⟩)).worker quietEnv
        (newJob "j1".toList 0 unknownModuleRequest) ()).1.jobs "j1".toList = some j ∧
      j.Status = StatusFailed ∧ j.Status ≠ StatusSuccess ∧
      j.Error = "模块 ".toList ++ "brotli".toList ++ " 未在预设列表中".toList ∧
      j.Steps = stepsFailedAt 2 ("模块 ".toList ++ "brotli".toList ++ " 未在预设列表中".toList) ∧
      j.ArtifactPath = [] := by
  refine ⟨quietEnv_allSucceed, ⟨_, rfl⟩, ?_⟩
  obtain ⟨k, j, _, hj, hst, herr, hsteps, hart, _, hff, _⟩ :=
    worker_failed quietEnv (queueFor unknownModuleRequest (some ⟨[], []⟩)) "j1".toList 0
      unknownModuleRequest () _ (queueFor_jobs unknownModuleRequest _) (unknownModule_fails _)
  have hk : firstFailure quietEnv (queueFor unknownModuleRequest (some ⟨[], []⟩)).workRoot
      (queueFor unknownModuleRequest (some ⟨[], []⟩)).registry
      (queueFor unknownModuleRequest (some ⟨[], []⟩)).modulesDir
      (newJob "j1".toList 0 unknownModuleRequest) () =
      some (2, "模块 ".toList ++ "brotli".toList ++ " 未在预设列表中".toList) := by rfl
  rw [hk] at hff
  cases hff
  refine ⟨j, hj, hst, ?_, herr, hsteps, hart⟩
  rw [hst]
  decide

/-- C2 (amended): for every run of the worker on a job registered by `Enqueue`,
with a history store configured.  First, when every filesystem and subprocess
call succeeds, no stage of the run fails exactly when the parser succeeds and
module preparation has no error of its own: every requested preset module is in
the registry with a local path or a repository, and every custom module passes
`ValidateCustomModule`.  Second, whenever no stage of the run fails
(`firstFailure` is `none`: no call made by the five stages in order returns an
error): the final job has status `success`, all five steps are `success`, the
artifact path is non-empty and is the `filepath.Join` of the work root, the job
id, `artifact` and `nginx-<version>`, the error is empty, and the newest history
entry has the id of the job, the version of the job's result, status `success`
and the artifact path of the job.  (`filepath.Join` is a parameter of the model;
that it yields a non-empty path when its last element is non-empty is its
documented behaviour.) -/
theorem worker_success {W : Type} (env : Env W) (q : Queue) (id : Str) (now : Nat)
    (req : BuildRequest) (w : W) (h : HistoryStore)
    (hjob : q.jobs id = some (newJob id now req)) (hhist : q.history = some h)
    (hjoin : ∀ a b : Str, b ≠ [] → env.Join [a, b] ≠ []) :
    (env.AllSucceed →
      (firstFailure env q.workRoot q.registry q.modulesDir (newJob id now req) w = none ↔
        (∃ p, ParseNginxV req.Output = .ok p) ∧ ModulesResolvable q.registry req)) ∧
    (firstFailure env q.workRoot q.registry q.modulesDir (newJob id now req) w = none →
      ∃ (j : Job) (res : ParseResult) (entry : HistoryEntry) (rest : List HistoryEntry)
        (h1 : HistoryStore),
        (q.worker env (newJob id now req) w).1.jobs id = some j ∧
        j.Status = StatusSuccess ∧
        j.Steps.map Step.Name = stepNames ∧ (∀ s ∈ j.Steps, s.Status = StepSuccess) ∧
        j.ArtifactPath ≠ [] ∧ j.Result = some res ∧
        j.ArtifactPath =
          env.Join [env.Join [env.Join [q.workRoot, id], "artifact".toList],
            "nginx-".toList ++ res.Version] ∧
        j.Error = [] ∧
        (q.worker env (newJob id now req) w).1.history = some h1 ∧
        h1.list = entry :: rest ∧
        entry.ID = j.ID ∧ entry.Version = res.Version ∧ entry.Status = "success".toList ∧
        entry.Artifact = j.ArtifactPath) := by
  refine ⟨fun hall =>
    ⟨firstFailure_none_cond env q.workRoot q.registry q.modulesDir (newJob id now req) w,
      fun hc => firstFailure_none env q.workRoot q.registry q.modulesDir (newJob id now req) w
        hall hc.1 hc.2⟩, ?_⟩
  intro hnone
  have hok := (runJob_firstFailure env q id now req w hjob).2 hnone
  obtain ⟨hv1, hh1⟩ := view_of_newJob q id now req hjob
  have hspec := (runJob_view env (q.updateStatus id StatusRunning) (newJob id now req) w _ hv1 rfl
    _ rfl).2 hok
  obtain ⟨p, S, _, hview, hsome, _, _⟩ := hspec
  obtain ⟨w1, hh2⟩ := hsome h (by rw [hh1, hhist])
  rw [worker_of_ok env q (newJob id now req) w hok]
  have hv3 := (view_updateStatus
    ((q.updateStatus id StatusRunning).runJob env (newJob id now req) w).1.1 id StatusSuccess)
  rw [show (newJob id now req).ID = id from rfl] at hview
  rw [hview] at hv3
  obtain ⟨j, hj, herase⟩ := view_some_iff _ _ _ hv3.1
  have hStatus : j.Status = StatusSuccess := congrArg Job.Status herase
  have hSteps : j.Steps = stepsFailedAt 5 [] := congrArg Job.Steps herase
  have hArt : j.ArtifactPath =
      artifactPath env (q.updateStatus id StatusRunning).workRoot id (resolveVersion req p).Version :=
    congrArg Job.ArtifactPath herase
  have hRes : j.Result = some (resolveVersion req p) := congrArg Job.Result herase
  have hErr : j.Error = [] := congrArg Job.Error herase
  have hID : j.ID = id := congrArg Job.ID herase
  have hwr : (q.updateStatus id StatusRunning).workRoot = q.workRoot :=
    (static_updateStatus q id StatusRunning).1
  rw [hwr] at hArt hh2
  refine ⟨j, resolveVersion req p,
    successEntry env q.workRoot (newJob id now req) (resolveVersion req p).Version,
    h.list.take 199,
    (h.Append env (successEntry env q.workRoot (newJob id now req) (resolveVersion req p).Version)
      w1).1.1,
    hj, hStatus, ?_, ?_, ?_, hRes, hArt, hErr, ?_, ?_, hID.symm, rfl, rfl, ?_⟩
  · rw [hSteps]; rfl
  · rw [hSteps]; decide
  · rw [hArt]
    exact hjoin _ _ (by simp)
  · show (((q.updateStatus id StatusRunning).runJob env (newJob id now req) w).1.1.updateStatus id
      StatusSuccess).history = _
    rw [hv3.2, hh2]
    rfl
  · rw [Append_list]
    rfl
  · rw [hArt]; rfl

theorem worker_success_witness :
    ∃ (j : Job) (res : ParseResult) (entry : HistoryEntry) (rest : List HistoryEntry)
      (h1 : HistoryStore),
      (modulesQueue.worker quietEnv (newJob "j1".toList 0 modulesRequest) ()).1.jobs "j1".toList =
        some j ∧
      j.Status = StatusSuccess ∧
      j.Steps.map Step.Name = stepNames ∧ (∀ s ∈ j.Steps, s.Status = StepSuccess) ∧
      j.ArtifactPath ≠ [] ∧ j.Result = some res ∧
      j.ArtifactPath =
        quietEnv.Join [quietEnv.Join [quietEnv.Join [modulesQueue.workRoot, "j1".toList],
          "artifact".toList], "nginx-".toList ++ res.Version] ∧
      j.Error = [] ∧
      (modulesQueue.worker quietEnv (newJob "j1".toList 0 modulesRequest) ()).1.history = some h1 ∧
      h1.list = entry :: rest ∧
      entry.ID = j.ID ∧ entry.Version = res.Version ∧ entry.Status = "success".toList ∧
      entry.Artifact = j.ArtifactPath :=
  (worker_success quietEnv modulesQueue "j1".toList 0 modulesRequest () ⟨[], []⟩
      modulesQueue_jobs rfl quietEnv_join).2
    (((worker_success quietEnv modulesQueue "j1".toList 0 modulesRequest () ⟨[], []⟩
      modulesQueue_jobs rfl quietEnv_join).1 quietEnv_allSucceed).mpr
      ⟨⟨_, rfl⟩, modulesRequest_resolvable⟩)

/-! ## Searching in trimmed lines -/

theorem HasPrefix_iff (s m : Str) : HasPrefix s m = true ↔ m <+: s := by
  unfold HasPrefix
  exact List.isPrefixOf_iff_prefix

theorem Index_nil_of_ne (m : Str) (hm : m ≠ []) : Index [] m = none := by
  cases m with
  | nil => exact absurd rfl hm
  | cons c t => rfl

theorem restAfter_nil (m : Str) (hm : m ≠ []) : restAfter [] m = none := by
  unfold restAfter
  rw [Index_nil_of_ne m hm]
  rfl

theorem restAfter_of_hasPrefix (s m : Str) (h : HasPrefix s m = true) :
    restAfter s m = some (s.drop m.length) := by
  unfold restAfter
  cases s with
  | nil =>
    have hm : m = [] := by
      rw [HasPrefix_iff] at h
      exact List.prefix_nil.mp h
    subst hm
    rfl
  | cons x t =>
    unfold Index
    rw [if_pos h]
    simp

theorem restAfter_cons_of_not_hasPrefix (x : Char) (t m : Str)
    (h : HasPrefix (x :: t) m = false) : restAfter (x :: t) m = restAfter t m := by
  unfold restAfter
  conv_lhs => unfold Index
  rw [if_neg (by rw [h]; exact Bool.false_ne_true), Option.map_map]
  congr 1
  funext idx
  show (x :: t).drop (idx + 1 + m.length) = t.drop (idx + m.length)
  rw [show idx + 1 + m.length = (idx + m.length) + 1 by omega, List.drop_succ_cons]

theorem Contains_eq_isSome (s m : Str) : Contains s m = (restAfter s m).isSome := by
  unfold Contains restAfter
  cases Index s m <;> rfl

theorem hasPrefix_cons_space (x : Char) (t : Str) (c : Char) (m1 : Str)
    (hx : isSpace x = true) (hc : isSpace c = false) : HasPrefix (x :: t) (c :: m1) = false := by
  rw [← Bool.not_eq_true, HasPrefix_iff]
  intro h
  obtain ⟨r, hr⟩ := h
  have : c = x := by
    have := congrArg List.head? hr
    simpa using this
  rw [this, hx] at hc
  exact Bool.noConfusion hc

theorem restAfter_dropWhile (c : Char) (m1 : Str) (hc : isSpace c = false) (s : Str) :
    restAfter (s.dropWhile isSpace) (c :: m1) = restAfter s (c :: m1) := by
  induction s with
  | nil => rfl
  | cons x t ih =>
    by_cases hx : isSpace x = true
    · rw [List.dropWhile_cons_of_pos hx, ih,
        restAfter_cons_of_not_hasPrefix x t _ (hasPrefix_cons_space x t c m1 hx hc)]
    · rw [List.dropWhile_cons_of_neg hx]

theorem hasPrefix_concat_space (t m : Str) (x : Char)
    (hlast : ∀ c, m.getLast? = some c → isSpace c = false) (hx : isSpace x = true) :
    HasPrefix (t ++ [x]) m = HasPrefix t m := by
  rw [Bool.eq_iff_iff, HasPrefix_iff, HasPrefix_iff, List.prefix_concat_iff]
  constructor
  · rintro (h | h)
    · exfalso
      have := hlast x (by rw [h]; simp)
      rw [hx] at this
      exact Bool.noConfusion this
    · exact h
  · intro h
    exact Or.inr h

theorem restAfter_concat_space (m : Str) (x : Char) (hm : m ≠ [])
    (hlast : ∀ c, m.getLast? = some c → isSpace c = false) (hx : isSpace x = true) (t : Str) :
    restAfter (t ++ [x]) m = (restAfter t m).map (fun u => u ++ [x]) := by
  induction t with
  | nil =>
    have h0 : HasPrefix [] m = false := by
      rw [← Bool.not_eq_true, HasPrefix_iff]
      intro h
      exact hm (List.prefix_nil.mp h)
    have h1 : HasPrefix ([x]) m = false := by
      have := hasPrefix_concat_space [] m x hlast hx
      rw [List.nil_append] at this
      rw [this, h0]
    rw [List.nil_append, restAfter_cons_of_not_hasPrefix x [] m h1, restAfter_nil m hm]
    rfl
  | cons y t ih =>
    have hp := hasPrefix_concat_space (y :: t) m x hlast hx
    by_cases h : HasPrefix (y :: t) m = true
    · rw [restAfter_of_hasPrefix _ _ h, restAfter_of_hasPrefix _ _ (by rw [hp, h])]
      have hlen : m.length ≤ (y :: t).length := by
        rw [HasPrefix_iff] at h
        exact h.length_le
      rw [List.drop_append_of_le_length hlen]
      rfl
    · have h1 : HasPrefix (y :: t) m = false := by simpa using h
      rw [restAfter_cons_of_not_hasPrefix y t m h1]
      rw [List.cons_append, restAfter_cons_of_not_hasPrefix y (t ++ [x]) m
        (by rw [← List.cons_append, hp, h1])]
      exact ih

theorem rdropWhile_append_of_pos {α : Type} (p : α → Bool) (u b : List α) (hb : ∀ x ∈ b, p x = true) :
    (u ++ b).rdropWhile p = u.rdropWhile p := by
  unfold List.rdropWhile
  rw [List.reverse_append, List.dropWhile_append_of_pos (by simpa using hb)]

theorem TrimSpace_append_spaces (u b : Str) (hb : ∀ x ∈ b, isSpace x = true) :
    TrimSpace (u ++ b) = TrimSpace u := by
  unfold TrimSpace
  rw [List.dropWhile_append]
  split
  · rename_i he
    have hu : u.dropWhile isSpace = [] := by simpa using he
    rw [hu, List.dropWhile_eq_nil_iff.mpr hb]
  · exact rdropWhile_append_of_pos isSpace _ b hb

theorem TrimSpace_spaces_append (a u : Str) (ha : ∀ x ∈ a, isSpace x = true) :
    TrimSpace (a ++ u) = TrimSpace u := by
  unfold TrimSpace
  rw [List.dropWhile_append_of_pos ha]

theorem restAfter_rdropWhile (m : Str) (hm : m ≠ [])
    (hlast : ∀ c, m.getLast? = some c → isSpace c = false) (s : Str) :
    (restAfter (s.rdropWhile isSpace) m).map TrimSpace = (restAfter s m).map TrimSpace := by
  induction s using List.reverseRecOn with
  | nil => rfl
  | append_singleton t x ih =>
    by_cases hx : isSpace x = true
    · rw [List.rdropWhile_concat_pos _ _ _ hx, ih, restAfter_concat_space m x hm hlast hx,
        Option.map_map]
      congr 1
      funext u
      exact (TrimSpace_append_spaces u [x] (by simpa using hx)).symm
    · rw [List.rdropWhile_concat_neg _ _ _ hx]

theorem restAfter_TrimSpace (c : Char) (m1 : Str) (hc : isSpace c = false)
    (hlast : ∀ x, (c :: m1).getLast? = some x → isSpace x = false) (s : Str) :
    (restAfter (TrimSpace s) (c :: m1)).map TrimSpace = (restAfter s (c :: m1)).map TrimSpace := by
  have h1 : TrimSpace s = (s.dropWhile isSpace).rdropWhile isSpace := rfl
  rw [h1, restAfter_rdropWhile (c :: m1) (by simp) hlast, restAfter_dropWhile c m1 hc]

theorem Contains_TrimSpace (c : Char) (m1 : Str) (hc : isSpace c = false)
    (hlast : ∀ x, (c :: m1).getLast? = some x → isSpace x = false) (s : Str) :
    Contains (TrimSpace s) (c :: m1) = Contains s (c :: m1) := by
  rw [Contains_eq_isSome, Contains_eq_isSome]
  have := congrArg Option.isSome (restAfter_TrimSpace c m1 hc hlast s)
  simpa using this

theorem restAfter_first (m r : Str) (a : Str) :
    (∀ n, n < a.length → HasPrefix ((a ++ m ++ r).drop n) m = false) →
    restAfter (a ++ m ++ r) m = some r := by
  induction a with
  | nil =>
    intro _
    rw [List.nil_append, restAfter_of_hasPrefix _ _
      ((HasPrefix_iff _ _).mpr (List.prefix_append m r)), List.drop_left]
  | cons y a1 ih =>
    intro hfirst
    have h0 := hfirst 0 (by simp)
    rw [List.drop_zero] at h0
    rw [List.cons_append, List.cons_append] at h0 ⊢
    rw [restAfter_cons_of_not_hasPrefix _ _ _ h0]
    apply ih
    intro n hn
    have := hfirst (n + 1) (by simpa using hn)
    simpa using this

theorem versionReFind_cons (c : Char) (t : Str) :
    versionReFind (c :: t) =
      if HasPrefix (c :: t) "nginx/".toList then
        match matchVersionHere ((c :: t).drop 6) with
        | some v => some v
        | none => versionReFind t
      else versionReFind t := by
  rw [versionReFind]

theorem versionReFind_skip (c : Char) (t : Str)
    (h : HasPrefix (c :: t) "nginx/".toList = false ∨ matchVersionHere ((c :: t).drop 6) = none) :
    versionReFind (c :: t) = versionReFind t := by
  rw [versionReFind_cons]
  rcases h with h | h
  · rw [h]; rfl
  · rw [h]
    split <;> rfl

theorem space_not_digit (x : Char) (hx : isSpace x = true) : x.isDigit = false := by
  rw [← Bool.not_eq_true]
  intro h
  rw [isDigit_not_space x h] at hx
  exact Bool.noConfusion hx

theorem space_not_digitOrDot (x : Char) (hx : isSpace x = true) : isDigitOrDot x = false := by
  rw [← Bool.not_eq_true, isDigitOrDot_iff]
  rintro (h | h)
  · rw [space_not_digit x hx] at h; exact Bool.noConfusion h
  · rw [h] at hx; revert hx; decide

theorem takeWhile_concat_neg {α : Type} (p : α → Bool) (u : List α) (x : α) (hx : p x = false) :
    (u ++ [x]).takeWhile p = u.takeWhile p := by
  induction u with
  | nil => simp [hx]
  | cons a t ih =>
    rw [List.cons_append, List.takeWhile_cons, List.takeWhile_cons, ih]

theorem dropWhile_concat_neg {α : Type} (p : α → Bool) (u : List α) (x : α) (hx : p x = false) :
    (u ++ [x]).dropWhile p = u.dropWhile p ++ [x] := by
  induction u with
  | nil => simp [hx]
  | cons a t ih =>
    rw [List.cons_append, List.dropWhile_cons, List.dropWhile_cons, ih]
    split <;> rfl

theorem matchVersionHere_concat_space (u : Str) (x : Char) (hx : isSpace x = true) :
    matchVersionHere (u ++ [x]) = matchVersionHere u := by
  have hxd := space_not_digit x hx
  have hxdd := space_not_digitOrDot x hx
  have hxdot : x ≠ '.' := by
    intro h; rw [h] at hx; revert hx; decide
  unfold matchVersionHere
  simp only [takeWhile_concat_neg _ u x hxd, dropWhile_concat_neg _ u x hxd]
  split
  · rfl
  · cases hr : u.dropWhile Char.isDigit with
    | nil => simp [hxdot]
    | cons c r =>
      simp only [List.cons_append]
      rw [takeWhile_concat_neg _ r x hxdd]

theorem versionReFind_concat_space (x : Char) (hx : isSpace x = true) (t : Str) :
    versionReFind (t ++ [x]) = versionReFind t := by
  have hn : isSpace 'n' = false := by decide
  have hlast : ∀ c, "nginx/".toList.getLast? = some c → isSpace c = false := by
    intro c hc
    have : c = '/' := by
      have h1 : "nginx/".toList.getLast? = some '/' := by decide
      rw [h1] at hc
      exact (Option.some.inj hc).symm
    rw [this]; decide
  induction t with
  | nil =>
    rw [List.nil_append, versionReFind_skip x [] (Or.inl (hasPrefix_cons_space x [] 'n' _ hx hn))]
  | cons y t ih =>
    have hp := hasPrefix_concat_space (y :: t) "nginx/".toList x hlast hx
    rw [List.cons_append, versionReFind_cons, versionReFind_cons, ih, ← List.cons_append, hp]
    by_cases h : HasPrefix (y :: t) "nginx/".toList = true
    · have hlen : 6 ≤ (y :: t).length := by
        rw [HasPrefix_iff] at h
        exact h.length_le
      rw [List.drop_append_of_le_length hlen, matchVersionHere_concat_space _ x hx]
    · have h1 : HasPrefix (y :: t) "nginx/".toList = false := by simpa using h
      rw [h1]
      rfl

theorem versionReFind_TrimSpace (s : Str) : versionReFind (TrimSpace s) = versionReFind s := by
  have hn : isSpace 'n' = false := by decide
  have h1 : ∀ u : Str, versionReFind (u.dropWhile isSpace) = versionReFind u := by
    intro u
    induction u with
    | nil => rfl
    | cons x t ih =>
      by_cases hx : isSpace x = true
      · rw [List.dropWhile_cons_of_pos hx, ih,
          versionReFind_skip x t (Or.inl (hasPrefix_cons_space x t 'n' _ hx hn))]
      · rw [List.dropWhile_cons_of_neg hx]
  have h2 : ∀ u : Str, versionReFind (u.rdropWhile isSpace) = versionReFind u := by
    intro u
    induction u using List.reverseRecOn with
    | nil => rfl
    | append_singleton t x ih =>
      by_cases hx : isSpace x = true
      · rw [List.rdropWhile_concat_pos _ _ _ hx, ih, versionReFind_concat_space x hx]
      · rw [List.rdropWhile_concat_neg _ _ _ hx]
  show versionReFind ((s.dropWhile isSpace).rdropWhile isSpace) = _
  rw [h2, h1]

theorem versionAt_of_match (s v : Str) (hp : HasPrefix s "nginx/".toList = true)
    (hm : matchVersionHere (s.drop 6) = some v) : VersionAt s := by
  obtain ⟨d, e, t, hd, hdd, he, hee, hv, hst, _⟩ := matchVersionHere_some _ _ hm
  rw [HasPrefix_iff] at hp
  obtain ⟨r, hr⟩ := hp
  refine ⟨v, t, ⟨d, e, hd, hdd, he, hee, hv⟩, ?_⟩
  have h6 : s.drop 6 = r := by
    rw [← hr]
    show List.drop "nginx/".toList.length _ = _
    exact List.drop_left _ _
  rw [← hr, List.append_assoc, ← hst, h6]

theorem versionReFind_first (v b : Str) (hv : LooseVersion v)
    (hb : ∀ x, b.head? = some x → isDigitOrDot x = false) (a : Str) :
    (∀ n, n < a.length → ¬ VersionAt ((a ++ "nginx/".toList ++ v ++ b).drop n)) →
    versionReFind (a ++ "nginx/".toList ++ v ++ b) = some v := by
  induction a with
  | nil =>
    intro _
    obtain ⟨d, e, hd, hdd, he, hee, hve⟩ := hv
    have hm : matchVersionHere (v ++ b) = some v := by
      rw [hve, List.append_assoc, List.cons_append, matchVersionHere_append d e b hd hdd he hee]
      have : b.takeWhile isDigitOrDot = [] := by
        cases b with
        | nil => rfl
        | cons x t =>
          rw [List.takeWhile_cons_of_neg (by rw [hb x rfl]; exact Bool.false_ne_true)]
      rw [this, List.append_nil]
    have hs : ([] ++ "nginx/".toList ++ v ++ b) = 'n' :: ("ginx/".toList ++ v ++ b) := rfl
    have hpre : HasPrefix ('n' :: ("ginx/".toList ++ v ++ b)) "nginx/".toList = true :=
      (HasPrefix_iff _ _).mpr ⟨v ++ b, rfl⟩
    rw [hs, versionReFind_cons, if_pos hpre]
    have hdrop : ('n' :: ("ginx/".toList ++ v ++ b)).drop 6 = v ++ b := rfl
    rw [hdrop, hm]
  | cons y a1 ih =>
    intro hfirst
    have h0 := hfirst 0 (by simp)
    rw [List.drop_zero] at h0
    have hskip : versionReFind (y :: (a1 ++ "nginx/".toList ++ v ++ b)) =
        versionReFind (a1 ++ "nginx/".toList ++ v ++ b) := by
      apply versionReFind_skip
      by_cases hp : HasPrefix (y :: (a1 ++ "nginx/".toList ++ v ++ b)) "nginx/".toList = true
      · right
        cases hm : matchVersionHere ((y :: (a1 ++ "nginx/".toList ++ v ++ b)).drop 6) with
        | none => rfl
        | some v1 => exact absurd (versionAt_of_match _ _ hp hm) h0
      · left; simpa using hp
    show versionReFind (y :: (a1 ++ "nginx/".toList ++ v ++ b)) = some v
    rw [hskip]
    apply ih
    intro n hn
    have := hfirst (n + 1) (by simpa using hn)
    simpa using this

/-! ## Parsing (`ParseNginxV`) -/

theorem Contains_nil (m : Str) (hm : m ≠ []) : Contains [] m = false := by
  unfold Contains
  rw [Index_nil_of_ne m hm]
  rfl

theorem Contains_TrimSpace_version (s : Str) :
    Contains (TrimSpace s) "nginx version:".toList = Contains s "nginx version:".toList :=
  Contains_TrimSpace 'n' "ginx version:".toList (by decide)
    (fun x hx => by
      have h1 : ('n' :: "ginx version:".toList).getLast? = some ':' := by decide
      rw [h1] at hx
      cases hx
      decide) s

theorem Contains_TrimSpace_arguments (s : Str) :
    Contains (TrimSpace s) "configure arguments:".toList =
      Contains s "configure arguments:".toList :=
  Contains_TrimSpace 'c' "onfigure arguments:".toList (by decide)
    (fun x hx => by
      have h1 : ('c' :: "onfigure arguments:".toList).getLast? = some ':' := by decide
      rw [h1] at hx
      cases hx
      decide) s

theorem restAfter_TrimSpace_arguments (s : Str) :
    (restAfter (TrimSpace s) "configure arguments:".toList).map TrimSpace =
      (restAfter s "configure arguments:".toList).map TrimSpace :=
  restAfter_TrimSpace 'c' "onfigure arguments:".toList (by decide)
    (fun x hx => by
      have h1 : ('c' :: "onfigure arguments:".toList).getLast? = some ':' := by decide
      rw [h1] at hx
      cases hx
      decide) s

theorem parseLine_congr (r : ParseResult) (l l1 : Str) (h : TrimSpace l1 = TrimSpace l) :
    parseLine r l1 = parseLine r l := by
  unfold parseLine
  rw [h]

theorem parseLine_blank (r : ParseResult) (w : Str) (h : TrimSpace w = []) :
    parseLine r w = r := by
  unfold parseLine
  simp only [h, if_true]

theorem parseLine_version_keep (r : ParseResult) (l : Str)
    (h : Contains l "nginx version:".toList = false) : (parseLine r l).Version = r.Version := by
  unfold parseLine
  simp only [Contains_TrimSpace_version, h]
  split
  · rfl
  · simp only [Bool.false_eq_true, if_false]
    repeat (first | rfl | split)

theorem parseLine_version_set (r : ParseResult) (l v : Str)
    (h : Contains l "nginx version:".toList = true) (hv : versionReFind l = some v) :
    (parseLine r l).Version = v := by
  have hne : TrimSpace l ≠ [] := by
    intro h0
    have := Contains_TrimSpace_version l
    rw [h0, Contains_nil _ (by decide), h] at this
    exact Bool.noConfusion this
  unfold parseLine
  simp only [Contains_TrimSpace_version, h, versionReFind_TrimSpace, hv, if_neg hne, if_true]

theorem parseLine_arguments_keep (r : ParseResult) (l : Str)
    (h : Contains l "nginx version:".toList = true ∨
      Contains l "configure arguments:".toList = false) :
    (parseLine r l).ConfigureArguments = r.ConfigureArguments := by
  unfold parseLine
  simp only [Contains_TrimSpace_version, Contains_TrimSpace_arguments]
  split
  · rfl
  · split
    · split <;> rfl
    · rename_i hnv
      have hca : Contains l "configure arguments:".toList = false := by
        rcases h with h | h
        · exact absurd h hnv
        · exact h
      simp only [hca, Bool.false_eq_true, if_false]
      repeat (first | rfl | split)

theorem parseLine_arguments_set (r : ParseResult) (l rr : Str)
    (hnv : Contains l "nginx version:".toList = false)
    (hr : restAfter l "configure arguments:".toList = some rr) :
    (parseLine r l).ConfigureArguments = TrimSpace rr := by
  have hca : Contains l "configure arguments:".toList = true := by
    rw [Contains_eq_isSome, hr]; rfl
  have hne : TrimSpace l ≠ [] := by
    intro h0
    have := Contains_TrimSpace_arguments l
    rw [h0, Contains_nil _ (by decide), hca] at this
    exact Bool.noConfusion this
  have hrest := restAfter_TrimSpace_arguments l
  rw [hr] at hrest
  unfold restAfter at hrest
  unfold parseLine
  simp only [Contains_TrimSpace_version, Contains_TrimSpace_arguments, hnv, hca, if_neg hne,
    Bool.false_eq_true, if_false, if_true]
  cases hi : Index (TrimSpace l) "configure arguments:".toList with
  | none => rw [hi] at hrest; cases hrest
  | some idx =>
    rw [hi] at hrest
    simp only [Option.map_some', Option.some.injEq] at hrest
    exact hrest

theorem foldl_parseLine_keep {α : Type} (f : ParseResult → α) (ls : List Str) :
    (∀ x ∈ ls, ∀ r, f (parseLine r x) = f r) →
    ∀ r0, f (ls.foldl parseLine r0) = f r0 := by
  induction ls with
  | nil => intro _ r0; rfl
  | cons x t ih =>
    intro h r0
    rw [List.foldl_cons, ih (fun y hy => h y (List.mem_cons_of_mem x hy)),
      h x (List.mem_cons_self x t)]

theorem foldl_parseLine_set {α : Type} (f : ParseResult → α) (a : α) (ls : List Str) :
    ∀ (i : Nat) (l : Str), ls.get? i = some l → (∀ r, f (parseLine r l) = a) →
      (∀ k x, ls.get? k = some x → k ≠ i → ∀ r, f (parseLine r x) = f r) →
      ∀ r0, f (ls.foldl parseLine r0) = a := by
  induction ls with
  | nil => intro i l h; cases h
  | cons x t ih =>
    intro i l hl hset hkeep r0
    rw [List.foldl_cons]
    cases i with
    | zero =>
      have hx : x = l := by simpa using hl
      rw [foldl_parseLine_keep f t, hx, hset]
      intro y hy r
      obtain ⟨k, hk⟩ := List.get?_of_mem hy
      exact hkeep (k + 1) y (by simpa using hk) (by omega) r
    | succ i1 =>
      apply ih i1 l (by simpa using hl) hset
      intro k y hk hne r
      exact hkeep (k + 1) y (by simpa using hk) (by omega) r

theorem looseVersion_ne_nil (v : Str) (hv : LooseVersion v) : v ≠ [] := by
  obtain ⟨d, e, _, _, _, _, hve⟩ := hv
  rw [hve]
  simp

theorem parse_marked (text v r : Str) (h : Marked true text v r) :
    ∃ res, ParseNginxV text = .ok res ∧ res.Version = v ∧
      res.ConfigureArguments = TrimSpace r ∧ res.Arguments = splitShellArgs (TrimSpace r) := by
  obtain ⟨i, j, a, b, c, hij, hi, hcv, honly, hv, hb, hj, honly2, hr, hf⟩ := h
  obtain ⟨hf1, hf2⟩ := hf rfl
  have hnvj : Contains (c ++ markerArguments ++ r) "nginx version:".toList = false := by
    rw [← Bool.not_eq_true]
    intro hc
    exact hij (honly j _ hj hc).symm
  have hV : ((Split text).foldl parseLine ParseResult.zero).Version = v := by
    apply foldl_parseLine_set (fun res => res.Version) v (Split text) i _ hi
    · intro r0
      exact parseLine_version_set r0 _ v hcv (versionReFind_first v b hv hb a hf1)
    · intro k x hk hne r0
      apply parseLine_version_keep
      rw [← Bool.not_eq_true]
      intro hc
      exact hne (honly k x hk hc)
  have hC : ((Split text).foldl parseLine ParseResult.zero).ConfigureArguments = TrimSpace r := by
    apply foldl_parseLine_set (fun res => res.ConfigureArguments) (TrimSpace r) (Split text) j _ hj
    · intro r0
      exact parseLine_arguments_set r0 _ r hnvj (restAfter_first markerArguments r c hf2)
    · intro k x hk hne r0
      apply parseLine_arguments_keep
      by_cases hnv : Contains x "nginx version:".toList = true
      · exact Or.inl hnv
      · right
        rw [← Bool.not_eq_true]
        intro hca
        rcases honly2 k x hk hca with hki | hkj
        · rw [hki, hi] at hk
          cases hk
          exact hnv hcv
        · exact hne hkj
  unfold ParseNginxV
  simp only []
  rw [if_neg (by rw [hV]; exact looseVersion_ne_nil v hv), if_neg (by rw [hC]; exact hr)]
  exact ⟨_, rfl, hV, hC, by rw [hC]⟩

theorem space_or_tab_isSpace (x : Char) (h : x = ' ' ∨ x = chTab) : isSpace x = true := by
  rcases h with h | h <;> rw [h] <;> decide

theorem foldl_parseLine_padded (ls ls1 : List Str) (h : Padded ls ls1) :
    ∀ r0, ls1.foldl parseLine r0 = ls.foldl parseLine r0 := by
  induction h with
  | nil => intro r0; rfl
  | pad a l b ls ls1 ha hb _ ih =>
    intro r0
    have ht : TrimSpace (a ++ l ++ b) = TrimSpace l := by
      rw [TrimSpace_append_spaces _ b (fun x hx => space_or_tab_isSpace x (hb x hx)),
        TrimSpace_spaces_append a l (fun x hx => space_or_tab_isSpace x (ha x hx))]
    rw [List.foldl_cons, List.foldl_cons, parseLine_congr r0 l _ ht, ih]
  | blank w ls ls1 hw _ ih =>
    intro r0
    have ht : TrimSpace w = [] :=
      (TrimSpace_eq_nil_iff w).mpr (fun x hx => space_or_tab_isSpace x (hw x hx))
    rw [List.foldl_cons, parseLine_blank r0 w ht, ih]

theorem parse_padded (text text1 : Str) (h : Padded (Split text) (Split text1)) :
    ParseNginxV text1 = ParseNginxV text := by
  unfold ParseNginxV
  rw [foldl_parseLine_padded _ _ h]

theorem split_twoVersionsText :
    Split twoVersionsText =
      ["nginx version: nginx/1.2 nginx/3.4".toList, "configure arguments: --a".toList] := by
  decide

theorem split_scenarioA :
    Split sampleRequest.Output =
      ["nginx version: nginx/1.24.0".toList,
        "configure arguments: --prefix=/etc/nginx --with-http_ssl_module".toList] := by
  decide

/-- C9 (counterexample): in this text exactly one line contains
`nginx version:`, and that line contains `nginx/` followed by the version `3.4`,
which no digit or dot follows; exactly one other line contains
`configure arguments:` followed by a non-blank remainder.  `ParseNginxV`
succeeds with version `1.2`, the version after the first `nginx/` of the line,
not `3.4`. -/
theorem parse_takes_first_version :
    Marked false twoVersionsText "3.4".toList " --a".toList ∧
    ∃ res, ParseNginxV twoVersionsText = .ok res ∧ res.Version = "1.2".toList ∧
      res.Version ≠ "3.4".toList := by
  constructor
  · refine ⟨0, 1, "nginx version: nginx/1.2 ".toList, [], [], by decide, ?_, by decide, ?_,
      ⟨"3".toList, "4".toList, by decide, by decide, by decide, by decide, by decide⟩,
      fun x hx => (by cases hx), ?_, ?_, by decide, fun hfalse => (by cases hfalse)⟩
    · rw [split_twoVersionsText]; decide
    · rw [split_twoVersionsText]
      intro k l hk hc
      match k, hk with
      | 0, _ => rfl
      | 1, hk =>
        have hl : l = "configure arguments: --a".toList := by
          simpa using hk.symm
        rw [hl] at hc
        revert hc; decide
      | k + 2, hk => simp at hk
    · rw [split_twoVersionsText]; decide
    · rw [split_twoVersionsText]
      intro k l hk _
      match k, hk with
      | 0, _ => exact Or.inl rfl
      | 1, _ => exact Or.inr rfl
      | k + 2, hk => simp at hk
  · refine ⟨_, rfl, ?_, ?_⟩ <;> decide

theorem not_versionAt_of_not_hasPrefix (s : Str) (h : HasPrefix s "nginx/".toList = false) :
    ¬ VersionAt s := by
  rintro ⟨v, t, _, hs⟩
  have : HasPrefix s "nginx/".toList = true := by
    rw [HasPrefix_iff, hs, List.append_assoc]
    exact List.prefix_append _ _
  rw [h] at this
  exact Bool.noConfusion this

theorem scenarioA_marked :
    Marked true sampleRequest.Output "1.24.0".toList
      " --prefix=/etc/nginx --with-http_ssl_module".toList := by
  refine ⟨0, 1, "nginx version: ".toList, [], [], by decide, ?_, by decide, ?_,
    ⟨"1".toList, "24.0".toList, by decide, by decide, by decide, by decide, by decide⟩,
    fun x hx => (by cases hx), ?_, ?_, by decide, fun _ => ⟨?_, fun n hn => (by cases hn)⟩⟩
  · rw [split_scenarioA]; decide
  · rw [split_scenarioA]
    intro k l hk hc
    match k, hk with
    | 0, _ => rfl
    | 1, hk =>
      have hl : l = "configure arguments: --prefix=/etc/nginx --with-http_ssl_module".toList := by
        simpa using hk.symm
      rw [hl] at hc
      revert hc; decide
    | k + 2, hk => simp at hk
  · rw [split_scenarioA]; decide
  · rw [split_scenarioA]
    intro k l hk _
    match k, hk with
    | 0, _ => exact Or.inl rfl
    | 1, _ => exact Or.inr rfl
    | k + 2, hk => simp at hk
  · intro n hn
    have hn15 : n < 15 := hn
    apply not_versionAt_of_not_hasPrefix
    interval_cases n <;> decide

/-- C9 (amended): for every diagnostic text in which exactly one line contains
`nginx version:`, the first match of `nginx/` followed by a version in that line
is followed by `v` (digits, a dot, then one or more digits or dots, no further
digit or dot after it), and exactly one other line contains
`configure arguments:`, whose first occurrence is followed by a non-blank
remainder `r`: `ParseNginxV` succeeds with `Version = v`,
`ConfigureArguments = r` trimmed and `Arguments = splitShellArgs` of the trimmed
remainder; and the result is identical when lines are padded with leading or
trailing spaces or tabs or blank lines are inserted.  For Scenario A the version
is `1.24.0` and the arguments are `--prefix=/etc/nginx`,
`--with-http_ssl_module`. -/
theorem parse_first_markers (text v r : Str) (h : Marked true text v r) :
    (∃ res, ParseNginxV text = .ok res ∧ res.Version = v ∧
      res.ConfigureArguments = TrimSpace r ∧ res.Arguments = splitShellArgs (TrimSpace r)) ∧
    (∀ text1, Padded (Split text) (Split text1) → ParseNginxV text1 = ParseNginxV text) ∧
    (∃ res, ParseNginxV sampleRequest.Output = .ok res ∧ res.Version = "1.24.0".toList ∧
      res.Arguments = ["--prefix=/etc/nginx".toList, "--with-http_ssl_module".toList]) := by
  refine ⟨parse_marked text v r h, fun text1 hp => parse_padded text text1 hp, ?_⟩
  refine ⟨_, rfl, ?_, ?_⟩ <;> decide

theorem parse_first_markers_witness :
    (∃ res, ParseNginxV sampleRequest.Output = .ok res ∧ res.Version = "1.24.0".toList ∧
      res.ConfigureArguments = TrimSpace " --prefix=/etc/nginx --with-http_ssl_module".toList ∧
      res.Arguments =
        splitShellArgs (TrimSpace " --prefix=/etc/nginx --with-http_ssl_module".toList)) ∧
    (∀ text1, Padded (Split sampleRequest.Output) (Split text1) →
      ParseNginxV text1 = ParseNginxV sampleRequest.Output) ∧
    (∃ res, ParseNginxV sampleRequest.Output = .ok res ∧ res.Version = "1.24.0".toList ∧
      res.Arguments = ["--prefix=/etc/nginx".toList, "--with-http_ssl_module".toList]) :=
  parse_first_markers sampleRequest.Output "1.24.0".toList
    " --prefix=/etc/nginx --with-http_ssl_module".toList scenarioA_marked

/-! ## The most recent lines of the log (`appendLog`) -/

theorem appendLine_eq (logs : List Str) (line : Str) :
    (logs.length ≤ 2000 → appendLine logs line = logs ++ [line]) ∧
    (logs.length > 2000 →
      appendLine logs line = logs.drop (logs.length - 1500) ++ [line] ∧
      (logs.drop (logs.length - 1500)).length = 1500) := by
  unfold appendLine
  constructor
  · intro h
    rw [if_neg (by omega)]
  · intro h
    rw [if_pos h]
    refine ⟨rfl, ?_⟩
    rw [List.length_drop]
    omega

/-- C12: for every job log `L` and line `x`, the log after `appendLog` ends with
`x` and is a contiguous suffix of `L` followed by `x`: it is `L` followed by `x`
when `L` has at most 2000 lines, and the last 1500 lines of `L` followed by `x`
when `L` has more than 2000 lines.  Lines are neither reordered nor duplicated,
and only the oldest lines are dropped. -/
theorem appendLog_keeps_recent (q : Queue) (id : Str) (job : Job) (x : Str)
    (hjob : q.jobs id = some job) :
    ∃ job1, (q.appendLog id x).jobs id = some job1 ∧
      job1.Logs.getLast? = some x ∧
      (∃ dropped kept, job.Logs = dropped ++ kept ∧ job1.Logs = kept ++ [x]) ∧
      (job.Logs.length ≤ 2000 → job1.Logs = job.Logs ++ [x]) ∧
      (job.Logs.length > 2000 →
        job1.Logs = job.Logs.drop (job.Logs.length - 1500) ++ [x] ∧
        (job.Logs.drop (job.Logs.length - 1500)).length = 1500) := by
  have h1 := appendLog_jobs_same q id x
  rw [hjob] at h1
  have heq := appendLine_eq job.Logs x
  refine ⟨_, h1, ?_, ?_, heq.1, heq.2⟩
  · show (appendLine job.Logs x).getLast? = some x
    unfold appendLine
    exact List.getLast?_concat _
  · show ∃ dropped kept, job.Logs = dropped ++ kept ∧ appendLine job.Logs x = kept ++ [x]
    by_cases h : job.Logs.length ≤ 2000
    · exact ⟨[], job.Logs, rfl, heq.1 h⟩
    · exact ⟨job.Logs.take (job.Logs.length - 1500), job.Logs.drop (job.Logs.length - 1500),
        (List.take_append_drop _ _).symm, (heq.2 (by omega)).1⟩

theorem appendLog_keeps_recent_witness :
    ∃ job1, ((queueWithLog 2001).appendLog "j1".toList "line".toList).jobs "j1".toList =
        some job1 ∧
      job1.Logs.getLast? = some "line".toList ∧
      (∃ dropped kept, (jobWithLog 2001).Logs = dropped ++ kept ∧
        job1.Logs = kept ++ ["line".toList]) ∧
      ((jobWithLog 2001).Logs.length ≤ 2000 →
        job1.Logs = (jobWithLog 2001).Logs ++ ["line".toList]) ∧
      ((jobWithLog 2001).Logs.length > 2000 →
        job1.Logs =
          (jobWithLog 2001).Logs.drop ((jobWithLog 2001).Logs.length - 1500) ++ ["line".toList] ∧
        ((jobWithLog 2001).Logs.drop ((jobWithLog 2001).Logs.length - 1500)).length = 1500) :=
  appendLog_keeps_recent (queueWithLog 2001) "j1".toList (jobWithLog 2001) "line".toList
    (queueWithLog_jobs 2001)

/-! ## The build script (`buildScript`) -/

theorem buildScript_configure_line (version : Str) (args : List Str) :
    ∃ pre post : Str,
      buildScript version args =
        pre ++ "\n./configure ".toList ++ Join args " ".toList ++ "\nmake".toList ++ post := by
  refine ⟨"#!/usr/bin/env bash\nset -euo pipefail\n\nVERSION=".toList ++ version ++
    "\nWORKDIR=./build-$VERSION\n\nmkdir -p $WORKDIR\ncd $WORKDIR\n\ncurl -fSL https://nginx.org/download/nginx-$VERSION.tar.gz -o nginx.tar.gz\ntar -xzf nginx.tar.gz\ncd nginx-$VERSION\n".toList,
    " -j$(nproc)\n\ncp objs/nginx ./nginx-$VERSION\n".toList, ?_⟩
  unfold buildScript
  have h1 : "\nWORKDIR=./build-$VERSION\n\nmkdir -p $WORKDIR\ncd $WORKDIR\n\ncurl -fSL https://nginx.org/download/nginx-$VERSION.tar.gz -o nginx.tar.gz\ntar -xzf nginx.tar.gz\ncd nginx-$VERSION\n\n./configure ".toList =
      "\nWORKDIR=./build-$VERSION\n\nmkdir -p $WORKDIR\ncd $WORKDIR\n\ncurl -fSL https://nginx.org/download/nginx-$VERSION.tar.gz -o nginx.tar.gz\ntar -xzf nginx.tar.gz\ncd nginx-$VERSION\n".toList ++
        "\n./configure ".toList := by rfl
  have h2 : "\nmake -j$(nproc)\n\ncp objs/nginx ./nginx-$VERSION\n".toList =
      "\nmake".toList ++ " -j$(nproc)\n\ncp objs/nginx ./nginx-$VERSION\n".toList := by decide
  rw [h1, h2]
  simp only [List.append_assoc]

/-- C13 (failing input): the diagnostic text with
`configure arguments: --with-cc-opt='-O2 -g' --prefix=/etc/nginx` parses, and the
final argument list is `--with-cc-opt=-O2 -g`, `--prefix=/etc/nginx`.  The
script of `buildScript` does hold the line `./configure` followed by the
arguments joined by single spaces, for every version and argument list; but
tokenizing that argument text gives the three tokens `--with-cc-opt=-O2`, `-g`,
`--prefix=/etc/nginx`, not the two arguments of the job. -/
theorem buildScript_loses_argument_boundaries :
    (∃ res, ParseNginxV quotedText = .ok res ∧
      Queue.composeConfigureArgs res.Arguments [] = quotedArgs) ∧
    (∀ (version : Str) (args : List Str), ∃ pre post : Str,
      buildScript version args =
        pre ++ "\n./configure ".toList ++ Join args " ".toList ++ "\nmake".toList ++ post) ∧
    splitShellArgs (Join quotedArgs " ".toList) =
      ["--with-cc-opt=-O2".toList, "-g".toList, "--prefix=/etc/nginx".toList] ∧
    splitShellArgs (Join quotedArgs " ".toList) ≠ quotedArgs := by
  refine ⟨⟨_, rfl, ?_⟩, buildScript_configure_line, ?_, ?_⟩ <;> decide

/-! ## Permuting the informational lines (`ParseNginxV`) -/

theorem parseLine_markers_congr (r r0 : ParseResult) (l : Str)
    (h : r.Version = r0.Version ∧ r.ConfigureArguments = r0.ConfigureArguments) :
    (parseLine r l).Version = (parseLine r0 l).Version ∧
    (parseLine r l).ConfigureArguments = (parseLine r0 l).ConfigureArguments := by
  obtain ⟨h1, h2⟩ := h
  unfold parseLine
  dsimp only
  split_ifs <;> (try split) <;> first | exact ⟨h1, h2⟩ | exact ⟨rfl, h2⟩ | exact ⟨h1, rfl⟩

theorem Contains_TrimSpace_builtBy (s : Str) :
    Contains (TrimSpace s) "built by".toList = Contains s "built by".toList :=
  Contains_TrimSpace 'b' "uilt by".toList (by decide)
    (fun x hx => by
      have h1 : ('b' :: "uilt by".toList).getLast? = some 'y' := by decide
      rw [h1] at hx
      cases hx
      decide) s

theorem Contains_TrimSpace_builtWith (s : Str) :
    Contains (TrimSpace s) "built with".toList = Contains s "built with".toList :=
  Contains_TrimSpace 'b' "uilt with".toList (by decide)
    (fun x hx => by
      have h1 : ('b' :: "uilt with".toList).getLast? = some 'h' := by decide
      rw [h1] at hx
      cases hx
      decide) s

theorem Contains_TrimSpace_gcc (s : Str) :
    Contains (TrimSpace s) "gcc".toList = Contains s "gcc".toList :=
  Contains_TrimSpace 'g' "cc".toList (by decide)
    (fun x hx => by
      have h1 : ('g' :: "cc".toList).getLast? = some 'c' := by decide
      rw [h1] at hx
      cases hx
      decide) s

theorem Contains_TrimSpace_clang (s : Str) :
    Contains (TrimSpace s) "clang".toList = Contains s "clang".toList :=
  Contains_TrimSpace 'c' "lang".toList (by decide)
    (fun x hx => by
      have h1 : ('c' :: "lang".toList).getLast? = some 'g' := by decide
      rw [h1] at hx
      cases hx
      decide) s

theorem parseLine_markers_keep (r : ParseResult) (l : Str) (h : isMarkerLine l = false) :
    (parseLine r l).Version = r.Version ∧
    (parseLine r l).ConfigureArguments = r.ConfigureArguments := by
  unfold isMarkerLine at h
  rw [Bool.or_eq_false_iff] at h
  exact ⟨parseLine_version_keep r l h.1, parseLine_arguments_keep r l (Or.inr h.2)⟩

theorem foldl_parseLine_filter {α : Type} (f : ParseResult → α) (p : Str → Bool)
    (hcong : ∀ r r0 l, f r = f r0 → f (parseLine r l) = f (parseLine r0 l))
    (hskip : ∀ r l, p l = false → f (parseLine r l) = f r) (ls : List Str) :
    ∀ r r0, f r = f r0 → f (ls.foldl parseLine r) = f ((ls.filter p).foldl parseLine r0) := by
  induction ls with
  | nil => intro r r0 h; exact h
  | cons x t ih =>
    intro r r0 h
    rw [List.foldl_cons]
    by_cases hp : p x = true
    · rw [List.filter_cons_of_pos hp, List.foldl_cons]
      exact ih _ _ (hcong r r0 x h)
    · rw [List.filter_cons_of_neg hp]
      exact ih _ _ ((hskip r x (by simpa using hp)).trans h)

theorem filter_marker_of_forall₂ (ls ls1 : List Str)
    (h : List.Forall₂ (fun l l1 => (isMarkerLine l = true ∨ isMarkerLine l1 = true) → l1 = l)
      ls ls1) :
    ls1.filter isMarkerLine = ls.filter isMarkerLine := by
  induction h with
  | nil => rfl
  | @cons x x1 t t1 hx _ ih =>
    by_cases hm : isMarkerLine x = true
    · have hx1 : x1 = x := hx (Or.inl hm)
      rw [hx1, List.filter_cons_of_pos hm, List.filter_cons_of_pos hm, ih]
    · have hm1 : ¬ isMarkerLine x1 = true := by
        intro h1
        have hx1 : x1 = x := hx (Or.inr h1)
        rw [hx1] at h1
        exact hm h1
      rw [List.filter_cons_of_neg hm, List.filter_cons_of_neg hm1, ih]

theorem parseResult_eq (r r0 : ParseResult) (h1 : r.Version = r0.Version)
    (h2 : r.ConfigureArguments = r0.ConfigureArguments) (h3 : r.Arguments = r0.Arguments)
    (h4 : r.Modules = r0.Modules) (h5 : r.BuiltBy = r0.BuiltBy) (h6 : r.BuiltWith = r0.BuiltWith)
    (h7 : r.Compiler = r0.Compiler) : r = r0 := by
  cases r
  cases r0
  simp only [ParseResult.mk.injEq]
  exact ⟨h1, h2, h3, h4, h5, h6, h7⟩

theorem foldl_markers_permuted (ls ls1 : List Str) (h : PermutedOthers ls ls1) (r : ParseResult) :
    (ls1.foldl parseLine r).Version = (ls.foldl parseLine r).Version ∧
    (ls1.foldl parseLine r).ConfigureArguments = (ls.foldl parseLine r).ConfigureArguments := by
  have key := foldl_parseLine_filter (fun x : ParseResult => (x.Version, x.ConfigureArguments))
    isMarkerLine
    (fun a b l hab => by
      have hab1 : a.Version = b.Version ∧ a.ConfigureArguments = b.ConfigureArguments := by
        simpa using hab
      have := parseLine_markers_congr a b l hab1
      simp only [Prod.mk.injEq]
      exact this)
    (fun a l hl => by
      have := parseLine_markers_keep a l hl
      simp only [Prod.mk.injEq]
      exact this)
  have k1 := key ls1 r r rfl
  have k := key ls r r rfl
  rw [filter_marker_of_forall₂ ls ls1 h.1, ← k] at k1
  simpa using k1

theorem parseNginxV_ok (text : Str) (res : ParseResult) (hok : ParseNginxV text = .ok res) :
    ((Split text).foldl parseLine ParseResult.zero).Version ≠ [] ∧
    ((Split text).foldl parseLine ParseResult.zero).ConfigureArguments ≠ [] ∧
    res =
      { (Split text).foldl parseLine ParseResult.zero with
        Arguments :=
          splitShellArgs ((Split text).foldl parseLine ParseResult.zero).ConfigureArguments,
        Modules := extractModules
          (splitShellArgs ((Split text).foldl parseLine ParseResult.zero).ConfigureArguments) } := by
  unfold ParseNginxV at hok
  dsimp only at hok
  split_ifs at hok with h1 h2
  exact ⟨h1, h2, (Except.ok.inj hok).symm⟩

theorem twoCompilers_permuted :
    PermutedOthers (Split twoCompilersText) (Split twoCompilersSwapped) := by
  have h1 : Split twoCompilersText =
      ["nginx version: nginx/1.24.0".toList, "configure arguments: --a".toList,
        "gcc 9.4".toList, "clang 11".toList] := by decide
  have h2 : Split twoCompilersSwapped =
      ["nginx version: nginx/1.24.0".toList, "configure arguments: --a".toList,
        "clang 11".toList, "gcc 9.4".toList] := by decide
  rw [h1, h2]
  constructor
  · refine List.Forall₂.cons (fun _ => rfl) (List.Forall₂.cons (fun _ => rfl)
      (List.Forall₂.cons ?_ (List.Forall₂.cons ?_ List.Forall₂.nil)))
    · intro h
      exact absurd h (by decide)
    · intro h
      exact absurd h (by decide)
  · have f1 : List.filter (fun l => !isMarkerLine l)
        ["nginx version: nginx/1.24.0".toList, "configure arguments: --a".toList,
          "gcc 9.4".toList, "clang 11".toList] = ["gcc 9.4".toList, "clang 11".toList] := by
      decide
    have f2 : List.filter (fun l => !isMarkerLine l)
        ["nginx version: nginx/1.24.0".toList, "configure arguments: --a".toList,
          "clang 11".toList, "gcc 9.4".toList] = ["clang 11".toList, "gcc 9.4".toList] := by
      decide
    rw [f1, f2]
    exact List.Perm.swap _ _ _

theorem twoCompilers_parse : ParseNginxV twoCompilersText = .ok twoCompilersResult := by
  rfl

/-- C11 (counterexample): the second text is the first with its two lines
without marker exchanged, the marker lines staying in place; both parse, the
first with compiler `gcc 9.4` and the second with compiler `clang 11`, so the
two results differ. -/
theorem parse_permuted_compiler_differs :
    PermutedOthers (Split twoCompilersText) (Split twoCompilersSwapped) ∧
    ∃ res res1, ParseNginxV twoCompilersText = .ok res ∧
      ParseNginxV twoCompilersSwapped = .ok res1 ∧
      res.Compiler = "gcc 9.4".toList ∧ res1.Compiler = "clang 11".toList ∧ res1 ≠ res := by
  refine ⟨twoCompilers_permuted, _, _, rfl, rfl, by decide, by decide, ?_⟩
  intro h
  have := congrArg ParseResult.Compiler h
  revert this
  decide

theorem parseLine_tools (r : ParseResult) (l : Str) :
    (parseLine r l).BuiltBy = (if isBuiltByLine l = true then TrimSpace l else r.BuiltBy) ∧
    (parseLine r l).BuiltWith = (if isBuiltWithLine l = true then TrimSpace l else r.BuiltWith) ∧
    (parseLine r l).Compiler =
      (if isCompilerLine l = true ∧ r.Compiler = [] then TrimSpace l else r.Compiler) := by
  have c1 := Contains_TrimSpace_version l
  have c2 := Contains_TrimSpace_arguments l
  have c3 := Contains_TrimSpace_builtBy l
  have c4 := Contains_TrimSpace_builtWith l
  have c5 := Contains_TrimSpace_gcc l
  have c6 := Contains_TrimSpace_clang l
  unfold parseLine isBuiltByLine isBuiltWithLine isCompilerLine isMarkerLine markerVersion
    markerArguments
  dsimp only
  by_cases hb : TrimSpace l = []
  · rw [hb] at c1 c2 c3 c4 c5 c6
    rw [Contains_nil _ (by decide)] at c1 c2 c3 c4 c5 c6
    rw [if_pos hb, ← c1, ← c2, ← c3, ← c4, ← c5, ← c6]
    exact ⟨rfl, rfl, rfl⟩
  · rw [if_neg hb, c1, c2, c3, c4, c5, c6]
    generalize Contains l "nginx version:".toList = a
    generalize Contains l "configure arguments:".toList = b
    generalize Contains l "built by".toList = c
    generalize Contains l "built with".toList = d
    generalize Contains l "gcc".toList = e
    generalize Contains l "clang".toList = f
    by_cases hc : r.Compiler = []
    all_goals
      cases a <;> cases b <;> cases c <;> cases d <;> cases e <;> cases f <;>
        simp [hc] <;> (try split) <;> simp [hc]

theorem isCompilerLine_nonblank (l : Str) (h : isCompilerLine l = true) : TrimSpace l ≠ [] := by
  intro hb
  have c5 := Contains_TrimSpace_gcc l
  have c6 := Contains_TrimSpace_clang l
  rw [hb, Contains_nil _ (by decide)] at c5 c6
  unfold isCompilerLine at h
  rw [← c5, ← c6] at h
  simp at h

theorem foldl_parseLine_last (f : ParseResult → Str) (p : Str → Bool)
    (h : ∀ r l, f (parseLine r l) = if p l = true then TrimSpace l else f r) (ls : List Str) :
    ∀ r, f (ls.foldl parseLine r) = ((ls.filter p).getLast?.map TrimSpace).getD (f r) := by
  induction ls with
  | nil => intro r; rfl
  | cons x t ih =>
    intro r
    rw [List.foldl_cons, ih, h]
    by_cases hp : p x = true
    · rw [if_pos hp, List.filter_cons_of_pos hp, List.getLast?_cons]
      cases (t.filter p).getLast? <;> rfl
    · rw [if_neg hp, List.filter_cons_of_neg hp]

theorem foldl_parseLine_first (f : ParseResult → Str) (p : Str → Bool)
    (h : ∀ r l, f (parseLine r l) = if p l = true ∧ f r = [] then TrimSpace l else f r)
    (hne : ∀ l, p l = true → TrimSpace l ≠ []) (ls : List Str) :
    ∀ r, f (ls.foldl parseLine r) =
      if f r = [] then ((ls.filter p).head?.map TrimSpace).getD [] else f r := by
  induction ls with
  | nil =>
    intro r
    show f r = _
    by_cases hr : f r = []
    · rw [if_pos hr]; exact hr
    · rw [if_neg hr]
  | cons x t ih =>
    intro r
    rw [List.foldl_cons, ih, h]
    by_cases hp : p x = true
    · rw [List.filter_cons_of_pos hp]
      by_cases hr : f r = []
      · simp [hp, hr, hne x hp]
      · simp [hr]
    · rw [List.filter_cons_of_neg hp]
      simp [hp]

theorem parse_tools (text : Str) (res : ParseResult) (hok : ParseNginxV text = .ok res) :
    res.BuiltBy = lastTrimmed isBuiltByLine (Split text) ∧
    res.BuiltWith = lastTrimmed isBuiltWithLine (Split text) ∧
    res.Compiler = firstTrimmed isCompilerLine (Split text) := by
  obtain ⟨_, _, hres⟩ := parseNginxV_ok text res hok
  have e5 : res.BuiltBy = ((Split text).foldl parseLine ParseResult.zero).BuiltBy := by
    rw [hres]
  have e6 : res.BuiltWith = ((Split text).foldl parseLine ParseResult.zero).BuiltWith := by
    rw [hres]
  have e7 : res.Compiler = ((Split text).foldl parseLine ParseResult.zero).Compiler := by
    rw [hres]
  refine ⟨?_, ?_, ?_⟩
  · rw [e5, foldl_parseLine_last ParseResult.BuiltBy isBuiltByLine
      (fun r l => (parseLine_tools r l).1)]
    rfl
  · rw [e6, foldl_parseLine_last ParseResult.BuiltWith isBuiltWithLine
      (fun r l => (parseLine_tools r l).2.1)]
    rfl
  · rw [e7, foldl_parseLine_first ParseResult.Compiler isCompilerLine
      (fun r l => (parseLine_tools r l).2.2) isCompilerLine_nonblank]
    rfl

theorem builtLines_permuted :
    PermutedOthers (Split builtLinesText) (Split builtLinesSwapped) := by
  have h1 : Split builtLinesText =
      ["nginx version: nginx/1.24.0".toList, "built by gcc 9.4".toList,
        "built with OpenSSL 3.0".toList, "configure arguments: --a".toList] := by decide
  have h2 : Split builtLinesSwapped =
      ["nginx version: nginx/1.24.0".toList, "built with OpenSSL 3.0".toList,
        "built by gcc 9.4".toList, "configure arguments: --a".toList] := by decide
  rw [h1, h2]
  constructor
  · refine List.Forall₂.cons (fun _ => rfl) (List.Forall₂.cons ?_
      (List.Forall₂.cons ?_ (List.Forall₂.cons (fun _ => rfl) List.Forall₂.nil)))
    · intro h
      exact absurd h (by decide)
    · intro h
      exact absurd h (by decide)
  · have f1 : List.filter (fun l => !isMarkerLine l)
        ["nginx version: nginx/1.24.0".toList, "built by gcc 9.4".toList,
          "built with OpenSSL 3.0".toList, "configure arguments: --a".toList] =
        ["built by gcc 9.4".toList, "built with OpenSSL 3.0".toList] := by
      decide
    have f2 : List.filter (fun l => !isMarkerLine l)
        ["nginx version: nginx/1.24.0".toList, "built with OpenSSL 3.0".toList,
          "built by gcc 9.4".toList, "configure arguments: --a".toList] =
        ["built with OpenSSL 3.0".toList, "built by gcc 9.4".toList] := by
      decide
    rw [f1, f2]
    exact List.Perm.swap _ _ _

theorem builtLines_parse : ParseNginxV builtLinesText = .ok builtLinesResult := by
  rfl

/-- C11 (amended): for every diagnostic text on which `ParseNginxV` succeeds,
every text obtained by permuting among themselves the lines that contain neither
`nginx version:` nor `configure arguments:`, the marker lines staying where they
are, also parses successfully with identical Version, ConfigureArguments,
Arguments and Modules.  In both results BuiltBy is the trimmed last line without
marker that contains `built by`, BuiltWith the trimmed last line without marker
or `built by` that contains `built with`, and Compiler the trimmed first line
without marker, `built by` or `built with` that contains `gcc` or `clang`, each
empty when there is no such line.  So the two results are identical in every
field exactly when these three lines are the same up to trimming; that is the
case whenever the permutation keeps the relative order of the lines within each
of the three kinds, however it moves lines of different kinds past each other. -/
theorem parse_permuted_others (text text1 : Str) (res : ParseResult)
    (hperm : PermutedOthers (Split text) (Split text1)) (hok : ParseNginxV text = .ok res) :
    ∃ res1, ParseNginxV text1 = .ok res1 ∧
      res1.Version = res.Version ∧ res1.ConfigureArguments = res.ConfigureArguments ∧
      res1.Arguments = res.Arguments ∧ res1.Modules = res.Modules ∧
      res.BuiltBy = lastTrimmed isBuiltByLine (Split text) ∧
      res1.BuiltBy = lastTrimmed isBuiltByLine (Split text1) ∧
      res.BuiltWith = lastTrimmed isBuiltWithLine (Split text) ∧
      res1.BuiltWith = lastTrimmed isBuiltWithLine (Split text1) ∧
      res.Compiler = firstTrimmed isCompilerLine (Split text) ∧
      res1.Compiler = firstTrimmed isCompilerLine (Split text1) ∧
      (res1 = res ↔
        lastTrimmed isBuiltByLine (Split text1) = lastTrimmed isBuiltByLine (Split text) ∧
        lastTrimmed isBuiltWithLine (Split text1) = lastTrimmed isBuiltWithLine (Split text) ∧
        firstTrimmed isCompilerLine (Split text1) = firstTrimmed isCompilerLine (Split text)) ∧
      ((Split text1).filter isBuiltByLine = (Split text).filter isBuiltByLine →
        (Split text1).filter isBuiltWithLine = (Split text).filter isBuiltWithLine →
        (Split text1).filter isCompilerLine = (Split text).filter isCompilerLine →
        res1 = res) := by
  obtain ⟨hV, hC, hres⟩ := parseNginxV_ok text res hok
  obtain ⟨hv1, hc1⟩ := foldl_markers_permuted _ _ hperm ParseResult.zero
  have hparse : ParseNginxV text1 =
      .ok { (Split text1).foldl parseLine ParseResult.zero with
        Arguments :=
          splitShellArgs ((Split text1).foldl parseLine ParseResult.zero).ConfigureArguments,
        Modules := extractModules
          (splitShellArgs ((Split text1).foldl parseLine ParseResult.zero).ConfigureArguments) } := by
    unfold ParseNginxV
    dsimp only
    rw [if_neg (by rw [hv1]; exact hV), if_neg (by rw [hc1]; exact hC)]
  have e1 : res.Version = ((Split text).foldl parseLine ParseResult.zero).Version := by
    rw [hres]
  have e2 : res.ConfigureArguments =
      ((Split text).foldl parseLine ParseResult.zero).ConfigureArguments := by
    rw [hres]
  have e3 : res.Arguments =
      splitShellArgs ((Split text).foldl parseLine ParseResult.zero).ConfigureArguments := by
    rw [hres]
  have e4 : res.Modules = extractModules
      (splitShellArgs ((Split text).foldl parseLine ParseResult.zero).ConfigureArguments) := by
    rw [hres]
  obtain ⟨t1, t2, t3⟩ := parse_tools text res hok
  obtain ⟨s1, s2, s3⟩ := parse_tools text1 _ hparse
  have g1 : ({ (Split text1).foldl parseLine ParseResult.zero with
        Arguments :=
          splitShellArgs ((Split text1).foldl parseLine ParseResult.zero).ConfigureArguments,
        Modules := extractModules
          (splitShellArgs ((Split text1).foldl parseLine ParseResult.zero).ConfigureArguments) } :
        ParseResult).Version = res.Version := by
    rw [e1]; exact hv1
  have g2 : ({ (Split text1).foldl parseLine ParseResult.zero with
        Arguments :=
          splitShellArgs ((Split text1).foldl parseLine ParseResult.zero).ConfigureArguments,
        Modules := extractModules
          (splitShellArgs ((Split text1).foldl parseLine ParseResult.zero).ConfigureArguments) } :
        ParseResult).ConfigureArguments = res.ConfigureArguments := by
    rw [e2]; exact hc1
  have g3 : ({ (Split text1).foldl parseLine ParseResult.zero with
        Arguments :=
          splitShellArgs ((Split text1).foldl parseLine ParseResult.zero).ConfigureArguments,
        Modules := extractModules
          (splitShellArgs ((Split text1).foldl parseLine ParseResult.zero).ConfigureArguments) } :
        ParseResult).Arguments = res.Arguments := by
    rw [e3]
    show splitShellArgs _ = _
    rw [hc1]
  have g4 : ({ (Split text1).foldl parseLine ParseResult.zero with
        Arguments :=
          splitShellArgs ((Split text1).foldl parseLine ParseResult.zero).ConfigureArguments,
        Modules := extractModules
          (splitShellArgs ((Split text1).foldl parseLine ParseResult.zero).ConfigureArguments) } :
        ParseResult).Modules = res.Modules := by
    rw [e4]
    show extractModules (splitShellArgs _) = _
    rw [hc1]
  refine ⟨_, hparse, g1, g2, g3, g4, t1, s1, t2, s2, t3, s3, ⟨?_, ?_⟩, ?_⟩
  · intro h
    rw [← s1, ← s2, ← s3, ← t1, ← t2, ← t3, h]
    exact ⟨rfl, rfl, rfl⟩
  · rintro ⟨k1, k2, k3⟩
    exact parseResult_eq _ _ g1 g2 g3 g4 (by rw [s1, t1]; exact k1) (by rw [s2, t2]; exact k2)
      (by rw [s3, t3]; exact k3)
  · intro k1 k2 k3
    refine parseResult_eq _ _ g1 g2 g3 g4 ?_ ?_ ?_
    · rw [s1, t1]; unfold lastTrimmed; rw [k1]
    · rw [s2, t2]; unfold lastTrimmed; rw [k2]
    · rw [s3, t3]; unfold firstTrimmed; rw [k3]

theorem parse_permuted_others_witness :
    ∃ res1, ParseNginxV builtLinesSwapped = .ok res1 ∧ res1 = builtLinesResult ∧
      res1.BuiltBy = "built by gcc 9.4".toList ∧
      res1.BuiltWith = "built with OpenSSL 3.0".toList := by
  obtain ⟨res1, h1, _, _, _, _, _, _, _, _, _, _, _, hall⟩ :=
    parse_permuted_others builtLinesText builtLinesSwapped builtLinesResult
      builtLines_permuted builtLines_parse
  have h := hall (by decide) (by decide) (by decide)
  exact ⟨res1, h1, h, by rw [h]; rfl, by rw [h]; rfl⟩

end NginxAutomake
